import Mathlib

/-!
# Verification of the Map-Editor route planner

Shallow embedding of the planning core of the Map-Editor repository:

* `src/client/src/lib/navigation.ts` — graph construction from road
  polylines, nearest-point projection and projection insertion;
* `src/client/src/pages/home.tsx` (the `multiVehicleNavigation` module) —
  the conflict estimator `calculateConflictPenalty_WithEstimatedDelay`,
  the time-aware A* `A_star_time_aware`, and the fleet orchestrator
  `planAllVehicleRoutes`.

Modelling conventions:

* JavaScript numbers are modelled as `ℚ`; wherever the source can produce
  `Infinity` (heuristic values, `gScore` maps initialised to `Infinity`,
  times derived from them) we use `WithTop ℚ`, whose `⊤` plays the role of
  `Infinity` (`⊤ + x = ⊤`, `⊤ < ⊤` is false, exactly as for `Infinity`).
* A JavaScript `Map` is an association list (`List (κ × α)`) with JS
  semantics: `set` overwrites in place (keeping insertion order) or
  appends, iteration is in insertion order.
* Node keys `latLngToString` ("lat.toFixed(8),lng.toFixed(8)") are
  modelled as the pair of 8-decimal-digit roundings `(⌊lat·10⁸+1/2⌋,
  ⌊lng·10⁸+1/2⌋) : ℤ × ℤ`; `stringToLatLng` parses the printed decimal
  back, i.e. maps the key `(i, j)` to `(i/10⁸, j/10⁸)`.
* The transcendental Haversine `calculateDistance` is not expressible in
  an exact shallow embedding; it is abstracted as a parameter
  `cd : LatLng → LatLng → ℚ`, and the properties of the true Haversine a
  theorem needs (non-negativity, triangle inequality along graph edges)
  are taken as explicit hypotheses.  Everything else (projection,
  intersection, tolerance tests, key rounding) is exact rational
  arithmetic, translated directly.
-/

namespace MapEditorProof

/-! ## JavaScript `Map` as an association list -/

/-- `Map.get`: first binding of the key, if any. -/
def jget {κ α : Type} [DecidableEq κ] (m : List (κ × α)) (k : κ) : Option α :=
  (m.find? (fun e => e.1 = k)).map (·.2)

/-- `Map.set`: overwrite the first binding in place, else append
(JavaScript `Map.set` keeps the original insertion position of an
existing key). -/
def jset {κ α : Type} [DecidableEq κ] : List (κ × α) → κ → α → List (κ × α)
  | [], k, v => [(k, v)]
  | e :: es, k, v => if e.1 = k then (k, v) :: es else e :: jset es k v

/-- `Map.delete`: remove the bindings of a key. -/
def jdel {κ α : Type} [DecidableEq κ] (m : List (κ × α)) (k : κ) : List (κ × α) :=
  m.filter (fun e => ¬ e.1 = k)

/-- `Map.has`. -/
def jhas {κ α : Type} [DecidableEq κ] (m : List (κ × α)) (k : κ) : Bool :=
  (jget m k).isSome

/-- `map.get(k)!.f(...)`-style update of the value stored under `k`,
a no-op when the key is absent (the source would throw there). -/
def jupd {κ α : Type} [DecidableEq κ] (m : List (κ × α)) (k : κ) (f : α → α) :
    List (κ × α) :=
  match jget m k with
  | some v => jset m k (f v)
  | none => m

theorem jget_nil {κ α : Type} [DecidableEq κ] (k : κ) :
    jget ([] : List (κ × α)) k = none := rfl

theorem jget_cons {κ α : Type} [DecidableEq κ] (e : κ × α) (es : List (κ × α)) (k : κ) :
    jget (e :: es) k = if e.1 = k then some e.2 else jget es k := by
  by_cases h : e.1 = k <;> simp [jget, List.find?, h]

theorem jget_jset_self {κ α : Type} [DecidableEq κ] (m : List (κ × α)) (k : κ) (v : α) :
    jget (jset m k v) k = some v := by
  induction m with
  | nil => simp [jset, jget_cons]
  | cons e es ih =>
    by_cases h : e.1 = k
    · simp [jset, h, jget_cons]
    · simp [jset, h, jget_cons, ih]

theorem jget_jset_ne {κ α : Type} [DecidableEq κ] (m : List (κ × α)) (k k' : κ) (v : α)
    (h : k ≠ k') : jget (jset m k v) k' = jget m k' := by
  induction m with
  | nil => simp [jset, jget_cons, jget_nil, h]
  | cons e es ih =>
    by_cases he : e.1 = k
    · subst he
      simp [jset, jget_cons, h]
    · simp only [jset, if_neg he, jget_cons, ih]

theorem jdel_cons {κ α : Type} [DecidableEq κ] (e : κ × α) (es : List (κ × α)) (k : κ) :
    jdel (e :: es) k = if e.1 = k then jdel es k else e :: jdel es k := by
  by_cases h : e.1 = k <;> simp [jdel, h]

theorem jget_jdel_self {κ α : Type} [DecidableEq κ] (m : List (κ × α)) (k : κ) :
    jget (jdel m k) k = none := by
  induction m with
  | nil => rfl
  | cons e es ih =>
    rw [jdel_cons]
    by_cases h : e.1 = k
    · simpa [h] using ih
    · simpa [h, jget_cons] using ih

theorem jget_jdel_ne {κ α : Type} [DecidableEq κ] (m : List (κ × α)) (k k' : κ)
    (h : k ≠ k') : jget (jdel m k) k' = jget m k' := by
  induction m with
  | nil => rfl
  | cons e es ih =>
    rw [jdel_cons]
    by_cases he : e.1 = k
    · have hne : ¬ e.1 = k' := by rw [he]; exact h
      simp [he, jget_cons, hne, ih, h]
    · simp [he, jget_cons, ih]

theorem jget_jupd {κ α : Type} [DecidableEq κ] (m : List (κ × α)) (k k' : κ) (f : α → α) :
    jget (jupd m k f) k' =
      if k = k' then (jget m k).map f else jget m k' := by
  unfold jupd
  rcases hm : jget m k with _ | v
  · by_cases h : k = k' <;> simp [h, hm] <;> simp [h ▸ hm]
  · by_cases h : k = k'
    · subst h; simp [jget_jset_self, hm]
    · simp [h, jget_jset_ne m k k' _ h]

theorem jset_ne_nil {κ α : Type} [DecidableEq κ] (m : List (κ × α)) (k : κ) (v : α) :
    jset m k v ≠ [] := by
  cases m with
  | nil => simp [jset]
  | cons e es => by_cases h : e.1 = k <;> simp [jset, h]

theorem jhas_iff {κ α : Type} [DecidableEq κ] (m : List (κ × α)) (k : κ) :
    jhas m k = true ↔ (jget m k).isSome := by
  simp [jhas]

/-! ## Data model (`navigation.ts`) -/

/-- `LatLng` — coordinates as exact rationals. -/
structure LatLng where
  lat : ℚ
  lng : ℚ
  deriving DecidableEq, Repr

/-- The part of `MapFeature` the planner reads: `id`, `type`, `path`,
`properties.isBlocked`. -/
structure MapFeature where
  id : String
  type : String
  path : Option (List LatLng)
  isBlocked : Bool
  deriving DecidableEq, Repr

/-- Node keys: `latLngToString` prints each coordinate with
`toFixed(8)`; we model the resulting string by the pair of rounded
integers (units of 10⁻⁸ degrees).  (The model identifies the strings
"0.00000000" and "-0.00000000"; no claim depends on that corner.) -/
abbrev NodeKey : Type := ℤ × ℤ

/-- Rounding of `toFixed(8)` (round-half-up on exact rationals). -/
def round8 (x : ℚ) : ℤ := ⌊x * 100000000 + 1/2⌋

/-- `latLngToString`. -/
def latLngToString (p : LatLng) : NodeKey := (round8 p.lat, round8 p.lng)

/-- `stringToLatLng`: parse the fixed-precision decimal back. -/
def stringToLatLng (k : NodeKey) : LatLng :=
  ⟨(k.1 : ℚ) / 100000000, (k.2 : ℚ) / 100000000⟩

/-- `arePointsEqual` with the default tolerance `1e-7`. -/
def arePointsEqual (p1 p2 : LatLng) : Prop :=
  |p1.lat - p2.lat| < 1/10000000 ∧ |p1.lng - p2.lng| < 1/10000000

instance : DecidablePred (fun pq : LatLng × LatLng => arePointsEqual pq.1 pq.2) :=
  fun _ => by unfold arePointsEqual; infer_instance

instance (p1 p2 : LatLng) : Decidable (arePointsEqual p1 p2) := by
  unfold arePointsEqual; infer_instance

/-- Points that fail the tolerance test get distinct node keys:
a difference of at least 10⁻⁷ in one axis survives rounding to 10⁻⁸. -/
theorem latLngToString_ne_of_not_equal (p q : LatLng)
    (h : ¬ arePointsEqual p q) : latLngToString p ≠ latLngToString q := by
  unfold arePointsEqual at h
  rw [not_and_or, not_lt, not_lt] at h
  have key : ∀ x y : ℚ, 1/10000000 ≤ |x - y| → round8 x ≠ round8 y := by
    intro x y hxy
    unfold round8
    rcases le_or_lt x y with hle | hlt
    · have h10 : x * 100000000 + 10 ≤ y * 100000000 := by
        have : 1/10000000 ≤ y - x := by
          rw [abs_sub_comm] at hxy
          have := le_abs_self (y - x)
          have hy : |y - x| = y - x := abs_of_nonneg (by linarith)
          linarith [hxy, hy ▸ hxy]
        nlinarith
      intro hcon
      have h1 : (⌊x * 100000000 + 1/2⌋ : ℤ) + 10 ≤ ⌊y * 100000000 + 1/2⌋ := by
        have : (x * 100000000 + 1/2) + 10 ≤ y * 100000000 + 1/2 := by linarith
        calc (⌊x * 100000000 + 1/2⌋ : ℤ) + 10 = ⌊x * 100000000 + 1/2 + 10⌋ := by
              rw [← Int.floor_add_int]; norm_num
          _ ≤ ⌊y * 100000000 + 1/2⌋ := Int.floor_le_floor this
      omega
    · have h10 : y * 100000000 + 10 ≤ x * 100000000 := by
        have : 1/10000000 ≤ x - y := by
          have hy : |x - y| = x - y := abs_of_nonneg (by linarith)
          linarith [hy ▸ hxy]
        nlinarith
      intro hcon
      have h1 : (⌊y * 100000000 + 1/2⌋ : ℤ) + 10 ≤ ⌊x * 100000000 + 1/2⌋ := by
        have : (y * 100000000 + 1/2) + 10 ≤ x * 100000000 + 1/2 := by linarith
        calc (⌊y * 100000000 + 1/2⌋ : ℤ) + 10 = ⌊y * 100000000 + 1/2 + 10⌋ := by
              rw [← Int.floor_add_int]; norm_num
          _ ≤ ⌊x * 100000000 + 1/2⌋ := Int.floor_le_floor this
      omega
  intro hk
  unfold latLngToString at hk
  rcases h with hlat | hlng
  · exact key p.lat q.lat hlat (congrArg Prod.fst hk)
  · exact key p.lng q.lng hlng (congrArg Prod.snd hk)

/-- `projectPointOnLineSegment` (planar, `lat` as x, `lng` as y). -/
def projectPointOnLineSegment (A B C : LatLng) : LatLng :=
  let ABx := B.lat - A.lat
  let ABy := B.lng - A.lng
  let ACx := C.lat - A.lat
  let ACy := C.lng - A.lng
  let dotAB_AB := ABx * ABx + ABy * ABy
  if dotAB_AB = 0 then A
  else
    let t0 := (ABx * ACx + ABy * ACy) / dotAB_AB
    let t := max 0 (min 1 t0)
    ⟨A.lat + t * ABx, A.lng + t * ABy⟩

/-- `findIntersection`: parametric two-line intersection on (lng, lat). -/
def findIntersection (A B C D : LatLng) : Option LatLng :=
  let p0x := A.lng; let p0y := A.lat
  let p1x := B.lng; let p1y := B.lat
  let p2x := C.lng; let p2y := C.lat
  let p3x := D.lng; let p3y := D.lat
  let s1x := p1x - p0x
  let s1y := p1y - p0y
  let s2x := p3x - p2x
  let s2y := p3y - p2y
  let denominator := -s2x * s1y + s1x * s2y
  if |denominator| < 1/1000000000 then none
  else
    let s := (-s1y * (p0x - p2x) + s1x * (p0y - p2y)) / denominator
    let t := (s2x * (p0y - p2y) - s2y * (p0x - p2x)) / denominator
    let epsilon : ℚ := 1/100000
    if -epsilon ≤ s ∧ s ≤ 1 + epsilon ∧ -epsilon ≤ t ∧ t ≤ 1 + epsilon then
      some ⟨p0y + t * s1y, p0x + t * s1x⟩
    else none

/-- `snapToVertex`: first vertex within tolerance, else the point itself. -/
def snapToVertex (point : LatLng) (vertices : List LatLng) : LatLng :=
  ((vertices.find? (fun v => decide (arePointsEqual point v))).getD point)

/-- The planner's graph: node key ↦ (neighbor key ↦ edge weight). -/
abbrev Graph : Type := List (NodeKey × List (NodeKey × ℚ))

/-- Edge lookup `graph.get(u)?.get(v)`. -/
def graphGet2 (g : Graph) (u v : NodeKey) : Option ℚ :=
  (jget g u).bind (fun m => jget m v)

/-- `graph.get(a)!.set(b, d)` — a no-op when `a` is absent (the source
would throw there). -/
def setEdge (g : Graph) (a b : NodeKey) (d : ℚ) : Graph :=
  jupd g a (fun m => jset m b d)

/-- `graph.get(a)?.delete(b)`. -/
def delEdge (g : Graph) (a b : NodeKey) : Graph :=
  jupd g a (fun m => jdel m b)

/-- `if (!graph.has(k)) graph.set(k, new Map())`. -/
def ensureNode (g : Graph) (k : NodeKey) : Graph :=
  if jhas g k then g else jset g k []

/-- `graph.get(a)?.has(b)`. -/
def graphHasEdge (g : Graph) (a b : NodeKey) : Bool :=
  match jget g a with
  | some m => jhas m b
  | none => false

/-- Default coordinate used for (never-taken) out-of-range list indexing. -/
def origin : LatLng := ⟨0, 0⟩

/-! ## `buildGraph` -/

/-- Consecutive-duplicate removal in `buildGraph` step 1: element `i` is
kept iff it is not tolerance-equal to the *original* element `i−1`. -/
def uniquePathGo (prev : LatLng) : List LatLng → List LatLng
  | [] => []
  | x :: xs =>
    if arePointsEqual x prev then uniquePathGo x xs else x :: uniquePathGo x xs

/-- The `uniquePath` of a polyline. -/
def uniquePathOf : List LatLng → List LatLng
  | [] => []
  | a :: rest => a :: uniquePathGo a rest

/-- A normalized polyline together with its loop flag. -/
structure ProcessedRoad where
  path : List LatLng
  isLoop : Bool
  deriving DecidableEq, Repr

/-- Normalization of one road feature (`buildGraph` step 1 filtering):
non-`road` kinds, missing/short paths and blocked roads are dropped;
loops are detected and their duplicate terminal vertex popped. -/
def processRoad (road : MapFeature) : Option ProcessedRoad :=
  match road.path with
  | none => none
  | some p =>
    if road.type = "road" ∧ 2 ≤ p.length ∧ road.isBlocked = false then
      let u := uniquePathOf p
      if 2 ≤ u.length then
        if 2 < u.length ∧ arePointsEqual (u.getD 0 origin) (u.getD (u.length - 1) origin) then
          some ⟨u.dropLast, true⟩
        else some ⟨u, false⟩
      else none
    else none

/-- The consecutive vertex pairs seeded as edges: indices
`(i, (i+1) % n)`, the wrap-around pair kept only for loops. -/
def seedPairs (pr : ProcessedRoad) : List (LatLng × LatLng) :=
  let allPairs := pr.path.zip (pr.path.rotate 1)
  if pr.isLoop then allPairs else allPairs.dropLast

/-- Insert the undirected edge `p1 —— p2` weighted by `cd p1 p2`,
creating the endpoint nodes as needed. -/
def addSegmentEdge (cd : LatLng → LatLng → ℚ) (g : Graph) (p1 p2 : LatLng) : Graph :=
  let p1s := latLngToString p1
  let p2s := latLngToString p2
  let g := ensureNode g p1s
  let g := ensureNode g p2s
  let dist := cd p1 p2
  let g := setEdge g p1s p2s dist
  setEdge g p2s p1s dist

/-- `buildGraph` step 1: seed all original road segments. -/
def seedGraph (cd : LatLng → LatLng → ℚ) (prs : List ProcessedRoad) : Graph :=
  prs.foldl
    (fun g pr => (seedPairs pr).foldl (fun g pq => addSegmentEdge cd g pq.1 pq.2) g) []

/-- One recorded intersection: snapped point and the two host segments. -/
structure IntersectionRecord where
  point : LatLng
  seg1 : LatLng × LatLng
  seg2 : LatLng × LatLng
  deriving DecidableEq, Repr

/-- Self-intersections of one polyline (`buildGraph` step 2, `i = j`
case): segment pairs `(j, k)` with `k ≥ j+2`, skipping the wrap-adjacent
first/last pair of a loop and the non-edges of open polylines. -/
def selfIntersections (r1 : ProcessedRoad) : List IntersectionRecord :=
  let n := r1.path.length
  (List.range n).flatMap (fun j =>
    let seg1A := r1.path.getD j origin
    let seg1B := r1.path.getD ((j + 1) % n) origin
    if j = n - 1 ∧ r1.isLoop = false then []
    else
      (List.range n).flatMap (fun k =>
        if k < j + 2 then []
        else if r1.isLoop = true ∧ j = 0 ∧ k = n - 1 then []
        else
          let seg2A := r1.path.getD k origin
          let seg2B := r1.path.getD ((k + 1) % n) origin
          if k = n - 1 ∧ r1.isLoop = false then []
          else
            match findIntersection seg1A seg1B seg2A seg2B with
            | some inter =>
                [⟨snapToVertex inter r1.path, (seg1A, seg1B), (seg2A, seg2B)⟩]
            | none => []))

/-- Intersections between two distinct polylines (`buildGraph` step 2). -/
def crossIntersections (r1 r2 : ProcessedRoad) : List IntersectionRecord :=
  let n1 := r1.path.length
  let n2 := r2.path.length
  (List.range n1).flatMap (fun j =>
    let seg1A := r1.path.getD j origin
    let seg1B := r1.path.getD ((j + 1) % n1) origin
    if j = n1 - 1 ∧ r1.isLoop = false then []
    else
      (List.range n2).flatMap (fun k =>
        let seg2A := r2.path.getD k origin
        let seg2B := r2.path.getD ((k + 1) % n2) origin
        if k = n2 - 1 ∧ r2.isLoop = false then []
        else
          match findIntersection seg1A seg1B seg2A seg2B with
          | some inter =>
              [⟨snapToVertex inter (r1.path ++ r2.path), (seg1A, seg1B), (seg2A, seg2B)⟩]
          | none => []))

/-- All intersection records, in source collection order. -/
def allIntersections (prs : List ProcessedRoad) : List IntersectionRecord :=
  (List.range prs.length).flatMap (fun i =>
    let r1 := prs.getD i ⟨[], false⟩
    selfIntersections r1 ++
      (List.range prs.length).flatMap (fun l =>
        if l ≤ i then [] else crossIntersections r1 (prs.getD l ⟨[], false⟩)))

/-- `buildGraph` step 3, inner loop body: split one host segment `{A,B}`
at the intersection node (when the point is strictly interior and the
edge still exists). -/
def splitSegmentAt (cd : LatLng → LatLng → ℚ) (point : LatLng) (intStr : NodeKey)
    (g : Graph) (seg : LatLng × LatLng) : Graph :=
  let segA := seg.1
  let segB := seg.2
  let segAStr := latLngToString segA
  let segBStr := latLngToString segB
  if ¬ arePointsEqual point segA ∧ ¬ arePointsEqual point segB then
    if graphHasEdge g segAStr segBStr then
      let g := delEdge g segAStr segBStr
      let g := delEdge g segBStr segAStr
      let distAInt := cd segA point
      let distBInt := cd segB point
      let g := setEdge g segAStr intStr distAInt
      let g := setEdge g intStr segAStr distAInt
      let g := setEdge g segBStr intStr distBInt
      setEdge g intStr segBStr distBInt
    else g
  else g

/-- `buildGraph` step 3, outer loop body: materialize one recorded
intersection (ensure the node exists, then split both host segments). -/
def applyIntersection (cd : LatLng → LatLng → ℚ) (g : Graph)
    (rec : IntersectionRecord) : Graph :=
  let intStr := latLngToString rec.point
  let g := ensureNode g intStr
  let g := splitSegmentAt cd rec.point intStr g rec.seg1
  splitSegmentAt cd rec.point intStr g rec.seg2

/-- `buildGraph`. -/
def buildGraph (cd : LatLng → LatLng → ℚ) (roads : List MapFeature) : Graph :=
  let processedRoads := roads.filterMap processRoad
  let g := seedGraph cd processedRoads
  (allIntersections processedRoads).foldl (applyIntersection cd) g

/-! ## `findNearestPointOnGraph` and `addPointToGraph` -/

/-- `NearestPointInfo`. -/
structure NearestPointInfo where
  point : LatLng
  pointStr : NodeKey
  segmentNodes : NodeKey × NodeKey
  onExistingNode : Bool
  deriving DecidableEq, Repr

/-- Scan state of `findNearestPointOnGraph` (`minDistance` starts at
`Infinity`, modelled by `⊤`). -/
structure FNState where
  minDistance : WithTop ℚ
  nearestResult : Option NearestPointInfo
  visitedSegments : List (NodeKey × NodeKey)
  deriving DecidableEq, Repr

/-- Inner edge scan of `findNearestPointOnGraph`: one neighbor
`nodeB` of `nodeA`, skipping already-visited undirected segments and
degenerate `nodeA = nodeB` pairs. -/
def fnpgInner (cd : LatLng → LatLng → ℚ) (target : LatLng) (nodeAStr : NodeKey)
    (nodeALatlng : LatLng) (st : FNState) (edge : NodeKey × ℚ) : FNState :=
  let nodeBStr := edge.1
  if (nodeAStr, nodeBStr) ∈ st.visitedSegments ∨
      (nodeBStr, nodeAStr) ∈ st.visitedSegments ∨ nodeAStr = nodeBStr then st
  else
    let visited := st.visitedSegments ++ [(nodeAStr, nodeBStr)]
    let nodeBLatlng := stringToLatLng nodeBStr
    let projectedPoint := projectPointOnLineSegment nodeALatlng nodeBLatlng target
    let distToProjected := cd target projectedPoint
    if (distToProjected : WithTop ℚ) < st.minDistance then
      let res :=
        if arePointsEqual projectedPoint nodeALatlng then
          NearestPointInfo.mk nodeALatlng nodeAStr (nodeAStr, nodeBStr) true
        else if arePointsEqual projectedPoint nodeBLatlng then
          NearestPointInfo.mk nodeBLatlng nodeBStr (nodeAStr, nodeBStr) true
        else
          NearestPointInfo.mk projectedPoint (latLngToString projectedPoint)
            (nodeAStr, nodeBStr) false
      ⟨(distToProjected : WithTop ℚ), some res, visited⟩
    else ⟨st.minDistance, st.nearestResult, visited⟩

/-- Outer node scan of `findNearestPointOnGraph`: compare the node
itself, then scan its edges. -/
def fnpgOuter (cd : LatLng → LatLng → ℚ) (target : LatLng) (st : FNState)
    (entry : NodeKey × List (NodeKey × ℚ)) : FNState :=
  let nodeAStr := entry.1
  let nodeALatlng := stringToLatLng nodeAStr
  let distToNodeA := cd target nodeALatlng
  let st :=
    if (distToNodeA : WithTop ℚ) < st.minDistance then
      FNState.mk (distToNodeA : WithTop ℚ)
        (some (NearestPointInfo.mk nodeALatlng nodeAStr (nodeAStr, nodeAStr) true))
        st.visitedSegments
    else st
  entry.2.foldl (fnpgInner cd target nodeAStr nodeALatlng) st

/-- `findNearestPointOnGraph`. -/
def findNearestPointOnGraph (cd : LatLng → LatLng → ℚ) (target : LatLng)
    (graph : Graph) : Option NearestPointInfo :=
  (graph.foldl (fnpgOuter cd target) ⟨⊤, none, []⟩).nearestResult

/-- `addPointToGraph`: returns the effective node key and (in place of
the source's mutation) the updated graph. -/
def addPointToGraph (cd : LatLng → LatLng → ℚ) (graph : Graph)
    (nearestInfo : NearestPointInfo) : NodeKey × Graph :=
  if nearestInfo.onExistingNode then (nearestInfo.pointStr, graph)
  else
    let projectedPointStr := nearestInfo.pointStr
    let projectedPointLatLng := nearestInfo.point
    if jhas graph projectedPointStr then (projectedPointStr, graph)
    else
      let g := jset graph projectedPointStr []
      let segNodeAStr := nearestInfo.segmentNodes.1
      let segNodeBStr := nearestInfo.segmentNodes.2
      let segNodeALatlng := stringToLatLng segNodeAStr
      let segNodeBLatlng := stringToLatLng segNodeBStr
      let g := delEdge g segNodeAStr segNodeBStr
      let g := delEdge g segNodeBStr segNodeAStr
      let distProjToSegA := cd projectedPointLatLng segNodeALatlng
      let g := setEdge g projectedPointStr segNodeAStr distProjToSegA
      let g := setEdge g segNodeAStr projectedPointStr distProjToSegA
      let distProjToSegB := cd projectedPointLatLng segNodeBLatlng
      let g := setEdge g projectedPointStr segNodeBStr distProjToSegB
      let g := setEdge g segNodeBStr projectedPointStr distProjToSegB
      (projectedPointStr, g)

/-! ## `multiVehicleNavigation` (home.tsx): data model -/

/-- Truncated subtraction stand-in for JS `a - b` on `WithTop ℚ`
(`Infinity - x = Infinity`, `x - Infinity` never occurs on a reachable
path and is mapped to `⊤`). -/
def wsub (a b : WithTop ℚ) : WithTop ℚ :=
  WithTop.recTopCoe ⊤
    (fun x => WithTop.recTopCoe ⊤ (fun y => ((x - y : ℚ) : WithTop ℚ)) b) a

theorem wsub_coe_coe (x y : ℚ) : wsub (x : WithTop ℚ) (y : WithTop ℚ) = ((x - y : ℚ) : WithTop ℚ) := rfl

theorem wsub_top_left (b : WithTop ℚ) : wsub ⊤ b = ⊤ := rfl

/-- `VehicleRequest`. -/
structure VehicleRequest where
  id : String
  speed : ℚ
  length : ℚ
  startPosition : LatLng
  endPosition : LatLng
  startTime : ℚ
  deriving DecidableEq, Repr

/-- `VehicleInfoForPlanning` (`extends VehicleRequest` modelled by
nesting the request). -/
structure VehicleInfoForPlanning where
  request : VehicleRequest
  effectiveStartNodeStr : NodeKey
  effectiveEndNodeStr : NodeKey
  deriving DecidableEq, Repr

/-- `TimedNode` (times may be `Infinity`, hence `WithTop ℚ`). -/
structure TimedNode where
  nodeStr : NodeKey
  latlng : LatLng
  time : WithTop ℚ
  deriving DecidableEq, Repr

/-- `SegmentOccupation`. -/
structure SegmentOccupation where
  vehicleId : String
  nodeA_str : NodeKey
  nodeB_str : NodeKey
  startTime : WithTop ℚ
  endTime : WithTop ℚ
  deriving DecidableEq, Repr

/-- `NodeOccupation`. -/
structure NodeOccupation where
  vehicleId : String
  nodeStr : NodeKey
  entryTime : WithTop ℚ
  exitTime : WithTop ℚ
  deriving DecidableEq, Repr

/-- Order on node keys standing in for the lexicographic comparison of
the key strings in `u_str < v_str` (only the existence of a consistent
canonical orientation matters). -/
def keyLt (a b : NodeKey) : Prop := a.1 < b.1 ∨ (a.1 = b.1 ∧ a.2 < b.2)

instance (a b : NodeKey) : Decidable (keyLt a b) := by
  unfold keyLt; infer_instance

/-- Canonical undirected segment key. -/
def segmentKey (u v : NodeKey) : NodeKey × NodeKey :=
  if keyLt u v then (u, v) else (v, u)

/-- `GlobalReservations`. -/
structure GlobalReservations where
  segmentOccupations : List ((NodeKey × NodeKey) × List SegmentOccupation)
  nodeOccupations : List (NodeKey × List NodeOccupation)
  deriving DecidableEq, Repr

/-- Plan status. -/
inductive PlanStatus where
  | SUCCESS
  | FAILED_NO_PATH
  | FAILED_CONSTRAINED
  deriving DecidableEq, Repr

/-- `VehiclePathPlan`. -/
structure VehiclePathPlan where
  vehicleId : String
  path : List TimedNode
  totalTimeSeconds : WithTop ℚ
  status : PlanStatus
  deriving DecidableEq, Repr

/-- `AStarQueueItem`. -/
structure AStarQueueItem where
  nodeStr : NodeKey
  gScore : WithTop ℚ
  fScore : WithTop ℚ
  currentTimeAtNode : WithTop ℚ
  parentStr : Option NodeKey
  deriving DecidableEq, Repr

/-! ## Constants -/

def HUGE_PENALTY : ℚ := 1000000000

def SAFETY_TIME_WINDOW_NODE_SECONDS : ℚ := 15

def NODE_CLEARANCE_TIME_SECONDS : ℚ := 10

def INCONVENIENCE_PENALTY_SECONDS : ℚ := 30

/-! ## Heuristic and conflict estimator -/

/-- `heuristic`: straight-line time, `Infinity` for non-positive speed. -/
def heuristic (cd : LatLng → LatLng → ℚ) (nodeLatlng goalLatlng : LatLng)
    (vehicleSpeed : ℚ) : WithTop ℚ :=
  if vehicleSpeed ≤ 0 then ⊤
  else ((cd nodeLatlng goalLatlng / vehicleSpeed : ℚ) : WithTop ℚ)

/-- `currentWait` for one segment reservation: `res.endTime - enter`
when positive, else `0`. -/
def segWaitOf (frontEnters : WithTop ℚ) (res : SegmentOccupation) : WithTop ℚ :=
  if frontEnters < res.endTime then wsub res.endTime frontEnters else 0

/-- Segment-conflict loop body of
`calculateConflictPenalty_WithEstimatedDelay`: skip own reservations,
require time overlap, add `HUGE_PENALTY/1000` on an opposite-direction
reservation with positive wait, then fold the wait into the maximum. -/
def segConflictStep (u_str v_str : NodeKey) (currentVehicleId : String)
    (frontEnters tailExits : WithTop ℚ) (resList : List SegmentOccupation)
    (acc : WithTop ℚ) (res : SegmentOccupation) : WithTop ℚ :=
  if res.vehicleId = currentVehicleId then acc
  else if max frontEnters res.startTime < min tailExits res.endTime then
    let currentWait := segWaitOf frontEnters res
    let acc1 :=
      if (resList.find? (fun r =>
            decide (r.vehicleId = res.vehicleId ∧
              ((r.nodeA_str = v_str ∧ r.nodeB_str = u_str) ∨
               (r.nodeA_str = u_str ∧ r.nodeB_str = v_str))))).isSome then
        if res.nodeA_str = v_str ∧ res.nodeB_str = u_str ∧ 0 < currentWait then
          max acc (currentWait + ((HUGE_PENALTY / 1000 : ℚ) : WithTop ℚ))
        else acc
      else acc
    max acc1 currentWait
  else acc

/-- `currentWait` for one node reservation. -/
def nodeWaitOf (arrival : WithTop ℚ) (res : NodeOccupation) : WithTop ℚ :=
  if arrival < res.exitTime then wsub res.exitTime arrival else 0

/-- Node-conflict loop body of
`calculateConflictPenalty_WithEstimatedDelay`. -/
def nodeConflictStep (currentVehicleId : String) (arrival clearUntil : WithTop ℚ)
    (acc : WithTop ℚ) (res : NodeOccupation) : WithTop ℚ :=
  if res.vehicleId = currentVehicleId then acc
  else if max arrival res.entryTime < min clearUntil res.exitTime then
    max acc (nodeWaitOf arrival res)
  else acc

/-- The value of `maxEstimatedDelayThisStep` after both conflict loops
(given the segment distance looked up from the graph). -/
def maxEstimatedDelay (u_str v_str : NodeKey)
    (departureTimeFromU_abs arrivalTimeAtV_abs : WithTop ℚ)
    (currentVehicleId : String) (currentVehicleLength currentVehicleSpeed : ℚ)
    (reservations : GlobalReservations) (segmentDistance : ℚ) : WithTop ℚ :=
  let frontEnters := departureTimeFromU_abs
  let timeForTailToClearSegment :=
    (segmentDistance + currentVehicleLength) / currentVehicleSpeed
  let tailExits := departureTimeFromU_abs + (timeForTailToClearSegment : WithTop ℚ)
  let segList := (jget reservations.segmentOccupations (segmentKey u_str v_str)).getD []
  let afterSeg :=
    segList.foldl (segConflictStep u_str v_str currentVehicleId frontEnters tailExits segList) 0
  let clearUntil := arrivalTimeAtV_abs + (NODE_CLEARANCE_TIME_SECONDS : WithTop ℚ)
  let nodeList := (jget reservations.nodeOccupations v_str).getD []
  nodeList.foldl (nodeConflictStep currentVehicleId arrivalTimeAtV_abs clearUntil) afterSeg

/-- `calculateConflictPenalty_WithEstimatedDelay`. -/
def calculateConflictPenalty_WithEstimatedDelay (u_str v_str : NodeKey)
    (departureTimeFromU_abs arrivalTimeAtV_abs : WithTop ℚ)
    (currentVehicleId : String) (currentVehicleLength currentVehicleSpeed : ℚ)
    (reservations : GlobalReservations) (graph : Graph) : WithTop ℚ :=
  match graphGet2 graph u_str v_str with
  | none => (HUGE_PENALTY : WithTop ℚ)
  | some segmentDistance =>
    let maxDelay := maxEstimatedDelay u_str v_str departureTimeFromU_abs
      arrivalTimeAtV_abs currentVehicleId currentVehicleLength currentVehicleSpeed
      reservations segmentDistance
    if 0 < maxDelay then maxDelay + (INCONVENIENCE_PENALTY_SECONDS : WithTop ℚ)
    else 0

/-! ## `A_star_time_aware` -/

/-- Mutable search state of one A* run. -/
structure AStarState where
  openSet : List AStarQueueItem
  cameFrom : List (NodeKey × NodeKey)
  gScores : List (NodeKey × WithTop ℚ)
  deriving DecidableEq, Repr

/-- `openSet.set(v, item)` keyed by `nodeStr`. -/
def osSet : List AStarQueueItem → AStarQueueItem → List AStarQueueItem
  | [], it => [it]
  | x :: xs, it => if x.nodeStr = it.nodeStr then it :: xs else x :: osSet xs it

/-- `openSet.delete(k)`. -/
def osDelete (os : List AStarQueueItem) (k : NodeKey) : List AStarQueueItem :=
  os.filter (fun x => ¬ x.nodeStr = k)

/-- The open-set scan for the item of strictly smallest `fScore`
(`minFScore` starts at `Infinity`; an all-`⊤` open set yields none). -/
def findMinF (os : List AStarQueueItem) : Option AStarQueueItem :=
  os.foldl
    (fun best it =>
      match best with
      | none => if it.fScore < ⊤ then some it else none
      | some b => if it.fScore < b.fScore then some it else best)
    none

/-- Relaxation of one neighbor `v` of the popped item. -/
def relaxNeighbor (cd : LatLng → LatLng → ℚ) (graph : Graph)
    (vehicleInfo : VehicleInfoForPlanning) (reservations : GlobalReservations)
    (goalNodeLatlng : LatLng) (u_item : AStarQueueItem) (st : AStarState)
    (edge : NodeKey × ℚ) : AStarState :=
  let v_str := edge.1
  let distance_uv := edge.2
  if vehicleInfo.request.speed ≤ 0 then st
  else
    let baseTravelTime_uv := distance_uv / vehicleInfo.request.speed
    let departureTimeFromU_abs := u_item.currentTimeAtNode
    let arrivalTimeAtV_ifNoWait_abs :=
      departureTimeFromU_abs + (baseTravelTime_uv : WithTop ℚ)
    let estimatedDelayOrPenalty_uv := calculateConflictPenalty_WithEstimatedDelay
      u_item.nodeStr v_str departureTimeFromU_abs arrivalTimeAtV_ifNoWait_abs
      vehicleInfo.request.id vehicleInfo.request.length vehicleInfo.request.speed
      reservations graph
    let cost_uv_step_effective :=
      (baseTravelTime_uv : WithTop ℚ) + estimatedDelayOrPenalty_uv
    let final_gScore_v_effective := u_item.gScore + cost_uv_step_effective
    if final_gScore_v_effective < ((jget st.gScores v_str).getD ⊤) then
      let v_latlng := stringToLatLng v_str
      let hScore_v := heuristic cd v_latlng goalNodeLatlng vehicleInfo.request.speed
      let fScore_v := final_gScore_v_effective + hScore_v
      let currentTimeAtV := u_item.currentTimeAtNode + cost_uv_step_effective
      AStarState.mk
        (osSet st.openSet
          ⟨v_str, final_gScore_v_effective, fScore_v, currentTimeAtV, some u_item.nodeStr⟩)
        (jset st.cameFrom v_str u_item.nodeStr)
        (jset st.gScores v_str final_gScore_v_effective)
    else st

/-- The A* main loop (fuel-indexed; the source's `while` loop).  Returns
the popped goal item (if the goal was reached) and the final state. -/
def aStarLoop (cd : LatLng → LatLng → ℚ) (graph : Graph)
    (vehicleInfo : VehicleInfoForPlanning) (reservations : GlobalReservations)
    (goalNodeLatlng : LatLng) : ℕ → AStarState → Option AStarQueueItem × AStarState
  | 0, st => (none, st)
  | fuel + 1, st =>
    match findMinF st.openSet with
    | none => (none, st)
    | some u_item =>
      let st1 := AStarState.mk (osDelete st.openSet u_item.nodeStr) st.cameFrom st.gScores
      if u_item.nodeStr = vehicleInfo.effectiveEndNodeStr then (some u_item, st1)
      else
        let neighbors := (jget graph u_item.nodeStr).getD []
        aStarLoop cd graph vehicleInfo reservations goalNodeLatlng fuel
          (neighbors.foldl
            (relaxNeighbor cd graph vehicleInfo reservations goalNodeLatlng u_item) st1)

/-- Backward walk along `cameFrom` from the goal (the source's `while`
reconstruction; a broken link yields `null`, and the fuel bound only
cuts cyclic `cameFrom` chains, on which the source would not return). -/
def walkBack (cameFrom : List (NodeKey × NodeKey)) (startStr : NodeKey) :
    ℕ → NodeKey → List NodeKey → Option (List NodeKey)
  | 0, _, _ => none
  | n + 1, cur, acc =>
    let acc1 := cur :: acc
    if cur = startStr then some acc1
    else
      match jget cameFrom cur with
      | some p => walkBack cameFrom startStr n p acc1
      | none => none

/-- `A_star_time_aware`. -/
def A_star_time_aware (cd : LatLng → LatLng → ℚ) (graph : Graph)
    (vehicleInfo : VehicleInfoForPlanning) (vehicleActualStartTime : ℚ)
    (reservations : GlobalReservations) (fuel : ℕ) : Option (List TimedNode) :=
  let startStr := vehicleInfo.effectiveStartNodeStr
  let goalStr := vehicleInfo.effectiveEndNodeStr
  let startLL := stringToLatLng startStr
  let goalLL := stringToLatLng goalStr
  let gScores0 :=
    jset (graph.foldl (fun m e => jset m e.1 (⊤ : WithTop ℚ)) []) startStr 0
  let initialFScore := heuristic cd startLL goalLL vehicleInfo.request.speed
  let st0 : AStarState :=
    ⟨[⟨startStr, 0, initialFScore, (vehicleActualStartTime : WithTop ℚ), none⟩], [], gScores0⟩
  match aStarLoop cd graph vehicleInfo reservations goalLL fuel st0 with
  | (none, _) => none
  | (some goalItem, stF) =>
    match walkBack stF.cameFrom startStr (stF.cameFrom.length + 1) goalItem.nodeStr [] with
    | none => none
    | some seq =>
      seq.mapM (fun nodeStr =>
        (jget stF.gScores nodeStr).map (fun g =>
          TimedNode.mk nodeStr (stringToLatLng nodeStr)
            ((vehicleActualStartTime : WithTop ℚ) + g)))

/-! ## `planAllVehicleRoutes` -/

/-- A `FAILED_NO_PATH` plan (`path: [], totalTimeSeconds: 0`). -/
def failedPlan (id : String) : VehiclePathPlan :=
  ⟨id, [], 0, PlanStatus.FAILED_NO_PATH⟩

/-- `if (!m.has(k)) m.set(k, []); m.get(k)!.push(x)`. -/
def jpush {κ α : Type} [DecidableEq κ] (m : List (κ × List α)) (k : κ) (x : α) :
    List (κ × List α) :=
  jset m k ((jget m k).getD [] ++ [x])

/-- Reservation bookkeeping for the hop `nodeA → nodeB` of a planned
path: segment occupation, node-A occupation, and (on the final hop
only) node-B occupation. -/
def reserveHop (cd : LatLng → LatLng → ℚ) (vehicleInfo : VehicleInfoForPlanning)
    (isLastHop : Bool) (res : GlobalReservations) (nodeA_timed nodeB_timed : TimedNode) :
    GlobalReservations :=
  let sKey := segmentKey nodeA_timed.nodeStr nodeB_timed.nodeStr
  let segFrontEntersAtA := nodeA_timed.time
  let segmentDistance := cd nodeA_timed.latlng nodeB_timed.latlng
  let timeForTailToClearSegment :=
    (segmentDistance + vehicleInfo.request.length) / vehicleInfo.request.speed
  let segTailExitsAtB := segFrontEntersAtA + (timeForTailToClearSegment : WithTop ℚ)
  let segs := jpush res.segmentOccupations sKey
    ⟨vehicleInfo.request.id, nodeA_timed.nodeStr, nodeB_timed.nodeStr,
     segFrontEntersAtA, segTailExitsAtB⟩
  let nodes1 := jpush res.nodeOccupations nodeA_timed.nodeStr
    ⟨vehicleInfo.request.id, nodeA_timed.nodeStr,
     wsub nodeA_timed.time ((SAFETY_TIME_WINDOW_NODE_SECONDS / 2 : ℚ) : WithTop ℚ),
     nodeA_timed.time +
       ((NODE_CLEARANCE_TIME_SECONDS + SAFETY_TIME_WINDOW_NODE_SECONDS / 2 : ℚ) : WithTop ℚ)⟩
  let nodes2 :=
    if isLastHop then
      jpush nodes1 nodeB_timed.nodeStr
        ⟨vehicleInfo.request.id, nodeB_timed.nodeStr,
         wsub nodeB_timed.time ((SAFETY_TIME_WINDOW_NODE_SECONDS / 2 : ℚ) : WithTop ℚ),
         nodeB_timed.time +
           ((NODE_CLEARANCE_TIME_SECONDS + SAFETY_TIME_WINDOW_NODE_SECONDS / 2 : ℚ) : WithTop ℚ)⟩
    else nodes1
  GlobalReservations.mk segs nodes2

/-- The reservation loop over consecutive path pairs (`i` ranges over
hops; the final hop additionally reserves its arrival node). -/
def reserveAlongPath (cd : LatLng → LatLng → ℚ) (vehicleInfo : VehicleInfoForPlanning)
    (res : GlobalReservations) : List TimedNode → GlobalReservations
  | a :: b :: rest =>
    reserveAlongPath cd vehicleInfo (reserveHop cd vehicleInfo rest.isEmpty res a b) (b :: rest)
  | _ => res

/-- Planning step for one snapped vehicle (`planAllVehicleRoutes` step
5 loop body): run A*, emit a plan, extend reservations on success. -/
def processVehicle (cd : LatLng → LatLng → ℚ) (workingGraph : Graph) (fuel : ℕ)
    (st : List VehiclePathPlan × GlobalReservations)
    (vehicleInfo : VehicleInfoForPlanning) :
    List VehiclePathPlan × GlobalReservations :=
  match A_star_time_aware cd workingGraph vehicleInfo vehicleInfo.request.startTime st.2 fuel with
  | some (firstNode :: restPath) =>
    let timedNodePath := firstNode :: restPath
    let lastNode := restPath.getLastD firstNode
    let totalPathTime := wsub lastNode.time firstNode.time
    (st.1 ++ [⟨vehicleInfo.request.id, timedNodePath, totalPathTime, PlanStatus.SUCCESS⟩],
     reserveAlongPath cd vehicleInfo st.2 timedNodePath)
  | some [] => (st.1 ++ [failedPlan vehicleInfo.request.id], st.2)
  | none => (st.1 ++ [failedPlan vehicleInfo.request.id], st.2)

/-- Projection phase (`planAllVehicleRoutes` step 3): snap every
request's endpoints onto the evolving working graph, emitting failed
plans for requests that cannot be snapped. -/
def snapRequests (cd : LatLng → LatLng → ℚ) :
    Graph → List VehiclePathPlan → List VehicleInfoForPlanning →
    List VehicleRequest → Graph × List VehiclePathPlan × List VehicleInfoForPlanning
  | g, plans, vehicles, [] => (g, plans, vehicles)
  | g, plans, vehicles, request :: rest =>
    match findNearestPointOnGraph cd request.startPosition g with
    | none => snapRequests cd g (plans ++ [failedPlan request.id]) vehicles rest
    | some startInfo =>
      let sres := addPointToGraph cd g startInfo
      match findNearestPointOnGraph cd request.endPosition sres.2 with
      | none => snapRequests cd sres.2 (plans ++ [failedPlan request.id]) vehicles rest
      | some endInfo =>
        let eres := addPointToGraph cd sres.2 endInfo
        snapRequests cd eres.2 plans (vehicles ++ [⟨request, sres.1, eres.1⟩]) rest

/-- Stable insertion by a rational key, placing the new element after
all elements with key `≤` its own. -/
def insertSortedBy {α : Type} (key : α → ℚ) : List α → α → List α
  | [], v => [v]
  | x :: xs, v =>
    if key x ≤ key v then x :: insertSortedBy key xs v
    else v :: x :: xs

/-- Stable ascending sort by a rational key (insertion sort — the model
of the JS stable `Array.prototype.sort` with a numeric comparator). -/
def sortBy {α : Type} (key : α → ℚ) (l : List α) : List α :=
  l.foldl (insertSortedBy key) []

/-- The priority sort of step 4: `sort((a, b) => a.startTime - b.startTime)`,
ascending and stable. -/
def sortByStartTime (l : List VehicleInfoForPlanning) : List VehicleInfoForPlanning :=
  sortBy (fun v => v.request.startTime) l

/-- `planAllVehicleRoutes`. -/
def planAllVehicleRoutes (cd : LatLng → LatLng → ℚ) (fuel : ℕ)
    (allRoadFeatures : List MapFeature) (vehicleRequests : List VehicleRequest) :
    List VehiclePathPlan :=
  let compatibleRoadFeatures :=
    allRoadFeatures.filter (fun f => decide (f.type = "road" ∨ f.type = "blocked"))
  let baseGraph := buildGraph cd compatibleRoadFeatures
  let workingGraph := baseGraph
  let snapped := snapRequests cd workingGraph [] [] vehicleRequests
  let sortedVehicles := sortByStartTime snapped.2.2
  (sortedVehicles.foldl (processVehicle cd snapped.1 fuel)
      (snapped.2.1, GlobalReservations.mk [] [])).1

/-! ## General helper lemmas -/

theorem wsub_pos_of_lt (a b : WithTop ℚ) (h : b < a) : 0 < wsub a b := by
  induction a using WithTop.recTopCoe with
  | top =>
    rw [wsub_top_left]
    exact lt_of_lt_of_le (WithTop.coe_lt_top 0) le_rfl
  | coe x =>
    induction b using WithTop.recTopCoe with
    | top => exact absurd h (by simp)
    | coe y =>
      rw [wsub_coe_coe]
      rw [show ((0 : WithTop ℚ)) = ((0 : ℚ) : WithTop ℚ) by norm_cast]
      rw [WithTop.coe_lt_coe] at h ⊢
      linarith

theorem heuristic_of_nonpos (cd : LatLng → LatLng → ℚ) (a b : LatLng) (s : ℚ)
    (hs : s ≤ 0) : heuristic cd a b s = ⊤ := by
  simp [heuristic, hs]

theorem heuristic_of_pos (cd : LatLng → LatLng → ℚ) (a b : LatLng) (s : ℚ)
    (hs : 0 < s) : heuristic cd a b s = ((cd a b / s : ℚ) : WithTop ℚ) := by
  simp [heuristic, not_le.mpr hs]

/-- A vehicle with non-positive speed has an `Infinity` initial
`fScore`, so the open-set minimum scan never finds an item and the A*
loop exits immediately. -/
theorem A_star_none_of_nonpos_speed (cd : LatLng → LatLng → ℚ) (graph : Graph)
    (veh : VehicleInfoForPlanning) (t : ℚ) (res : GlobalReservations) (fuel : ℕ)
    (hs : veh.request.speed ≤ 0) :
    A_star_time_aware cd graph veh t res fuel = none := by
  unfold A_star_time_aware
  cases fuel with
  | zero => simp [aStarLoop]
  | succ n =>
    simp [aStarLoop, findMinF, heuristic_of_nonpos cd _ _ _ hs]

/-- `processVehicle` on an A* failure: exactly one `FAILED_NO_PATH`
plan with an empty path is appended and the reservations are returned
untouched. -/
theorem processVehicle_of_none (cd : LatLng → LatLng → ℚ) (g : Graph) (fuel : ℕ)
    (plans : List VehiclePathPlan) (res : GlobalReservations)
    (v : VehicleInfoForPlanning)
    (h : A_star_time_aware cd g v v.request.startTime res fuel = none) :
    processVehicle cd g fuel (plans, res) v =
      (plans ++ [failedPlan v.request.id], res) := by
  unfold processVehicle
  rw [h]

/-- Each `processVehicle` step appends exactly one plan carrying the
vehicle's id. -/
theorem processVehicle_shape (cd : LatLng → LatLng → ℚ) (g : Graph) (fuel : ℕ)
    (st : List VehiclePathPlan × GlobalReservations) (v : VehicleInfoForPlanning) :
    ∃ p : VehiclePathPlan, p.vehicleId = v.request.id ∧
      (processVehicle cd g fuel st v).1 = st.1 ++ [p] := by
  unfold processVehicle
  rcases hA : A_star_time_aware cd g v v.request.startTime st.2 fuel with _ | path
  · exact ⟨failedPlan v.request.id, rfl, rfl⟩
  · cases path with
    | nil => exact ⟨failedPlan v.request.id, rfl, rfl⟩
    | cons a rest => exact ⟨⟨v.request.id, a :: rest, _, PlanStatus.SUCCESS⟩, rfl, rfl⟩

/-- The phase-5 fold only appends plans: ids of the output are the ids
already present followed by the processed vehicles' ids, in order. -/
theorem foldl_processVehicle_ids (cd : LatLng → LatLng → ℚ) (g : Graph) (fuel : ℕ)
    (vs : List VehicleInfoForPlanning) :
    ∀ st : List VehiclePathPlan × GlobalReservations,
      ((vs.foldl (processVehicle cd g fuel) st).1).map (·.vehicleId) =
        st.1.map (·.vehicleId) ++ vs.map (·.request.id) := by
  induction vs with
  | nil => intro st; simp
  | cons v rest ih =>
    intro st
    rw [List.foldl_cons, ih]
    rcases processVehicle_shape cd g fuel st v with ⟨p, hid, hshape⟩
    rw [hshape]
    simp [hid]

theorem foldl_processVehicle_mem (cd : LatLng → LatLng → ℚ) (g : Graph) (fuel : ℕ)
    (vs : List VehicleInfoForPlanning) :
    ∀ st : List VehiclePathPlan × GlobalReservations, ∀ p ∈ st.1,
      p ∈ (vs.foldl (processVehicle cd g fuel) st).1 := by
  induction vs with
  | nil => intro st p hp; simpa using hp
  | cons v rest ih =>
    intro st p hp
    rw [List.foldl_cons]
    refine ih _ p ?_
    rcases processVehicle_shape cd g fuel st v with ⟨q, _, hshape⟩
    rw [hshape]
    exact List.mem_append_left _ hp

/-- A non-positive-speed vehicle in the planning fold contributes a
`FAILED_NO_PATH` plan. -/
theorem foldl_processVehicle_failed_mem (cd : LatLng → LatLng → ℚ) (g : Graph)
    (fuel : ℕ) (vs : List VehicleInfoForPlanning) :
    ∀ st : List VehiclePathPlan × GlobalReservations, ∀ v ∈ vs,
      v.request.speed ≤ 0 →
      failedPlan v.request.id ∈ (vs.foldl (processVehicle cd g fuel) st).1 := by
  induction vs with
  | nil => intro st v hv; simp at hv
  | cons w rest ih =>
    intro st v hv hs
    rw [List.foldl_cons]
    rcases List.mem_cons.mp hv with hv | hv
    · subst hv
      refine foldl_processVehicle_mem cd g fuel rest _ _ ?_
      rw [processVehicle_of_none cd g fuel st.1 st.2 v
        (A_star_none_of_nonpos_speed cd g v _ st.2 fuel hs)]
      exact List.mem_append_right _ (List.mem_singleton.mpr rfl)
    · exact ih _ v hv hs

/-! ### Sorting lemmas -/

theorem insertSortedBy_perm {α : Type} (key : α → ℚ) (l : List α) (v : α) :
    (insertSortedBy key l v).Perm (v :: l) := by
  induction l with
  | nil => simp [insertSortedBy]
  | cons x xs ih =>
    unfold insertSortedBy
    by_cases h : key x ≤ key v
    · rw [if_pos h]
      exact (ih.cons x).trans (List.Perm.swap v x xs)
    · rw [if_neg h]

theorem sortBy_perm {α : Type} (key : α → ℚ) (l : List α) : (sortBy key l).Perm l := by
  have main : ∀ (l acc : List α), (l.foldl (insertSortedBy key) acc).Perm (acc ++ l) := by
    intro l
    induction l with
    | nil => simp
    | cons x xs ih =>
      intro acc
      rw [List.foldl_cons]
      refine (ih (insertSortedBy key acc x)).trans ?_
      refine (List.Perm.append_right xs (insertSortedBy_perm key acc x)).trans ?_
      exact List.perm_middle.symm
  simpa using main l []

theorem insertSortedBy_sorted {α : Type} (key : α → ℚ) (l : List α) (v : α)
    (h : l.Pairwise (fun a b => key a ≤ key b)) :
    (insertSortedBy key l v).Pairwise (fun a b => key a ≤ key b) := by
  induction l with
  | nil => simp [insertSortedBy]
  | cons x xs ih =>
    rcases List.pairwise_cons.mp h with ⟨hx, hxs⟩
    unfold insertSortedBy
    by_cases hk : key x ≤ key v
    · rw [if_pos hk]
      refine List.pairwise_cons.mpr ⟨?_, ih hxs⟩
      intro b hb
      have hb2 := (insertSortedBy_perm key xs v).mem_iff.mp hb
      rcases List.mem_cons.mp hb2 with hb3 | hb3
      · exact hb3 ▸ hk
      · exact hx b hb3
    · rw [if_neg hk]
      refine List.pairwise_cons.mpr ⟨?_, h⟩
      intro b hb
      rcases List.mem_cons.mp hb with hb2 | hb2
      · exact hb2 ▸ le_of_lt (not_le.mp hk)
      · exact le_trans (le_of_lt (not_le.mp hk)) (hx b hb2)

theorem sortBy_sorted {α : Type} (key : α → ℚ) (l : List α) :
    (sortBy key l).Pairwise (fun a b => key a ≤ key b) := by
  have main : ∀ (l acc : List α), acc.Pairwise (fun a b => key a ≤ key b) →
      (l.foldl (insertSortedBy key) acc).Pairwise (fun a b => key a ≤ key b) := by
    intro l
    induction l with
    | nil => intro acc h; simpa using h
    | cons x xs ih =>
      intro acc h
      rw [List.foldl_cons]
      exact ih _ (insertSortedBy_sorted key acc x h)
  exact main l [] (by simp)

theorem insertSortedBy_map {α β : Type} (keyA : α → ℚ) (keyB : β → ℚ) (f : α → β)
    (hf : ∀ a, keyB (f a) = keyA a) (l : List α) (v : α) :
    insertSortedBy keyB (l.map f) (f v) = (insertSortedBy keyA l v).map f := by
  induction l with
  | nil => simp [insertSortedBy]
  | cons x xs ih =>
    unfold insertSortedBy
    by_cases h : keyA x ≤ keyA v
    · rw [if_pos h]
      simp only [List.map_cons]
      rw [if_pos (by rw [hf, hf]; exact h), ih]
    · rw [if_neg h]
      simp only [List.map_cons]
      rw [if_neg (by rw [hf, hf]; exact h)]

theorem sortBy_map {α β : Type} (keyA : α → ℚ) (keyB : β → ℚ) (f : α → β)
    (hf : ∀ a, keyB (f a) = keyA a) (l : List α) :
    sortBy keyB (l.map f) = (sortBy keyA l).map f := by
  have main : ∀ (l acc : List α),
      (l.map f).foldl (insertSortedBy keyB) (acc.map f) =
        (l.foldl (insertSortedBy keyA) acc).map f := by
    intro l
    induction l with
    | nil => intro acc; simp
    | cons x xs ih =>
      intro acc
      simp only [List.map_cons, List.foldl_cons]
      rw [insertSortedBy_map keyA keyB f hf, ih]
  simpa using main l []

/-! ### Projection-phase lemmas -/

theorem fnpgInner_isSome (cd : LatLng → LatLng → ℚ) (target : LatLng) (a : NodeKey)
    (aLL : LatLng) (st : FNState) (e : NodeKey × ℚ)
    (h : st.nearestResult.isSome) :
    ((fnpgInner cd target a aLL st e).nearestResult).isSome := by
  simp only [fnpgInner]
  split
  · exact h
  · split
    · simp
    · exact h

theorem fnpgOuter_isSome (cd : LatLng → LatLng → ℚ) (target : LatLng) (st : FNState)
    (e : NodeKey × List (NodeKey × ℚ))
    (h : st.nearestResult.isSome ∨ st.minDistance = ⊤) :
    ((fnpgOuter cd target st e).nearestResult).isSome := by
  unfold fnpgOuter
  have inner : ∀ (l : List (NodeKey × ℚ)) (st' : FNState), st'.nearestResult.isSome →
      ((l.foldl (fnpgInner cd target e.1 (stringToLatLng e.1)) st').nearestResult).isSome := by
    intro l
    induction l with
    | nil => intro st' h'; simpa using h'
    | cons x xs ih => intro st' h'; exact ih _ (fnpgInner_isSome cd target _ _ st' x h')
  rcases h with h | h
  · refine inner _ _ ?_
    dsimp only
    split
    · simp
    · exact h
  · refine inner _ _ ?_
    dsimp only
    rw [h]
    rw [if_pos (WithTop.coe_lt_top _)]
    simp

theorem findNearestPointOnGraph_isSome (cd : LatLng → LatLng → ℚ) (target : LatLng)
    (graph : Graph) (h : graph ≠ []) :
    (findNearestPointOnGraph cd target graph).isSome := by
  unfold findNearestPointOnGraph
  rcases graph with _ | ⟨e, rest⟩
  · exact absurd rfl h
  · rw [List.foldl_cons]
    have main : ∀ (l : List (NodeKey × List (NodeKey × ℚ))) (st : FNState),
        st.nearestResult.isSome →
        ((l.foldl (fnpgOuter cd target) st).nearestResult).isSome := by
      intro l
      induction l with
      | nil => intro st h'; simpa using h'
      | cons x xs ih => intro st h'; exact ih _ (fnpgOuter_isSome cd target st x (Or.inl h'))
    exact main rest _ (fnpgOuter_isSome cd target _ e (Or.inr rfl))

theorem findNearestPointOnGraph_nil (cd : LatLng → LatLng → ℚ) (target : LatLng) :
    findNearestPointOnGraph cd target [] = none := rfl

theorem jupd_ne_nil {κ α : Type} [DecidableEq κ] (m : List (κ × α)) (k : κ) (f : α → α)
    (h : m ≠ []) : jupd m k f ≠ [] := by
  unfold jupd
  rcases jget m k with _ | v
  · exact h
  · exact jset_ne_nil m k (f v)

theorem addPointToGraph_ne_nil (cd : LatLng → LatLng → ℚ) (g : Graph)
    (info : NearestPointInfo) (h : g ≠ []) : (addPointToGraph cd g info).2 ≠ [] := by
  simp only [addPointToGraph]
  split
  · exact h
  · split
    · exact h
    · refine jupd_ne_nil _ _ _ (jupd_ne_nil _ _ _ (jupd_ne_nil _ _ _
        (jupd_ne_nil _ _ _ (jupd_ne_nil _ _ _ (jupd_ne_nil _ _ _ (jset_ne_nil _ _ _))))))

/-- Projection against the empty graph: every request fails, in input
order, and the state is otherwise untouched. -/
theorem snapRequests_nil_graph (cd : LatLng → LatLng → ℚ)
    (reqs : List VehicleRequest) :
    ∀ (plans : List VehiclePathPlan) (vehicles : List VehicleInfoForPlanning),
      snapRequests cd [] plans vehicles reqs =
        ([], plans ++ reqs.map (fun r => failedPlan r.id), vehicles) := by
  induction reqs with
  | nil => intro plans vehicles; simp [snapRequests]
  | cons r rest ih =>
    intro plans vehicles
    unfold snapRequests
    rw [findNearestPointOnGraph_nil]
    rw [ih]
    simp

/-- Projection against a non-empty graph: every request snaps; no
failed plan is emitted, and exactly one vehicle per request is
appended, carrying the request itself. -/
theorem snapRequests_nonempty_graph (cd : LatLng → LatLng → ℚ)
    (reqs : List VehicleRequest) :
    ∀ (g : Graph) (plans : List VehiclePathPlan)
      (vehicles : List VehicleInfoForPlanning), g ≠ [] →
      (snapRequests cd g plans vehicles reqs).2.1 = plans ∧
      ∃ ext : List VehicleInfoForPlanning,
        (snapRequests cd g plans vehicles reqs).2.2 = vehicles ++ ext ∧
        ext.map (fun v => v.request) = reqs := by
  induction reqs with
  | nil =>
    intro g plans vehicles hg
    exact ⟨rfl, [], by simp [snapRequests], rfl⟩
  | cons r rest ih =>
    intro g plans vehicles hg
    rcases Option.isSome_iff_exists.mp
      (findNearestPointOnGraph_isSome cd r.startPosition g hg) with ⟨si, hs⟩
    have hg1 : (addPointToGraph cd g si).2 ≠ [] := addPointToGraph_ne_nil cd g si hg
    rcases Option.isSome_iff_exists.mp
      (findNearestPointOnGraph_isSome cd r.endPosition _ hg1) with ⟨ei, he⟩
    have hg2 : (addPointToGraph cd (addPointToGraph cd g si).2 ei).2 ≠ [] :=
      addPointToGraph_ne_nil cd _ ei hg1
    have hstep : snapRequests cd g plans vehicles (r :: rest) =
        snapRequests cd (addPointToGraph cd (addPointToGraph cd g si).2 ei).2 plans
          (vehicles ++ [⟨r, (addPointToGraph cd g si).1,
            (addPointToGraph cd (addPointToGraph cd g si).2 ei).1⟩]) rest := by
      simp only [snapRequests, hs, he]
    rw [hstep]
    rcases ih _ plans _ hg2 with ⟨h1, ext, h2, h3⟩
    refine ⟨h1, ⟨r, (addPointToGraph cd g si).1,
      (addPointToGraph cd (addPointToGraph cd g si).2 ei).1⟩ :: ext, ?_, ?_⟩
    · rw [h2]; simp
    · simp [h3]

/-! ### Orchestrator decomposition lemmas -/

/-- Shorthand for the road filter applied before `buildGraph`. -/
def compatibleFeatures (features : List MapFeature) : List MapFeature :=
  features.filter (fun f => decide (f.type = "road" ∨ f.type = "blocked"))

/-- With an empty base graph every projection fails: the output is one
`FAILED_NO_PATH` plan per request, in input order. -/
theorem planAll_empty_base (cd : LatLng → LatLng → ℚ) (fuel : ℕ)
    (features : List MapFeature) (requests : List VehicleRequest)
    (hb : buildGraph cd (compatibleFeatures features) = []) :
    planAllVehicleRoutes cd fuel features requests =
      requests.map (fun r => failedPlan r.id) := by
  simp only [planAllVehicleRoutes]
  rw [show (features.filter (fun f => decide (f.type = "road" ∨ f.type = "blocked"))) =
    compatibleFeatures features from rfl, hb]
  rw [snapRequests_nil_graph cd requests [] []]
  simp [sortByStartTime, sortBy]

/-- With a non-empty base graph every projection succeeds: no snap
failures, one vehicle per request (carrying the request), and the
output is the phase-5 fold over the sorted vehicles. -/
theorem planAll_nonempty_base (cd : LatLng → LatLng → ℚ) (fuel : ℕ)
    (features : List MapFeature) (requests : List VehicleRequest)
    (hb : buildGraph cd (compatibleFeatures features) ≠ []) :
    ∃ ext : List VehicleInfoForPlanning, ext.map (fun v => v.request) = requests ∧
      planAllVehicleRoutes cd fuel features requests =
        ((sortByStartTime ext).foldl
          (processVehicle cd
            (snapRequests cd (buildGraph cd (compatibleFeatures features)) [] [] requests).1 fuel)
          ([], GlobalReservations.mk [] [])).1 := by
  obtain ⟨h1, ext, h2, h3⟩ :=
    snapRequests_nonempty_graph cd requests (buildGraph cd (compatibleFeatures features)) [] [] hb
  refine ⟨ext, h3, ?_⟩
  simp only [planAllVehicleRoutes]
  rw [show (features.filter (fun f => decide (f.type = "road" ∨ f.type = "blocked"))) =
    compatibleFeatures features from rfl]
  rw [h1, h2]
  simp

/-! ### Graph well-formedness predicates (claim C5) -/

/-- Top-level node keys are duplicate-free (always true of a JS `Map`). -/
def NodupKeysG (g : Graph) : Prop := (g.map Prod.fst).Nodup

/-- Every adjacency list is duplicate-free (always true of a JS `Map`). -/
def InnerNodupG (g : Graph) : Prop := ∀ e ∈ g, (e.2.map Prod.fst).Nodup

/-- Undirected consistency, over the stored entries (decidable form):
every stored neighbor points back with the same weight. -/
def SymB (g : Graph) : Prop :=
  ∀ e ∈ g, ∀ n ∈ e.2, graphGet2 g n.1 e.1 = some n.2

/-- No stored self-loop (decidable form). -/
def IrrB (g : Graph) : Prop := ∀ e ∈ g, ∀ n ∈ e.2, n.1 ≠ e.1

/-- Undirected consistency as a lookup property. -/
def SymL (g : Graph) : Prop :=
  ∀ u v w, graphGet2 g u v = some w → graphGet2 g v u = some w

/-- Lookup never sees a self-loop. -/
def IrrL (g : Graph) : Prop := ∀ u, graphGet2 g u u = none

/-- The claim's invariant, as stated: undirected with equal weights and
self-loop-free. -/
def UndirectedNoSelfLoops (g : Graph) : Prop := SymB g ∧ IrrB g

/-- Full well-formedness (adds the `Map`-structural duplicate-freeness
under which the entry-wise and lookup forms agree). -/
def GraphWellFormed (g : Graph) : Prop :=
  NodupKeysG g ∧ InnerNodupG g ∧ SymB g ∧ IrrB g

instance (g : Graph) : Decidable (NodupKeysG g) := by unfold NodupKeysG; infer_instance

instance (g : Graph) : Decidable (InnerNodupG g) := by unfold InnerNodupG; infer_instance

instance (g : Graph) : Decidable (SymB g) := by unfold SymB; infer_instance

instance (g : Graph) : Decidable (IrrB g) := by unfold IrrB; infer_instance

instance (g : Graph) : Decidable (UndirectedNoSelfLoops g) := by
  unfold UndirectedNoSelfLoops; infer_instance

instance (g : Graph) : Decidable (GraphWellFormed g) := by
  unfold GraphWellFormed; infer_instance

/-! ### Association-list membership lemmas -/

theorem mem_of_jget_eq_some {κ α : Type} [DecidableEq κ] {m : List (κ × α)} {k : κ}
    {v : α} (h : jget m k = some v) : (k, v) ∈ m := by
  induction m with
  | nil => exact absurd h (by simp [jget_nil])
  | cons e es ih =>
    rw [jget_cons] at h
    by_cases he : e.1 = k
    · rw [if_pos he] at h
      have hev : e = (k, v) := Prod.ext he (Option.some_inj.mp h)
      rw [hev]
      exact List.mem_cons_self _ _
    · rw [if_neg he] at h
      exact List.mem_cons_of_mem e (ih h)

theorem jget_isSome_of_mem {κ α : Type} [DecidableEq κ] {m : List (κ × α)} {k : κ}
    {v : α} (h : (k, v) ∈ m) : (jget m k).isSome := by
  induction m with
  | nil => exact absurd h (List.not_mem_nil _)
  | cons e es ih =>
    rw [jget_cons]
    by_cases he : e.1 = k
    · rw [if_pos he]; rfl
    · rw [if_neg he]
      rcases List.mem_cons.mp h with h1 | h1
      · exact absurd (congrArg Prod.fst h1).symm he
      · exact ih h1

theorem jget_eq_of_mem_nodup {κ α : Type} [DecidableEq κ] {m : List (κ × α)} {k : κ}
    {v : α} (hnd : (m.map Prod.fst).Nodup) (h : (k, v) ∈ m) : jget m k = some v := by
  induction m with
  | nil => exact absurd h (List.not_mem_nil _)
  | cons e es ih =>
    rcases List.mem_cons.mp h with h1 | h1
    · rw [← h1]
      simp [jget_cons]
    · have hk : ¬ e.1 = k := by
        intro hek
        have : k ∈ es.map Prod.fst := List.mem_map.mpr ⟨(k, v), h1, rfl⟩
        rw [List.map_cons] at hnd
        exact (List.nodup_cons.mp hnd).1 (hek ▸ this)
      rw [jget_cons, if_neg hk]
      exact ih (List.nodup_cons.mp (List.map_cons Prod.fst e es ▸ hnd)).2 h1

/-! ### `graphGet2` behaviour of the edge operations -/

theorem graphGet2_ensureNode (g : Graph) (k u v : NodeKey) :
    graphGet2 (ensureNode g k) u v = graphGet2 g u v := by
  unfold ensureNode
  by_cases h : jhas g k
  · rw [if_pos h]
  · rw [if_neg h]
    unfold graphGet2
    by_cases hu : k = u
    · subst hu
      rw [jget_jset_self]
      have : jget g k = none := by
        unfold jhas at h
        rcases hj : jget g k with _ | m
        · rfl
        · rw [hj] at h; simp at h
      rw [this]
      rfl
    · rw [jget_jset_ne g k u _ hu]

theorem graphGet2_setEdge (g : Graph) (a b : NodeKey) (d : ℚ) (u v : NodeKey)
    (ha : (jget g a).isSome) :
    graphGet2 (setEdge g a b d) u v =
      if u = a ∧ v = b then some d else graphGet2 g u v := by
  rcases Option.isSome_iff_exists.mp ha with ⟨ma, hma⟩
  unfold setEdge jupd
  simp only [hma]
  unfold graphGet2
  by_cases hu : u = a
  · subst hu
    rw [jget_jset_self, hma]
    simp only [Option.some_bind]
    by_cases hv : v = b
    · subst hv
      rw [jget_jset_self]
      simp
    · rw [jget_jset_ne ma b v d (fun h => hv h.symm)]
      simp [hv]
  · rw [jget_jset_ne g a u _ (fun h => hu h.symm)]
    simp [hu]

theorem setEdge_absent (g : Graph) (a b : NodeKey) (d : ℚ)
    (ha : jget g a = none) : setEdge g a b d = g := by
  unfold setEdge jupd
  rw [ha]

theorem graphGet2_delEdge (g : Graph) (a b : NodeKey) (u v : NodeKey) :
    graphGet2 (delEdge g a b) u v =
      if u = a ∧ v = b then none else graphGet2 g u v := by
  unfold delEdge jupd
  rcases hma : jget g a with _ | ma
  · simp only [hma]
    by_cases hc : u = a ∧ v = b
    · rw [if_pos hc]
      unfold graphGet2
      rw [hc.1, hma]
      rfl
    · rw [if_neg hc]
  · simp only [hma]
    unfold graphGet2
    by_cases hu : u = a
    · subst hu
      rw [jget_jset_self, hma]
      simp only [Option.some_bind]
      by_cases hv : v = b
      · subst hv
        rw [jget_jdel_self]
        simp
      · rw [jget_jdel_ne ma b v (fun h => hv h.symm)]
        simp [hv]
    · rw [jget_jset_ne g a u _ (fun h => hu h.symm)]
      simp [hu]

theorem graphGet2_jset_fresh (g : Graph) (k u v : NodeKey) (hk : jget g k = none) :
    graphGet2 (jset g k []) u v = if u = k then none else graphGet2 g u v := by
  unfold graphGet2
  by_cases hu : u = k
  · subst hu
    rw [jget_jset_self]
    simp [jget_nil]
  · rw [jget_jset_ne g k u _ (fun h => hu h.symm)]
    simp [hu]

/-- Key-presence is untouched by `jupd` (hence by `setEdge`/`delEdge`). -/
theorem jget_isSome_jupd {κ α : Type} [DecidableEq κ] (m : List (κ × α)) (k k' : κ)
    (f : α → α) : (jget (jupd m k f) k').isSome = (jget m k').isSome := by
  rw [jget_jupd]
  by_cases h : k = k'
  · subst h; simp
  · rw [if_neg h]

theorem jget_isSome_ensureNode (g : Graph) (k k' : NodeKey)
    (h : (jget g k').isSome) : (jget (ensureNode g k) k').isSome := by
  unfold ensureNode
  by_cases hh : jhas g k
  · rwa [if_pos hh]
  · rw [if_neg hh]
    by_cases hk : k = k'
    · subst hk; rw [jget_jset_self]; rfl
    · rwa [jget_jset_ne g k k' _ hk]

theorem jhas_ensureNode_self (g : Graph) (k : NodeKey) :
    (jget (ensureNode g k) k).isSome := by
  unfold ensureNode
  by_cases hh : jhas g k
  · rw [if_pos hh]; exact (jhas_iff g k).mp hh
  · rw [if_neg hh, jget_jset_self]; rfl

/-! ### Duplicate-freeness bookkeeping -/

theorem mem_jset {κ α : Type} [DecidableEq κ] {m : List (κ × α)} {k : κ} {v : α}
    {e : κ × α} (h : e ∈ jset m k v) : e = (k, v) ∨ e ∈ m := by
  induction m with
  | nil => simpa [jset] using h
  | cons x xs ih =>
    unfold jset at h
    by_cases hx : x.1 = k
    · rw [if_pos hx] at h
      rcases List.mem_cons.mp h with h1 | h1
      · exact Or.inl h1
      · exact Or.inr (List.mem_cons_of_mem x h1)
    · rw [if_neg hx] at h
      rcases List.mem_cons.mp h with h1 | h1
      · exact Or.inr (h1 ▸ List.mem_cons_self x xs)
      · rcases ih h1 with h2 | h2
        · exact Or.inl h2
        · exact Or.inr (List.mem_cons_of_mem x h2)

theorem mem_jupd {κ α : Type} [DecidableEq κ] {m : List (κ × α)} {k : κ} {f : α → α}
    {e : κ × α} (h : e ∈ jupd m k f) :
    e ∈ m ∨ ∃ old, jget m k = some old ∧ e = (k, f old) := by
  unfold jupd at h
  rcases hg : jget m k with _ | old
  · rw [hg] at h
    exact Or.inl h
  · rw [hg] at h
    rcases mem_jset h with h1 | h1
    · exact Or.inr ⟨old, rfl, h1⟩
    · exact Or.inl h1

theorem keys_jset_existing {κ α : Type} [DecidableEq κ] {m : List (κ × α)} {k : κ}
    (v : α) (h : (jget m k).isSome) : (jset m k v).map Prod.fst = m.map Prod.fst := by
  induction m with
  | nil => simp [jget_nil] at h
  | cons x xs ih =>
    unfold jset
    by_cases hx : x.1 = k
    · rw [if_pos hx]
      simp [hx]
    · rw [if_neg hx]
      rw [jget_cons, if_neg hx] at h
      simp [ih h]

theorem keys_jset_new {κ α : Type} [DecidableEq κ] {m : List (κ × α)} {k : κ}
    (v : α) (h : jget m k = none) :
    (jset m k v).map Prod.fst = m.map Prod.fst ++ [k] := by
  induction m with
  | nil => simp [jset]
  | cons x xs ih =>
    rw [jget_cons] at h
    by_cases hx : x.1 = k
    · rw [if_pos hx] at h
      exact absurd h (by simp)
    · rw [if_neg hx] at h
      unfold jset
      rw [if_neg hx]
      simp [ih h]

theorem nodup_keys_jset {κ α : Type} [DecidableEq κ] {m : List (κ × α)} {k : κ}
    (v : α) (h : (m.map Prod.fst).Nodup) : ((jset m k v).map Prod.fst).Nodup := by
  rcases hg : jget m k with _ | old
  · rw [keys_jset_new v hg]
    rw [List.nodup_append]
    refine ⟨h, List.nodup_singleton k, ?_⟩
    intro x hx hk
    rw [List.mem_singleton] at hk
    subst hk
    rcases List.mem_map.mp hx with ⟨e, he, hex⟩
    have hmem : (x, e.2) ∈ m := by rw [← hex]; simpa using he
    have hsome := jget_isSome_of_mem hmem
    rw [hg] at hsome
    exact absurd hsome (by simp)
  · rw [keys_jset_existing v (by rw [hg]; rfl)]
    exact h

theorem nodup_keys_jdel {κ α : Type} [DecidableEq κ] {m : List (κ × α)} {k : κ}
    (h : (m.map Prod.fst).Nodup) : ((jdel m k).map Prod.fst).Nodup := by
  unfold jdel
  exact ((m.filter_sublist).map Prod.fst).nodup h

theorem keys_jupd {κ α : Type} [DecidableEq κ] {m : List (κ × α)} {k : κ} {f : α → α} :
    (jupd m k f).map Prod.fst = m.map Prod.fst := by
  unfold jupd
  rcases hg : jget m k with _ | old
  · rfl
  · exact keys_jset_existing (f old) (by rw [hg]; rfl)

theorem nodupKeysG_jupd (g : Graph) (k : NodeKey) (f : List (NodeKey × ℚ) → List (NodeKey × ℚ))
    (h : NodupKeysG g) : NodupKeysG (jupd g k f) := by
  unfold NodupKeysG
  rw [keys_jupd]
  exact h

theorem nodupKeysG_ensureNode (g : Graph) (k : NodeKey) (h : NodupKeysG g) :
    NodupKeysG (ensureNode g k) := by
  unfold ensureNode
  by_cases hh : jhas g k
  · rwa [if_pos hh]
  · rw [if_neg hh]
    exact nodup_keys_jset [] h

theorem innerNodupG_jupd (g : Graph) (k : NodeKey)
    (f : List (NodeKey × ℚ) → List (NodeKey × ℚ))
    (hf : ∀ m : List (NodeKey × ℚ), (m.map Prod.fst).Nodup → ((f m).map Prod.fst).Nodup)
    (h : InnerNodupG g) : InnerNodupG (jupd g k f) := by
  intro e he
  rcases mem_jupd he with h1 | ⟨old, hold, h1⟩
  · exact h e h1
  · rw [h1]
    exact hf old (h (k, old) (mem_of_jget_eq_some hold))

theorem innerNodupG_ensureNode (g : Graph) (k : NodeKey) (h : InnerNodupG g) :
    InnerNodupG (ensureNode g k) := by
  unfold ensureNode
  by_cases hh : jhas g k
  · rwa [if_pos hh]
  · rw [if_neg hh]
    intro e he
    rcases mem_jset he with h1 | h1
    · rw [h1]; simp
    · exact h e h1

theorem nodupKeysG_setEdge (g : Graph) (a b : NodeKey) (d : ℚ) (h : NodupKeysG g) :
    NodupKeysG (setEdge g a b d) := nodupKeysG_jupd g a _ h

theorem nodupKeysG_delEdge (g : Graph) (a b : NodeKey) (h : NodupKeysG g) :
    NodupKeysG (delEdge g a b) := nodupKeysG_jupd g a _ h

theorem innerNodupG_setEdge (g : Graph) (a b : NodeKey) (d : ℚ) (h : InnerNodupG g) :
    InnerNodupG (setEdge g a b d) :=
  innerNodupG_jupd g a _ (fun m hm => nodup_keys_jset d hm) h

theorem innerNodupG_delEdge (g : Graph) (a b : NodeKey) (h : InnerNodupG g) :
    InnerNodupG (delEdge g a b) :=
  innerNodupG_jupd g a _ (fun m hm => nodup_keys_jdel hm) h

/-! ### Symmetry and irreflexivity preservation -/

theorem symL_nil : SymL [] := by
  intro u v w h
  simp [graphGet2, jget_nil] at h

theorem irrL_nil : IrrL [] := by
  intro u
  simp [graphGet2, jget_nil]

/-- Edge-lookup formula for `addSegmentEdge` (later write wins). -/
theorem graphGet2_addSegmentEdge (cd : LatLng → LatLng → ℚ) (g : Graph)
    (p1 p2 : LatLng) (u v : NodeKey) :
    graphGet2 (addSegmentEdge cd g p1 p2) u v =
      if u = latLngToString p2 ∧ v = latLngToString p1 then some (cd p1 p2)
      else if u = latLngToString p1 ∧ v = latLngToString p2 then some (cd p1 p2)
      else graphGet2 g u v := by
  unfold addSegmentEdge
  have h1 : (jget (ensureNode (ensureNode g (latLngToString p1)) (latLngToString p2))
      (latLngToString p1)).isSome :=
    jget_isSome_ensureNode _ _ _ (jhas_ensureNode_self g (latLngToString p1))
  have h2 : (jget (setEdge (ensureNode (ensureNode g (latLngToString p1)) (latLngToString p2))
      (latLngToString p1) (latLngToString p2) (cd p1 p2)) (latLngToString p2)).isSome := by
    unfold setEdge
    rw [jget_isSome_jupd]
    exact jhas_ensureNode_self _ (latLngToString p2)
  rw [graphGet2_setEdge _ _ _ _ _ _ h2, graphGet2_setEdge _ _ _ _ _ _ h1,
    graphGet2_ensureNode, graphGet2_ensureNode]

theorem symL_addSegmentEdge (cd : LatLng → LatLng → ℚ) (g : Graph) (p1 p2 : LatLng)
    (hsym : SymL g) : SymL (addSegmentEdge cd g p1 p2) := by
  intro u v w h
  rw [graphGet2_addSegmentEdge] at h ⊢
  by_cases c1 : u = latLngToString p2 ∧ v = latLngToString p1
  · rw [if_pos c1] at h
    obtain rfl : cd p1 p2 = w := Option.some_inj.mp h
    by_cases c1' : v = latLngToString p2 ∧ u = latLngToString p1
    · rw [if_pos c1']
    · rw [if_neg c1', if_pos ⟨c1.2, c1.1⟩]
  · rw [if_neg c1] at h
    by_cases c2 : u = latLngToString p1 ∧ v = latLngToString p2
    · rw [if_pos c2] at h
      obtain rfl : cd p1 p2 = w := Option.some_inj.mp h
      rw [if_pos ⟨c2.2, c2.1⟩]
    · rw [if_neg c2] at h
      have k1 : ¬ (v = latLngToString p2 ∧ u = latLngToString p1) := by
        intro hc; exact c2 ⟨hc.2, hc.1⟩
      have k2 : ¬ (v = latLngToString p1 ∧ u = latLngToString p2) := by
        intro hc; exact c1 ⟨hc.2, hc.1⟩
      rw [if_neg k1, if_neg k2]
      exact hsym u v w h

theorem irrL_addSegmentEdge (cd : LatLng → LatLng → ℚ) (g : Graph) (p1 p2 : LatLng)
    (hab : latLngToString p1 ≠ latLngToString p2) (hirr : IrrL g) :
    IrrL (addSegmentEdge cd g p1 p2) := by
  intro u
  rw [graphGet2_addSegmentEdge]
  rw [if_neg (fun hc : u = _ ∧ u = _ => hab (hc.2.symm.trans hc.1)),
    if_neg (fun hc : u = _ ∧ u = _ => hab (hc.1.symm.trans hc.2))]
  exact hirr u

theorem nodupKeysG_addSegmentEdge (cd : LatLng → LatLng → ℚ) (g : Graph)
    (p1 p2 : LatLng) (h : NodupKeysG g) : NodupKeysG (addSegmentEdge cd g p1 p2) :=
  nodupKeysG_setEdge _ _ _ _ (nodupKeysG_setEdge _ _ _ _
    (nodupKeysG_ensureNode _ _ (nodupKeysG_ensureNode _ _ h)))

theorem innerNodupG_addSegmentEdge (cd : LatLng → LatLng → ℚ) (g : Graph)
    (p1 p2 : LatLng) (h : InnerNodupG g) : InnerNodupG (addSegmentEdge cd g p1 p2) :=
  innerNodupG_setEdge _ _ _ _ (innerNodupG_setEdge _ _ _ _
    (innerNodupG_ensureNode _ _ (innerNodupG_ensureNode _ _ h)))

theorem jget_isSome_setEdge (g : Graph) (a b : NodeKey) (d : ℚ) (k : NodeKey) :
    (jget (setEdge g a b d) k).isSome = (jget g k).isSome := by
  unfold setEdge
  exact jget_isSome_jupd g a k _

theorem jget_isSome_delEdge (g : Graph) (a b : NodeKey) (k : NodeKey) :
    (jget (delEdge g a b) k).isSome = (jget g k).isSome := by
  unfold delEdge
  exact jget_isSome_jupd g a k _

theorem graphHasEdge_spec (g : Graph) (a b : NodeKey) (h : graphHasEdge g a b = true) :
    (jget g a).isSome ∧ ∃ w, graphGet2 g a b = some w := by
  unfold graphHasEdge at h
  split at h
  · rename_i m hga
    rcases Option.isSome_iff_exists.mp ((jhas_iff m b).mp h) with ⟨w, hgb⟩
    refine ⟨by rw [hga]; rfl, w, ?_⟩
    unfold graphGet2
    rw [hga]
    simp only [Option.some_bind]
    exact hgb
  · exact absurd h (by simp)

theorem get2_isSome_left (g : Graph) (u v : NodeKey) (w : ℚ)
    (h : graphGet2 g u v = some w) : (jget g u).isSome := by
  unfold graphGet2 at h
  rcases hgu : jget g u with _ | m
  · rw [hgu] at h; exact absurd h (by simp)
  · rfl

/-- Edge-lookup formula for the six-operation split of a hosted segment
`{a,b}` at node `i` (later write wins). -/
theorem graphGet2_splitChain (g : Graph) (a b i : NodeKey) (dA dB : ℚ) (u v : NodeKey)
    (hga : (jget g a).isSome) (hgb : (jget g b).isSome) (hgi : (jget g i).isSome) :
    graphGet2 (setEdge (setEdge (setEdge (setEdge (delEdge (delEdge g a b) b a)
        a i dA) i a dA) b i dB) i b dB) u v =
      if u = i ∧ v = b then some dB
      else if u = b ∧ v = i then some dB
      else if u = i ∧ v = a then some dA
      else if u = a ∧ v = i then some dA
      else if u = b ∧ v = a then none
      else if u = a ∧ v = b then none
      else graphGet2 g u v := by
  have p1 : ∀ k, (jget (delEdge (delEdge g a b) b a) k).isSome = (jget g k).isSome := by
    intro k; rw [jget_isSome_delEdge, jget_isSome_delEdge]
  have p2 : ∀ k, (jget (setEdge (delEdge (delEdge g a b) b a) a i dA) k).isSome =
      (jget g k).isSome := by
    intro k; rw [jget_isSome_setEdge, p1]
  have p3 : ∀ k, (jget (setEdge (setEdge (delEdge (delEdge g a b) b a) a i dA) i a dA)
      k).isSome = (jget g k).isSome := by
    intro k; rw [jget_isSome_setEdge, p2]
  have p4 : ∀ k, (jget (setEdge (setEdge (setEdge (delEdge (delEdge g a b) b a) a i dA)
      i a dA) b i dB) k).isSome = (jget g k).isSome := by
    intro k; rw [jget_isSome_setEdge, p3]
  rw [graphGet2_setEdge _ _ _ _ _ _ (by rw [p4]; exact hgi),
    graphGet2_setEdge _ _ _ _ _ _ (by rw [p3]; exact hgb),
    graphGet2_setEdge _ _ _ _ _ _ (by rw [p2]; exact hgi),
    graphGet2_setEdge _ _ _ _ _ _ (by rw [p1]; exact hga),
    graphGet2_delEdge, graphGet2_delEdge]

theorem symL_splitChain (g : Graph) (a b i : NodeKey) (dA dB : ℚ)
    (hia : i ≠ a) (hib : i ≠ b)
    (hga : (jget g a).isSome) (hgb : (jget g b).isSome) (hgi : (jget g i).isSome)
    (hsym : SymL g) :
    SymL (setEdge (setEdge (setEdge (setEdge (delEdge (delEdge g a b) b a)
        a i dA) i a dA) b i dB) i b dB) := by
  intro u v w h
  rw [graphGet2_splitChain g a b i dA dB u v hga hgb hgi] at h
  rw [graphGet2_splitChain g a b i dA dB v u hga hgb hgi]
  by_cases c1 : u = i ∧ v = b
  · rw [if_pos c1] at h
    obtain rfl : dB = w := Option.some_inj.mp h
    rw [if_neg (fun hc : v = i ∧ u = b => hib (hc.1.symm.trans c1.2)), if_pos ⟨c1.2, c1.1⟩]
  · rw [if_neg c1] at h
    by_cases c2 : u = b ∧ v = i
    · rw [if_pos c2] at h
      obtain rfl : dB = w := Option.some_inj.mp h
      rw [if_pos ⟨c2.2, c2.1⟩]
    · rw [if_neg c2] at h
      by_cases c3 : u = i ∧ v = a
      · rw [if_pos c3] at h
        obtain rfl : dA = w := Option.some_inj.mp h
        have hab : a ≠ b := by
          intro hc
          exact c1 ⟨c3.1, c3.2.trans hc⟩
        rw [if_neg (fun hc : v = i ∧ u = b => hia (hc.1.symm.trans c3.2)),
          if_neg (fun hc : v = b ∧ u = i => hab ((c3.2.symm.trans hc.1))),
          if_neg (fun hc : v = i ∧ u = a => hia (hc.1.symm.trans c3.2)),
          if_pos ⟨c3.2, c3.1⟩]
      · rw [if_neg c3] at h
        by_cases c4 : u = a ∧ v = i
        · rw [if_pos c4] at h
          obtain rfl : dA = w := Option.some_inj.mp h
          have hab : a ≠ b := by
            intro hc
            exact c2 ⟨c4.1.trans hc, c4.2⟩
          rw [if_neg (fun hc : v = i ∧ u = b => hab (c4.1.symm.trans hc.2)),
            if_neg (fun hc : v = b ∧ u = i => hib (c4.2.symm.trans hc.1)),
            if_pos ⟨c4.2, c4.1⟩]
        · rw [if_neg c4] at h
          by_cases c5 : u = b ∧ v = a
          · rw [if_pos c5] at h
            exact absurd h (by simp)
          · rw [if_neg c5] at h
            by_cases c6 : u = a ∧ v = b
            · rw [if_pos c6] at h
              exact absurd h (by simp)
            · rw [if_neg c6] at h
              rw [if_neg (fun hc : v = i ∧ u = b => c2 ⟨hc.2, hc.1⟩),
                if_neg (fun hc : v = b ∧ u = i => c1 ⟨hc.2, hc.1⟩),
                if_neg (fun hc : v = i ∧ u = a => c4 ⟨hc.2, hc.1⟩),
                if_neg (fun hc : v = a ∧ u = i => c3 ⟨hc.2, hc.1⟩),
                if_neg (fun hc : v = b ∧ u = a => c6 ⟨hc.2, hc.1⟩),
                if_neg (fun hc : v = a ∧ u = b => c5 ⟨hc.2, hc.1⟩)]
              exact hsym u v w h

theorem irrL_splitChain (g : Graph) (a b i : NodeKey) (dA dB : ℚ)
    (hia : i ≠ a) (hib : i ≠ b)
    (hga : (jget g a).isSome) (hgb : (jget g b).isSome) (hgi : (jget g i).isSome)
    (hirr : IrrL g) :
    IrrL (setEdge (setEdge (setEdge (setEdge (delEdge (delEdge g a b) b a)
        a i dA) i a dA) b i dB) i b dB) := by
  intro u
  rw [graphGet2_splitChain g a b i dA dB u u hga hgb hgi]
  rw [if_neg (fun hc : u = i ∧ u = b => hib (hc.1.symm.trans hc.2)),
    if_neg (fun hc : u = b ∧ u = i => hib (hc.2.symm.trans hc.1)),
    if_neg (fun hc : u = i ∧ u = a => hia (hc.1.symm.trans hc.2)),
    if_neg (fun hc : u = a ∧ u = i => hia (hc.2.symm.trans hc.1))]
  by_cases c5 : u = b ∧ u = a
  · rw [if_pos c5]
  · rw [if_neg c5]
    by_cases c6 : u = a ∧ u = b
    · rw [if_pos c6]
    · rw [if_neg c6]
      exact hirr u

theorem symL_splitSegmentAt (cd : LatLng → LatLng → ℚ) (point : LatLng) (i : NodeKey)
    (g : Graph) (seg : LatLng × LatLng) (hI : i = latLngToString point)
    (hgi : (jget g i).isSome) (hsym : SymL g) :
    SymL (splitSegmentAt cd point i g seg) := by
  simp only [splitSegmentAt]
  split
  · split
    · rename_i hg1 hg2
      obtain ⟨hga, w0, hedge⟩ := graphHasEdge_spec g _ _ hg2
      have hgb : (jget g (latLngToString seg.2)).isSome :=
        get2_isSome_left g _ _ w0 (hsym _ _ _ hedge)
      have hia : i ≠ latLngToString seg.1 := by
        rw [hI]; exact latLngToString_ne_of_not_equal _ _ hg1.1
      have hib : i ≠ latLngToString seg.2 := by
        rw [hI]; exact latLngToString_ne_of_not_equal _ _ hg1.2
      exact symL_splitChain g _ _ i _ _ hia hib hga hgb hgi hsym
    · exact hsym
  · exact hsym

theorem irrL_splitSegmentAt (cd : LatLng → LatLng → ℚ) (point : LatLng) (i : NodeKey)
    (g : Graph) (seg : LatLng × LatLng) (hI : i = latLngToString point)
    (hgi : (jget g i).isSome) (hsym : SymL g) (hirr : IrrL g) :
    IrrL (splitSegmentAt cd point i g seg) := by
  simp only [splitSegmentAt]
  split
  · split
    · rename_i hg1 hg2
      obtain ⟨hga, w0, hedge⟩ := graphHasEdge_spec g _ _ hg2
      have hgb : (jget g (latLngToString seg.2)).isSome :=
        get2_isSome_left g _ _ w0 (hsym _ _ _ hedge)
      have hia : i ≠ latLngToString seg.1 := by
        rw [hI]; exact latLngToString_ne_of_not_equal _ _ hg1.1
      have hib : i ≠ latLngToString seg.2 := by
        rw [hI]; exact latLngToString_ne_of_not_equal _ _ hg1.2
      exact irrL_splitChain g _ _ i _ _ hia hib hga hgb hgi hirr
    · exact hirr
  · exact hirr

theorem jget_isSome_splitSegmentAt (cd : LatLng → LatLng → ℚ) (point : LatLng)
    (i : NodeKey) (g : Graph) (seg : LatLng × LatLng) (k : NodeKey) :
    (jget (splitSegmentAt cd point i g seg) k).isSome = (jget g k).isSome := by
  simp only [splitSegmentAt]
  split
  · split
    · rw [jget_isSome_setEdge, jget_isSome_setEdge, jget_isSome_setEdge,
        jget_isSome_setEdge, jget_isSome_delEdge, jget_isSome_delEdge]
    · rfl
  · rfl

theorem nodupKeysG_splitSegmentAt (cd : LatLng → LatLng → ℚ) (point : LatLng)
    (i : NodeKey) (g : Graph) (seg : LatLng × LatLng) (h : NodupKeysG g) :
    NodupKeysG (splitSegmentAt cd point i g seg) := by
  simp only [splitSegmentAt]
  split
  · split
    · exact nodupKeysG_setEdge _ _ _ _ (nodupKeysG_setEdge _ _ _ _
        (nodupKeysG_setEdge _ _ _ _ (nodupKeysG_setEdge _ _ _ _
          (nodupKeysG_delEdge _ _ _ (nodupKeysG_delEdge _ _ _ h)))))
    · exact h
  · exact h

theorem innerNodupG_splitSegmentAt (cd : LatLng → LatLng → ℚ) (point : LatLng)
    (i : NodeKey) (g : Graph) (seg : LatLng × LatLng) (h : InnerNodupG g) :
    InnerNodupG (splitSegmentAt cd point i g seg) := by
  simp only [splitSegmentAt]
  split
  · split
    · exact innerNodupG_setEdge _ _ _ _ (innerNodupG_setEdge _ _ _ _
        (innerNodupG_setEdge _ _ _ _ (innerNodupG_setEdge _ _ _ _
          (innerNodupG_delEdge _ _ _ (innerNodupG_delEdge _ _ _ h)))))
    · exact h
  · exact h

theorem symL_ensureNode (g : Graph) (k : NodeKey) (hsym : SymL g) :
    SymL (ensureNode g k) := by
  intro u v w h
  rw [graphGet2_ensureNode] at h
  rw [graphGet2_ensureNode]
  exact hsym u v w h

theorem irrL_ensureNode (g : Graph) (k : NodeKey) (hirr : IrrL g) :
    IrrL (ensureNode g k) := by
  intro u
  rw [graphGet2_ensureNode]
  exact hirr u

theorem symL_applyIntersection (cd : LatLng → LatLng → ℚ) (g : Graph)
    (rec : IntersectionRecord) (hsym : SymL g) : SymL (applyIntersection cd g rec) := by
  simp only [applyIntersection]
  have h0 := symL_ensureNode g (latLngToString rec.point) hsym
  have hi0 := jhas_ensureNode_self g (latLngToString rec.point)
  have h1 := symL_splitSegmentAt cd rec.point _ _ rec.seg1 rfl hi0 h0
  have hi1 : (jget (splitSegmentAt cd rec.point (latLngToString rec.point)
      (ensureNode g (latLngToString rec.point)) rec.seg1) (latLngToString rec.point)).isSome := by
    rw [jget_isSome_splitSegmentAt]
    exact hi0
  exact symL_splitSegmentAt cd rec.point _ _ rec.seg2 rfl hi1 h1

theorem irrL_applyIntersection (cd : LatLng → LatLng → ℚ) (g : Graph)
    (rec : IntersectionRecord) (hsym : SymL g) (hirr : IrrL g) :
    IrrL (applyIntersection cd g rec) := by
  simp only [applyIntersection]
  have h0 := symL_ensureNode g (latLngToString rec.point) hsym
  have h0i := irrL_ensureNode g (latLngToString rec.point) hirr
  have hi0 := jhas_ensureNode_self g (latLngToString rec.point)
  have h1 := symL_splitSegmentAt cd rec.point _ _ rec.seg1 rfl hi0 h0
  have h1i := irrL_splitSegmentAt cd rec.point _ _ rec.seg1 rfl hi0 h0 h0i
  have hi1 : (jget (splitSegmentAt cd rec.point (latLngToString rec.point)
      (ensureNode g (latLngToString rec.point)) rec.seg1) (latLngToString rec.point)).isSome := by
    rw [jget_isSome_splitSegmentAt]
    exact hi0
  exact irrL_splitSegmentAt cd rec.point _ _ rec.seg2 rfl hi1 h1 h1i

theorem nodupKeysG_applyIntersection (cd : LatLng → LatLng → ℚ) (g : Graph)
    (rec : IntersectionRecord) (h : NodupKeysG g) :
    NodupKeysG (applyIntersection cd g rec) := by
  simp only [applyIntersection]
  exact nodupKeysG_splitSegmentAt _ _ _ _ _ (nodupKeysG_splitSegmentAt _ _ _ _ _
    (nodupKeysG_ensureNode _ _ h))

theorem innerNodupG_applyIntersection (cd : LatLng → LatLng → ℚ) (g : Graph)
    (rec : IntersectionRecord) (h : InnerNodupG g) :
    InnerNodupG (applyIntersection cd g rec) := by
  simp only [applyIntersection]
  exact innerNodupG_splitSegmentAt _ _ _ _ _ (innerNodupG_splitSegmentAt _ _ _ _ _
    (innerNodupG_ensureNode _ _ h))

/-! ### `buildGraph` invariants -/

/-- Well-formedness components that hold unconditionally. -/
def WFL (g : Graph) : Prop := SymL g ∧ NodupKeysG g ∧ InnerNodupG g

theorem wfl_addSegmentEdge (cd : LatLng → LatLng → ℚ) (g : Graph) (p1 p2 : LatLng)
    (h : WFL g) : WFL (addSegmentEdge cd g p1 p2) :=
  ⟨symL_addSegmentEdge cd g p1 p2 h.1, nodupKeysG_addSegmentEdge cd g p1 p2 h.2.1,
    innerNodupG_addSegmentEdge cd g p1 p2 h.2.2⟩

theorem wfl_applyIntersection (cd : LatLng → LatLng → ℚ) (g : Graph)
    (rec : IntersectionRecord) (h : WFL g) : WFL (applyIntersection cd g rec) :=
  ⟨symL_applyIntersection cd g rec h.1, nodupKeysG_applyIntersection cd g rec h.2.1,
    innerNodupG_applyIntersection cd g rec h.2.2⟩

theorem wfl_seedPairs_fold (cd : LatLng → LatLng → ℚ)
    (pairs : List (LatLng × LatLng)) :
    ∀ g : Graph, WFL g →
      WFL (pairs.foldl (fun g pq => addSegmentEdge cd g pq.1 pq.2) g) := by
  induction pairs with
  | nil => intro g h; exact h
  | cons pq rest ih =>
    intro g h
    exact ih _ (wfl_addSegmentEdge cd g pq.1 pq.2 h)

theorem irr_wfl_seedPairs_fold (cd : LatLng → LatLng → ℚ)
    (pairs : List (LatLng × LatLng))
    (hd : ∀ pq ∈ pairs, latLngToString pq.1 ≠ latLngToString pq.2) :
    ∀ g : Graph, WFL g → IrrL g →
      IrrL (pairs.foldl (fun g pq => addSegmentEdge cd g pq.1 pq.2) g) := by
  induction pairs with
  | nil => intro g _ h; exact h
  | cons pq rest ih =>
    intro g hw h
    exact ih (fun q hq => hd q (List.mem_cons_of_mem pq hq)) _
      (wfl_addSegmentEdge cd g pq.1 pq.2 hw)
      (irrL_addSegmentEdge cd g pq.1 pq.2 (hd pq (List.mem_cons_self pq rest)) h)

theorem wfl_seedGraph (cd : LatLng → LatLng → ℚ) (prs : List ProcessedRoad) :
    WFL (seedGraph cd prs) := by
  unfold seedGraph
  have main : ∀ (l : List ProcessedRoad) (g : Graph), WFL g →
      WFL (l.foldl (fun g pr =>
        (seedPairs pr).foldl (fun g pq => addSegmentEdge cd g pq.1 pq.2) g) g) := by
    intro l
    induction l with
    | nil => intro g h; exact h
    | cons pr rest ih => intro g h; exact ih _ (wfl_seedPairs_fold cd (seedPairs pr) g h)
  refine main prs [] ⟨symL_nil, ?_, ?_⟩
  · simp [NodupKeysG]
  · intro e he; exact absurd he (List.not_mem_nil e)

/-- The hypothesis the counterexample forces: every seeded consecutive
vertex pair gets two distinct node keys. -/
def SeedPairsKeyDistinct (roads : List MapFeature) : Prop :=
  ∀ pr ∈ roads.filterMap processRoad, ∀ pq ∈ seedPairs pr,
    latLngToString pq.1 ≠ latLngToString pq.2

instance (roads : List MapFeature) : Decidable (SeedPairsKeyDistinct roads) := by
  unfold SeedPairsKeyDistinct; infer_instance

theorem irr_seedGraph (cd : LatLng → LatLng → ℚ) (roads : List MapFeature)
    (hd : SeedPairsKeyDistinct roads) :
    IrrL (seedGraph cd (roads.filterMap processRoad)) := by
  unfold seedGraph
  have main : ∀ (l : List ProcessedRoad),
      (∀ pr ∈ l, ∀ pq ∈ seedPairs pr, latLngToString pq.1 ≠ latLngToString pq.2) →
      ∀ g : Graph, WFL g → IrrL g →
      IrrL (l.foldl (fun g pr =>
        (seedPairs pr).foldl (fun g pq => addSegmentEdge cd g pq.1 pq.2) g) g) := by
    intro l
    induction l with
    | nil => intro _ g _ h; exact h
    | cons pr rest ih =>
      intro hl g hw h
      exact ih (fun q hq => hl q (List.mem_cons_of_mem pr hq)) _
        (wfl_seedPairs_fold cd (seedPairs pr) g hw)
        (irr_wfl_seedPairs_fold cd (seedPairs pr)
          (hl pr (List.mem_cons_self pr rest)) g hw h)
  refine main _ hd [] ⟨symL_nil, by simp [NodupKeysG], ?_⟩ irrL_nil
  intro e he
  exact absurd he (List.not_mem_nil e)

theorem wfl_buildGraph (cd : LatLng → LatLng → ℚ) (roads : List MapFeature) :
    WFL (buildGraph cd roads) := by
  unfold buildGraph
  have main : ∀ (l : List IntersectionRecord) (g : Graph), WFL g →
      WFL (l.foldl (applyIntersection cd) g) := by
    intro l
    induction l with
    | nil => intro g h; exact h
    | cons r rest ih => intro g h; exact ih _ (wfl_applyIntersection cd g r h)
  exact main _ _ (wfl_seedGraph cd (roads.filterMap processRoad))

theorem irrL_buildGraph (cd : LatLng → LatLng → ℚ) (roads : List MapFeature)
    (hd : SeedPairsKeyDistinct roads) : IrrL (buildGraph cd roads) := by
  unfold buildGraph
  have main : ∀ (l : List IntersectionRecord) (g : Graph), SymL g → IrrL g →
      IrrL (l.foldl (applyIntersection cd) g) := by
    intro l
    induction l with
    | nil => intro g _ h; exact h
    | cons r rest ih =>
      intro g hs h
      exact ih _ (symL_applyIntersection cd g r hs) (irrL_applyIntersection cd g r hs h)
  exact main _ _ (wfl_seedGraph cd (roads.filterMap processRoad)).1
    (irr_seedGraph cd roads hd)

/-! ### Bounded ↔ lookup conversions -/

theorem symB_of_symL (g : Graph) (hnk : NodupKeysG g) (hin : InnerNodupG g)
    (h : SymL g) : SymB g := by
  intro e he n hn
  have h1 : jget g e.1 = some e.2 := jget_eq_of_mem_nodup hnk (by simpa using he)
  have h2 : jget e.2 n.1 = some n.2 := jget_eq_of_mem_nodup (hin e he) (by simpa using hn)
  have hget : graphGet2 g e.1 n.1 = some n.2 := by
    unfold graphGet2
    rw [h1]
    simpa using h2
  exact h _ _ _ hget

theorem symL_of_symB (g : Graph) (h : SymB g) : SymL g := by
  intro u v w hget
  unfold graphGet2 at hget
  rcases hgu : jget g u with _ | m
  · rw [hgu] at hget; exact absurd hget (by simp)
  · rw [hgu] at hget
    simp only [Option.some_bind] at hget
    exact h (u, m) (mem_of_jget_eq_some hgu) (v, w) (mem_of_jget_eq_some hget)

theorem irrB_of_irrL (g : Graph) (hnk : NodupKeysG g) (h : IrrL g) : IrrB g := by
  intro e he n hn hc
  have h1 : jget g e.1 = some e.2 := jget_eq_of_mem_nodup hnk (by simpa using he)
  have h2 : (jget e.2 e.1).isSome := by
    have hmem : (e.1, n.2) ∈ e.2 := by rw [← hc]; simpa using hn
    exact jget_isSome_of_mem hmem
  rcases Option.isSome_iff_exists.mp h2 with ⟨w, hw⟩
  have hget : graphGet2 g e.1 e.1 = some w := by
    unfold graphGet2
    rw [h1]
    simpa using hw
  rw [h e.1] at hget
  exact Option.noConfusion hget

theorem irrL_of_irrB (g : Graph) (h : IrrB g) : IrrL g := by
  intro u
  rcases hget : graphGet2 g u u with _ | w
  · rfl
  · unfold graphGet2 at hget
    rcases hgu : jget g u with _ | m
    · rw [hgu] at hget; exact absurd hget (by simp)
    · rw [hgu] at hget
      simp only [Option.some_bind] at hget
      exact absurd rfl (h (u, m) (mem_of_jget_eq_some hgu) (u, w) (mem_of_jget_eq_some hget))

/-! ### Validity of projection results and `addPointToGraph` -/

/-- What `addPointToGraph` needs from a `findNearestPointOnGraph`
result: either it denotes an existing node, or its host segment joins
two distinct present nodes. -/
def InfoValid (g : Graph) (info : NearestPointInfo) : Prop :=
  info.onExistingNode = true ∨
    ((jget g info.segmentNodes.1).isSome ∧ (jget g info.segmentNodes.2).isSome ∧
      info.segmentNodes.1 ≠ info.segmentNodes.2)

theorem fnpgInner_valid (cd : LatLng → LatLng → ℚ) (target : LatLng) (g : Graph)
    (nodeAStr : NodeKey) (aLL : LatLng) (st : FNState) (edge : NodeKey × ℚ)
    (hA : (jget g nodeAStr).isSome) (hB : (jget g edge.1).isSome)
    (hst : ∀ info, st.nearestResult = some info → InfoValid g info) :
    ∀ info, (fnpgInner cd target nodeAStr aLL st edge).nearestResult = some info →
      InfoValid g info := by
  intro info hinfo
  simp only [fnpgInner] at hinfo
  by_cases hskip : (nodeAStr, edge.1) ∈ st.visitedSegments ∨
      (edge.1, nodeAStr) ∈ st.visitedSegments ∨ nodeAStr = edge.1
  · rw [if_pos hskip] at hinfo
    exact hst info hinfo
  · rw [if_neg hskip] at hinfo
    by_cases hlt : ((cd target (projectPointOnLineSegment aLL (stringToLatLng edge.1)
        target) : WithTop ℚ)) < st.minDistance
    · rw [if_pos hlt] at hinfo
      simp only at hinfo
      by_cases h1 : arePointsEqual (projectPointOnLineSegment aLL (stringToLatLng edge.1)
          target) aLL
      · rw [if_pos h1] at hinfo
        rw [← Option.some_inj.mp hinfo]
        exact Or.inl rfl
      · rw [if_neg h1] at hinfo
        by_cases h2 : arePointsEqual (projectPointOnLineSegment aLL
            (stringToLatLng edge.1) target) (stringToLatLng edge.1)
        · rw [if_pos h2] at hinfo
          rw [← Option.some_inj.mp hinfo]
          exact Or.inl rfl
        · rw [if_neg h2] at hinfo
          rw [← Option.some_inj.mp hinfo]
          exact Or.inr ⟨hA, hB, fun hc => hskip (Or.inr (Or.inr hc))⟩
    · rw [if_neg hlt] at hinfo
      exact hst info hinfo

theorem fnpgOuter_valid (cd : LatLng → LatLng → ℚ) (target : LatLng) (g : Graph)
    (st : FNState) (entry : NodeKey × List (NodeKey × ℚ))
    (hmem : entry ∈ g) (hnk : NodupKeysG g) (hin : InnerNodupG g) (hsym : SymL g)
    (hst : ∀ info, st.nearestResult = some info → InfoValid g info) :
    ∀ info, (fnpgOuter cd target st entry).nearestResult = some info →
      InfoValid g info := by
  have hA : (jget g entry.1).isSome := jget_isSome_of_mem (by simpa using hmem)
  have hB : ∀ x ∈ entry.2, (jget g x.1).isSome := by
    intro x hx
    have h1 : jget g entry.1 = some entry.2 := jget_eq_of_mem_nodup hnk (by simpa using hmem)
    have h2 : jget entry.2 x.1 = some x.2 :=
      jget_eq_of_mem_nodup (hin entry hmem) (by simpa using hx)
    have hget : graphGet2 g entry.1 x.1 = some x.2 := by
      unfold graphGet2
      rw [h1]
      simpa using h2
    exact get2_isSome_left g _ _ _ (hsym _ _ _ hget)
  simp only [fnpgOuter]
  have main : ∀ (l : List (NodeKey × ℚ)), (∀ x ∈ l, (jget g x.1).isSome) →
      ∀ st' : FNState, (∀ info, st'.nearestResult = some info → InfoValid g info) →
      ∀ info, ((l.foldl (fnpgInner cd target entry.1 (stringToLatLng entry.1))
        st').nearestResult) = some info → InfoValid g info := by
    intro l
    induction l with
    | nil => intro _ st' h' info hi; exact h' info hi
    | cons x xs ih =>
      intro hl st' h' info hi
      exact ih (fun y hy => hl y (List.mem_cons_of_mem x hy)) _
        (fnpgInner_valid cd target g entry.1 (stringToLatLng entry.1) st' x hA
          (hl x (List.mem_cons_self x xs)) h') info hi
  refine main entry.2 hB _ ?_
  intro info hi
  by_cases hlt : ((cd target (stringToLatLng entry.1) : WithTop ℚ)) < st.minDistance
  · rw [if_pos hlt] at hi
    simp only at hi
    rw [← Option.some_inj.mp hi]
    exact Or.inl rfl
  · rw [if_neg hlt] at hi
    exact hst info hi

theorem findNearest_valid (cd : LatLng → LatLng → ℚ) (target : LatLng) (g : Graph)
    (info : NearestPointInfo) (hnk : NodupKeysG g) (hin : InnerNodupG g) (hsym : SymL g)
    (h : findNearestPointOnGraph cd target g = some info) : InfoValid g info := by
  unfold findNearestPointOnGraph at h
  have main : ∀ (l : List (NodeKey × List (NodeKey × ℚ))), (∀ e ∈ l, e ∈ g) →
      ∀ st : FNState, (∀ i, st.nearestResult = some i → InfoValid g i) →
      ∀ i, ((l.foldl (fnpgOuter cd target) st).nearestResult) = some i → InfoValid g i := by
    intro l
    induction l with
    | nil => intro _ st h' i hi; exact h' i hi
    | cons e es ih =>
      intro hl st h' i hi
      exact ih (fun x hx => hl x (List.mem_cons_of_mem e hx)) _
        (fnpgOuter_valid cd target g st e (hl e (List.mem_cons_self e es)) hnk hin hsym h')
        i hi
  exact main g (fun e he => he) ⟨⊤, none, []⟩ (fun i hi => by exact absurd hi (by simp)) info h

/-- Edge-lookup formula for the `addPointToGraph` insertion chain
(over an arbitrary base graph with all three endpoints present). -/
theorem graphGet2_addChain (g : Graph) (P A B : NodeKey) (dA dB : ℚ) (u v : NodeKey)
    (hgA : (jget g A).isSome) (hgB : (jget g B).isSome) (hgP : (jget g P).isSome) :
    graphGet2 (setEdge (setEdge (setEdge (setEdge (delEdge (delEdge g
        A B) B A) P A dA) A P dA) P B dB) B P dB) u v =
      if u = B ∧ v = P then some dB
      else if u = P ∧ v = B then some dB
      else if u = A ∧ v = P then some dA
      else if u = P ∧ v = A then some dA
      else if u = B ∧ v = A then none
      else if u = A ∧ v = B then none
      else graphGet2 g u v := by
  have p1 : ∀ k, (jget (delEdge (delEdge g A B) B A) k).isSome = (jget g k).isSome := by
    intro k; rw [jget_isSome_delEdge, jget_isSome_delEdge]
  have p2 : ∀ k, (jget (setEdge (delEdge (delEdge g A B) B A) P A dA) k).isSome =
      (jget g k).isSome := by
    intro k; rw [jget_isSome_setEdge, p1]
  have p3 : ∀ k, (jget (setEdge (setEdge (delEdge (delEdge g A B) B A) P A dA)
      A P dA) k).isSome = (jget g k).isSome := by
    intro k; rw [jget_isSome_setEdge, p2]
  have p4 : ∀ k, (jget (setEdge (setEdge (setEdge (delEdge (delEdge g A B) B A)
      P A dA) A P dA) P B dB) k).isSome = (jget g k).isSome := by
    intro k; rw [jget_isSome_setEdge, p3]
  rw [graphGet2_setEdge _ _ _ _ _ _ (by rw [p4]; exact hgB),
    graphGet2_setEdge _ _ _ _ _ _ (by rw [p3]; exact hgP),
    graphGet2_setEdge _ _ _ _ _ _ (by rw [p2]; exact hgA),
    graphGet2_setEdge _ _ _ _ _ _ (by rw [p1]; exact hgP),
    graphGet2_delEdge, graphGet2_delEdge]

theorem symL_addChain (g : Graph) (P A B : NodeKey) (dA dB : ℚ)
    (hPA : P ≠ A) (hPB : P ≠ B) (hAB : A ≠ B)
    (hgA : (jget g A).isSome) (hgB : (jget g B).isSome) (hgP : (jget g P).isSome)
    (hsym : SymL g) :
    SymL (setEdge (setEdge (setEdge (setEdge (delEdge (delEdge g
        A B) B A) P A dA) A P dA) P B dB) B P dB) := by
  intro u v w h
  rw [graphGet2_addChain g P A B dA dB u v hgA hgB hgP] at h
  rw [graphGet2_addChain g P A B dA dB v u hgA hgB hgP]
  by_cases c1 : u = B ∧ v = P
  · rw [if_pos c1] at h
    obtain rfl : dB = w := Option.some_inj.mp h
    rw [if_neg (fun hc : v = B ∧ u = P => hPB (hc.1.symm.trans c1.2).symm),
      if_pos ⟨c1.2, c1.1⟩]
  · rw [if_neg c1] at h
    by_cases c2 : u = P ∧ v = B
    · rw [if_pos c2] at h
      obtain rfl : dB = w := Option.some_inj.mp h
      rw [if_pos ⟨c2.2, c2.1⟩]
    · rw [if_neg c2] at h
      by_cases c3 : u = A ∧ v = P
      · rw [if_pos c3] at h
        obtain rfl : dA = w := Option.some_inj.mp h
        rw [if_neg (fun hc : v = B ∧ u = P => hPA (hc.2.symm.trans c3.1)),
          if_neg (fun hc : v = P ∧ u = B => hAB (c3.1.symm.trans hc.2)),
          if_neg (fun hc : v = A ∧ u = P => hPA (c3.2.symm.trans hc.1)),
          if_pos ⟨c3.2, c3.1⟩]
      · rw [if_neg c3] at h
        by_cases c4 : u = P ∧ v = A
        · rw [if_pos c4] at h
          obtain rfl : dA = w := Option.some_inj.mp h
          rw [if_neg (fun hc : v = B ∧ u = P => hAB (c4.2.symm.trans hc.1)),
            if_neg (fun hc : v = P ∧ u = B => hPB (c4.1.symm.trans hc.2)),
            if_pos ⟨c4.2, c4.1⟩]
        · rw [if_neg c4] at h
          by_cases c5 : u = B ∧ v = A
          · rw [if_pos c5] at h
            exact absurd h (by simp)
          · rw [if_neg c5] at h
            by_cases c6 : u = A ∧ v = B
            · rw [if_pos c6] at h
              exact absurd h (by simp)
            · rw [if_neg c6] at h
              rw [if_neg (fun hc : v = B ∧ u = P => c2 ⟨hc.2, hc.1⟩),
                if_neg (fun hc : v = P ∧ u = B => c1 ⟨hc.2, hc.1⟩),
                if_neg (fun hc : v = A ∧ u = P => c4 ⟨hc.2, hc.1⟩),
                if_neg (fun hc : v = P ∧ u = A => c3 ⟨hc.2, hc.1⟩),
                if_neg (fun hc : v = B ∧ u = A => c6 ⟨hc.2, hc.1⟩),
                if_neg (fun hc : v = A ∧ u = B => c5 ⟨hc.2, hc.1⟩)]
              exact hsym u v w h

theorem irrL_addChain (g : Graph) (P A B : NodeKey) (dA dB : ℚ)
    (hPA : P ≠ A) (hPB : P ≠ B)
    (hgA : (jget g A).isSome) (hgB : (jget g B).isSome) (hgP : (jget g P).isSome)
    (hirr : IrrL g) :
    IrrL (setEdge (setEdge (setEdge (setEdge (delEdge (delEdge g
        A B) B A) P A dA) A P dA) P B dB) B P dB) := by
  intro u
  rw [graphGet2_addChain g P A B dA dB u u hgA hgB hgP]
  rw [if_neg (fun hc : u = B ∧ u = P => hPB (hc.2.symm.trans hc.1)),
    if_neg (fun hc : u = P ∧ u = B => hPB (hc.1.symm.trans hc.2)),
    if_neg (fun hc : u = A ∧ u = P => hPA (hc.2.symm.trans hc.1)),
    if_neg (fun hc : u = P ∧ u = A => hPA (hc.1.symm.trans hc.2))]
  by_cases c5 : u = B ∧ u = A
  · rw [if_pos c5]
  · rw [if_neg c5]
    by_cases c6 : u = A ∧ u = B
    · rw [if_pos c6]
    · rw [if_neg c6]
      exact hirr u

theorem symL_jset_fresh (g : Graph) (k : NodeKey) (hk : jget g k = none)
    (hsym : SymL g) : SymL (jset g k []) := by
  intro u v w h
  rw [graphGet2_jset_fresh g k u v hk] at h
  rw [graphGet2_jset_fresh g k v u hk]
  by_cases hu : u = k
  · rw [if_pos hu] at h
    exact absurd h (by simp)
  · rw [if_neg hu] at h
    have h' := hsym u v w h
    have hv : ¬ v = k := by
      intro hc
      rw [hc] at h'
      have := get2_isSome_left g k u w h'
      rw [hk] at this
      exact absurd this (by simp)
    rw [if_neg hv]
    exact h'

theorem irrL_jset_fresh (g : Graph) (k : NodeKey) (hk : jget g k = none)
    (hirr : IrrL g) : IrrL (jset g k []) := by
  intro u
  rw [graphGet2_jset_fresh g k u u hk]
  by_cases hu : u = k
  · rw [if_pos hu]
  · rw [if_neg hu]
    exact hirr u

theorem innerNodupG_jset (g : Graph) (k : NodeKey) (v : List (NodeKey × ℚ))
    (hv : (v.map Prod.fst).Nodup) (h : InnerNodupG g) : InnerNodupG (jset g k v) := by
  intro e he
  rcases mem_jset he with he' | he'
  · rw [he']
    exact hv
  · exact h e he'

/-- `addPointToGraph` preserves full well-formedness whenever the
projection info it is fed is sound for the graph (which
`findNearestPointOnGraph` guarantees, see `findNearest_valid`). -/
theorem wf_addPointToGraph (cd : LatLng → LatLng → ℚ) (g : Graph)
    (info : NearestPointInfo) (hwf : GraphWellFormed g) (hvalid : InfoValid g info) :
    GraphWellFormed (addPointToGraph cd g info).2 := by
  by_cases hone : info.onExistingNode = true
  · unfold addPointToGraph
    rw [if_pos hone]
    exact hwf
  · by_cases hhas : jhas g info.pointStr = true
    · simp only [addPointToGraph]
      rw [if_neg hone, if_pos hhas]
      exact hwf
    · have hP : jget g info.pointStr = none := by
        rw [jhas_iff] at hhas
        exact Option.not_isSome_iff_eq_none.mp hhas
      rcases hvalid with h1 | ⟨hA, hB, hAB⟩
      · exact absurd h1 hone
      have hPA : info.pointStr ≠ info.segmentNodes.1 := by
        intro hc
        rw [hc] at hP
        rw [hP] at hA
        exact absurd hA (by simp)
      have hPB : info.pointStr ≠ info.segmentNodes.2 := by
        intro hc
        rw [hc] at hP
        rw [hP] at hB
        exact absurd hB (by simp)
      simp only [addPointToGraph]
      rw [if_neg hone, if_neg hhas]
      dsimp only
      have hgP : (jget (jset g info.pointStr []) info.pointStr).isSome := by
        rw [jget_jset_self]
        simp
      have hgA : (jget (jset g info.pointStr []) info.segmentNodes.1).isSome := by
        rw [jget_jset_ne g info.pointStr info.segmentNodes.1 _ hPA]
        exact hA
      have hgB : (jget (jset g info.pointStr []) info.segmentNodes.2).isSome := by
        rw [jget_jset_ne g info.pointStr info.segmentNodes.2 _ hPB]
        exact hB
      have hnk : NodupKeysG (setEdge (setEdge (setEdge (setEdge (delEdge (delEdge
          (jset g info.pointStr []) info.segmentNodes.1 info.segmentNodes.2)
          info.segmentNodes.2 info.segmentNodes.1) info.pointStr info.segmentNodes.1
          (cd info.point (stringToLatLng info.segmentNodes.1))) info.segmentNodes.1
          info.pointStr (cd info.point (stringToLatLng info.segmentNodes.1)))
          info.pointStr info.segmentNodes.2
          (cd info.point (stringToLatLng info.segmentNodes.2))) info.segmentNodes.2
          info.pointStr (cd info.point (stringToLatLng info.segmentNodes.2))) :=
        nodupKeysG_setEdge _ _ _ _ (nodupKeysG_setEdge _ _ _ _
          (nodupKeysG_setEdge _ _ _ _ (nodupKeysG_setEdge _ _ _ _
            (nodupKeysG_delEdge _ _ _ (nodupKeysG_delEdge _ _ _
              (nodup_keys_jset _ hwf.1))))))
      have hin : InnerNodupG (setEdge (setEdge (setEdge (setEdge (delEdge (delEdge
          (jset g info.pointStr []) info.segmentNodes.1 info.segmentNodes.2)
          info.segmentNodes.2 info.segmentNodes.1) info.pointStr info.segmentNodes.1
          (cd info.point (stringToLatLng info.segmentNodes.1))) info.segmentNodes.1
          info.pointStr (cd info.point (stringToLatLng info.segmentNodes.1)))
          info.pointStr info.segmentNodes.2
          (cd info.point (stringToLatLng info.segmentNodes.2))) info.segmentNodes.2
          info.pointStr (cd info.point (stringToLatLng info.segmentNodes.2))) :=
        innerNodupG_setEdge _ _ _ _ (innerNodupG_setEdge _ _ _ _
          (innerNodupG_setEdge _ _ _ _ (innerNodupG_setEdge _ _ _ _
            (innerNodupG_delEdge _ _ _ (innerNodupG_delEdge _ _ _
              (innerNodupG_jset g _ [] (by simp) hwf.2.1))))))
      refine ⟨hnk, hin, ?_, ?_⟩
      · exact symB_of_symL _ hnk hin
          (symL_addChain _ info.pointStr info.segmentNodes.1 info.segmentNodes.2 _ _
            hPA hPB hAB hgA hgB hgP
            (symL_jset_fresh g info.pointStr hP (symL_of_symB g hwf.2.2.1)))
      · exact irrB_of_irrL _ hnk
          (irrL_addChain _ info.pointStr info.segmentNodes.1 info.segmentNodes.2 _ _
            hPA hPB hgA hgB hgP
            (irrL_jset_fresh g info.pointStr hP (irrL_of_irrB g hwf.2.2.2)))

/-! ### Time monotonicity along A* paths (C8 machinery) -/

/-- All stored edge weights of a graph are nonnegative. -/
def WeightsNonneg (g : Graph) : Prop := ∀ e ∈ g, ∀ n ∈ e.2, 0 ≤ n.2

instance (g : Graph) : Decidable (WeightsNonneg g) := by
  unfold WeightsNonneg; infer_instance

/-- A `gScores` read with the source's `?? Infinity` default. -/
def gsAt (gs : List (NodeKey × WithTop ℚ)) (k : NodeKey) : WithTop ℚ :=
  (jget gs k).getD ⊤

/-- Every recorded `cameFrom` parent has a `gScore` no larger than its
child's. -/
def CameFromMono (cf : List (NodeKey × NodeKey))
    (gs : List (NodeKey × WithTop ℚ)) : Prop :=
  ∀ v u, jget cf v = some u → gsAt gs u ≤ gsAt gs v

/-- Every open-set item's recorded `gScore` upper-bounds the table's
current value at its node. -/
def OpenSetSound (os : List AStarQueueItem)
    (gs : List (NodeKey × WithTop ℚ)) : Prop :=
  ∀ it ∈ os, gsAt gs it.nodeStr ≤ it.gScore

theorem cameFromMono_nil (gs : List (NodeKey × WithTop ℚ)) : CameFromMono [] gs := by
  intro v u h
  exact absurd h (by simp [jget_nil])

theorem coe_nonneg_q (a : ℚ) (h : 0 ≤ a) : (0 : WithTop ℚ) ≤ (a : WithTop ℚ) := by
  rw [← WithTop.coe_zero]
  exact WithTop.coe_le_coe.mpr h

/-- The conflict penalty is nonnegative in every case (graph miss,
conflict, or no conflict). -/
theorem penalty_nonneg (u v : NodeKey) (dep arr : WithTop ℚ) (vid : String)
    (len spd : ℚ) (res : GlobalReservations) (g : Graph) :
    0 ≤ calculateConflictPenalty_WithEstimatedDelay u v dep arr vid len spd res g := by
  simp only [calculateConflictPenalty_WithEstimatedDelay]
  split
  · exact coe_nonneg_q HUGE_PENALTY (by norm_num [HUGE_PENALTY])
  · rename_i d hd
    split
    · rename_i hpos
      exact le_trans (le_of_lt hpos)
        (le_add_of_nonneg_right (coe_nonneg_q _
          (by norm_num [INCONVENIENCE_PENALTY_SECONDS])))
    · exact le_refl 0

theorem gsAt_jset_self (gs : List (NodeKey × WithTop ℚ)) (k : NodeKey) (x : WithTop ℚ) :
    gsAt (jset gs k x) k = x := by
  unfold gsAt
  rw [jget_jset_self]
  rfl

theorem gsAt_jset_ne (gs : List (NodeKey × WithTop ℚ)) (k k' : NodeKey) (x : WithTop ℚ)
    (h : k ≠ k') : gsAt (jset gs k x) k' = gsAt gs k' := by
  unfold gsAt
  rw [jget_jset_ne gs k k' x h]

theorem gsAt_jset_le (gs : List (NodeKey × WithTop ℚ)) (k : NodeKey) (x : WithTop ℚ)
    (h : x ≤ gsAt gs k) : ∀ j, gsAt (jset gs k x) j ≤ gsAt gs j := by
  intro j
  by_cases hj : j = k
  · subst hj
    rw [gsAt_jset_self]
    exact h
  · rw [gsAt_jset_ne gs k j x (fun hc => hj hc.symm)]

theorem mem_osSet (os : List AStarQueueItem) (it x : AStarQueueItem)
    (h : x ∈ osSet os it) : x = it ∨ x ∈ os := by
  induction os with
  | nil => simpa [osSet] using h
  | cons y ys ih =>
    unfold osSet at h
    by_cases hy : y.nodeStr = it.nodeStr
    · rw [if_pos hy] at h
      rcases List.mem_cons.mp h with h1 | h1
      · exact Or.inl h1
      · exact Or.inr (List.mem_cons_of_mem y h1)
    · rw [if_neg hy] at h
      rcases List.mem_cons.mp h with h1 | h1
      · exact Or.inr (h1 ▸ List.mem_cons_self y ys)
      · rcases ih h1 with h2 | h2
        · exact Or.inl h2
        · exact Or.inr (List.mem_cons_of_mem y h2)

theorem findMinF_mem (os : List AStarQueueItem) (it : AStarQueueItem)
    (h : findMinF os = some it) : it ∈ os := by
  unfold findMinF at h
  have main : ∀ (l : List AStarQueueItem) (acc : Option AStarQueueItem),
      l.foldl
        (fun best x =>
          match best with
          | none => if x.fScore < ⊤ then some x else none
          | some b => if x.fScore < b.fScore then some x else best) acc = some it →
      acc = some it ∨ it ∈ l := by
    intro l
    induction l with
    | nil =>
      intro acc h'
      exact Or.inl h'
    | cons x xs ih =>
      intro acc h'
      rw [List.foldl_cons] at h'
      rcases ih _ h' with h1 | h1
      · rcases acc with _ | b
        · by_cases hx : x.fScore < ⊤
          · rw [show (match (none : Option AStarQueueItem) with
                | none => if x.fScore < ⊤ then some x else none
                | some b => if x.fScore < b.fScore then some x else none) =
                  (if x.fScore < ⊤ then some x else none) from rfl, if_pos hx] at h1
            exact Or.inr ((Option.some_inj.mp h1) ▸ List.mem_cons_self x xs)
          · rw [show (match (none : Option AStarQueueItem) with
                | none => if x.fScore < ⊤ then some x else none
                | some b => if x.fScore < b.fScore then some x else none) =
                  (if x.fScore < ⊤ then some x else none) from rfl, if_neg hx] at h1
            exact absurd h1 (by simp)
        · by_cases hx : x.fScore < b.fScore
          · rw [show (match (some b : Option AStarQueueItem) with
                | none => if x.fScore < ⊤ then some x else none
                | some b => if x.fScore < b.fScore then some x else some b) =
                  (if x.fScore < b.fScore then some x else some b) from rfl,
                if_pos hx] at h1
            exact Or.inr ((Option.some_inj.mp h1) ▸ List.mem_cons_self x xs)
          · rw [show (match (some b : Option AStarQueueItem) with
                | none => if x.fScore < ⊤ then some x else none
                | some b => if x.fScore < b.fScore then some x else some b) =
                  (if x.fScore < b.fScore then some x else some b) from rfl,
                if_neg hx] at h1
            exact Or.inl h1
      · exact Or.inr (List.mem_cons_of_mem x h1)
  rcases main os none h with h1 | h1
  · exact absurd h1 (by simp)
  · exact h1

theorem relax_gsAt_le (cd : LatLng → LatLng → ℚ) (graph : Graph)
    (veh : VehicleInfoForPlanning) (res : GlobalReservations) (goal : LatLng)
    (u_it : AStarQueueItem) (st : AStarState) (edge : NodeKey × ℚ) :
    ∀ k, gsAt (relaxNeighbor cd graph veh res goal u_it st edge).gScores k ≤
      gsAt st.gScores k := by
  intro k
  simp only [relaxNeighbor]
  split
  · exact le_rfl
  · split
    · rename_i himp
      exact gsAt_jset_le st.gScores edge.1 _ (le_of_lt himp) k
    · exact le_rfl

theorem relax_preserves (cd : LatLng → LatLng → ℚ) (graph : Graph)
    (veh : VehicleInfoForPlanning) (res : GlobalReservations) (goal : LatLng)
    (u_it : AStarQueueItem) (st : AStarState) (edge : NodeKey × ℚ)
    (hw : 0 ≤ edge.2)
    (hu : gsAt st.gScores u_it.nodeStr ≤ u_it.gScore)
    (hcf : CameFromMono st.cameFrom st.gScores)
    (hos : OpenSetSound st.openSet st.gScores) :
    CameFromMono (relaxNeighbor cd graph veh res goal u_it st edge).cameFrom
        (relaxNeighbor cd graph veh res goal u_it st edge).gScores ∧
      OpenSetSound (relaxNeighbor cd graph veh res goal u_it st edge).openSet
        (relaxNeighbor cd graph veh res goal u_it st edge).gScores := by
  simp only [relaxNeighbor]
  split
  · exact ⟨hcf, hos⟩
  · rename_i hspd
    split
    · rename_i himp
      have hspd' : 0 < veh.request.speed := lt_of_not_le hspd
      have hcost : (0 : WithTop ℚ) ≤
          ((edge.2 / veh.request.speed : ℚ) : WithTop ℚ) +
            calculateConflictPenalty_WithEstimatedDelay u_it.nodeStr edge.1
              u_it.currentTimeAtNode
              (u_it.currentTimeAtNode + ((edge.2 / veh.request.speed : ℚ) : WithTop ℚ))
              veh.request.id veh.request.length veh.request.speed res graph :=
        add_nonneg (coe_nonneg_q _ (div_nonneg hw (le_of_lt hspd')))
          (penalty_nonneg _ _ _ _ _ _ _ _ _)
      have hg' : gsAt st.gScores u_it.nodeStr ≤ u_it.gScore +
          (((edge.2 / veh.request.speed : ℚ) : WithTop ℚ) +
            calculateConflictPenalty_WithEstimatedDelay u_it.nodeStr edge.1
              u_it.currentTimeAtNode
              (u_it.currentTimeAtNode + ((edge.2 / veh.request.speed : ℚ) : WithTop ℚ))
              veh.request.id veh.request.length veh.request.speed res graph) :=
        le_trans hu (le_add_of_nonneg_right hcost)
      constructor
      · intro v u hcfv
        by_cases hv : v = edge.1
        · subst hv
          rw [jget_jset_self] at hcfv
          obtain rfl : u_it.nodeStr = u := Option.some_inj.mp hcfv
          rw [gsAt_jset_self]
          exact le_trans (gsAt_jset_le st.gScores edge.1 _ (le_of_lt himp) _) hg'
        · rw [jget_jset_ne st.cameFrom edge.1 v _ (fun hc => hv hc.symm)] at hcfv
          rw [gsAt_jset_ne st.gScores edge.1 v _ (fun hc => hv hc.symm)]
          exact le_trans (gsAt_jset_le st.gScores edge.1 _ (le_of_lt himp) u)
            (hcf v u hcfv)
      · intro x hx
        rcases mem_osSet _ _ _ hx with h1 | h1
        · subst h1
          rw [gsAt_jset_self]
        · exact le_trans (gsAt_jset_le st.gScores edge.1 _ (le_of_lt himp) x.nodeStr)
            (hos x h1)
    · exact ⟨hcf, hos⟩

theorem foldl_relax_preserves (cd : LatLng → LatLng → ℚ) (graph : Graph)
    (veh : VehicleInfoForPlanning) (res : GlobalReservations) (goal : LatLng)
    (u_it : AStarQueueItem) :
    ∀ (l : List (NodeKey × ℚ)) (st : AStarState),
      (∀ n ∈ l, (0 : ℚ) ≤ n.2) →
      gsAt st.gScores u_it.nodeStr ≤ u_it.gScore →
      CameFromMono st.cameFrom st.gScores →
      OpenSetSound st.openSet st.gScores →
      CameFromMono
          (l.foldl (relaxNeighbor cd graph veh res goal u_it) st).cameFrom
          (l.foldl (relaxNeighbor cd graph veh res goal u_it) st).gScores ∧
        OpenSetSound
          (l.foldl (relaxNeighbor cd graph veh res goal u_it) st).openSet
          (l.foldl (relaxNeighbor cd graph veh res goal u_it) st).gScores := by
  intro l
  induction l with
  | nil =>
    intro st _ _ hcf hos
    exact ⟨hcf, hos⟩
  | cons e es ih =>
    intro st hl hu hcf hos
    rw [List.foldl_cons]
    obtain ⟨hcf', hos'⟩ := relax_preserves cd graph veh res goal u_it st e
      (hl e (List.mem_cons_self e es)) hu hcf hos
    exact ih _ (fun n hn => hl n (List.mem_cons_of_mem e hn))
      (le_trans (relax_gsAt_le cd graph veh res goal u_it st e u_it.nodeStr) hu)
      hcf' hos'

theorem aStarLoop_preserves (cd : LatLng → LatLng → ℚ) (graph : Graph)
    (veh : VehicleInfoForPlanning) (res : GlobalReservations) (goal : LatLng)
    (hwg : WeightsNonneg graph) :
    ∀ (fuel : ℕ) (st : AStarState),
      CameFromMono st.cameFrom st.gScores →
      OpenSetSound st.openSet st.gScores →
      CameFromMono (aStarLoop cd graph veh res goal fuel st).2.cameFrom
        (aStarLoop cd graph veh res goal fuel st).2.gScores := by
  intro fuel
  induction fuel with
  | zero =>
    intro st hcf _
    exact hcf
  | succ n ih =>
    intro st hcf hos
    simp only [aStarLoop]
    split
    · exact hcf
    · rename_i u_it hmin
      have hnb : ∀ n ∈ (jget graph u_it.nodeStr).getD [], (0 : ℚ) ≤ n.2 := by
        rcases hjg : jget graph u_it.nodeStr with _ | m
        · simp
        · intro x hx
          refine hwg (u_it.nodeStr, m) (mem_of_jget_eq_some hjg) x ?_
          simpa using hx
      obtain ⟨hcf', hos'⟩ := foldl_relax_preserves cd graph veh res goal u_it
        ((jget graph u_it.nodeStr).getD [])
        ⟨osDelete st.openSet u_it.nodeStr, st.cameFrom, st.gScores⟩
        hnb (hos u_it (findMinF_mem st.openSet u_it hmin)) hcf
        (fun x hx => hos x (List.mem_of_mem_filter hx))
      split
      · exact hcf
      · exact ih _ hcf' hos'

theorem aStarLoop_final (cd : LatLng → LatLng → ℚ) (graph : Graph)
    (veh : VehicleInfoForPlanning) (res : GlobalReservations) (goal : LatLng)
    (hwg : WeightsNonneg graph) (fuel : ℕ) (st : AStarState)
    (op : Option AStarQueueItem) (stF : AStarState)
    (hcf : CameFromMono st.cameFrom st.gScores)
    (hos : OpenSetSound st.openSet st.gScores)
    (heq : aStarLoop cd graph veh res goal fuel st = (op, stF)) :
    CameFromMono stF.cameFrom stF.gScores := by
  have h2 := aStarLoop_preserves cd graph veh res goal hwg fuel st hcf hos
  rw [heq] at h2
  exact h2

/-- Along any successful `walkBack` reconstruction, consecutive nodes
are `cameFrom` child/parent pairs, so any property implied by the
`cameFrom` relation chains down the output. -/
theorem walkBack_chain (cameFrom : List (NodeKey × NodeKey))
    (gs : List (NodeKey × WithTop ℚ)) (s : NodeKey)
    (hcf : CameFromMono cameFrom gs) :
    ∀ (n : ℕ) (cur : NodeKey) (acc l : List NodeKey),
      walkBack cameFrom s n cur acc = some l →
      List.Chain' (fun a b => gsAt gs a ≤ gsAt gs b) (cur :: acc) →
      List.Chain' (fun a b => gsAt gs a ≤ gsAt gs b) l := by
  intro n
  induction n with
  | zero =>
    intro cur acc l h
    exact Option.noConfusion h
  | succ m ih =>
    intro cur acc l h hchain
    simp only [walkBack] at h
    by_cases hcur : cur = s
    · rw [if_pos hcur] at h
      rw [← Option.some_inj.mp h]
      exact hchain
    · rw [if_neg hcur] at h
      rcases hp : jget cameFrom cur with _ | p
      · rw [hp] at h
        exact absurd h (by simp)
      · rw [hp] at h
        exact ih p (cur :: acc) l h (List.chain'_cons.mpr ⟨hcf cur p hp, hchain⟩)

/-- Transport of a `Chain'` relation through a successful
`Option`-valued `mapM`. -/
theorem mapM_chain {α β : Type} (f : α → Option β) (R : α → α → Prop)
    (S : β → β → Prop)
    (hf : ∀ a b x y, R a b → f a = some x → f b = some y → S x y) :
    ∀ (l : List α) (out : List β), l.mapM f = some out →
      List.Chain' R l → List.Chain' S out := by
  intro l
  induction l with
  | nil =>
    intro out h _
    rw [show ([] : List α).mapM f = some [] from rfl] at h
    rw [← Option.some_inj.mp h]
    exact List.chain'_nil
  | cons a l ih =>
    intro out h hchain
    rw [List.mapM_cons] at h
    rcases ha : f a with _ | x
    · rw [ha] at h
      exact absurd h (by simp)
    · rw [ha] at h
      rcases hl : l.mapM f with _ | xs
      · rw [hl] at h
        exact absurd h (by simp)
      · rw [hl] at h
        obtain rfl : x :: xs = out := by simpa using h
        cases l with
        | nil =>
          have : xs = [] := by
            have h0 : (([] : List α).mapM f) = some [] := rfl
            rw [h0] at hl
            exact (Option.some_inj.mp hl).symm
          rw [this]
          exact List.chain'_singleton x
        | cons b l' =>
          rw [List.mapM_cons] at hl
          rcases hb : f b with _ | y
          · rw [hb] at hl
            exact absurd hl (by simp)
          · rw [hb] at hl
            rcases hl' : l'.mapM f with _ | ys
            · rw [hl'] at hl
              exact absurd hl (by simp)
            · rw [hl'] at hl
              obtain rfl : y :: ys = xs := by simpa using hl
              refine List.chain'_cons.mpr ⟨?_, ?_⟩
              · exact hf a b x y (List.chain'_cons.mp hchain).1 ha hb
              · refine ih (y :: ys) ?_ (List.chain'_cons.mp hchain).2
                rw [List.mapM_cons, hb, hl']
                rfl

/-- Any path returned by `A_star_time_aware` on a graph with
nonnegative edge weights has non-decreasing node times: every relaxed
step's cost (base travel time plus conflict penalty) is nonnegative, so
each `cameFrom` parent's `gScore` bounds its child's, and the
reconstruction stamps nodes with `startTime + gScore`. -/
theorem aStar_time_monotone (cd : LatLng → LatLng → ℚ) (graph : Graph)
    (veh : VehicleInfoForPlanning) (t : ℚ) (res : GlobalReservations) (fuel : ℕ)
    (path : List TimedNode) (hwg : WeightsNonneg graph)
    (h : A_star_time_aware cd graph veh t res fuel = some path) :
    List.Chain' (fun a b : TimedNode => a.time ≤ b.time) path := by
  simp only [A_star_time_aware] at h
  split at h
  · exact absurd h (by simp)
  · rename_i goalItem stF heq
    split at h
    · exact absurd h (by simp)
    · rename_i seq hwb
      have hcf0 : CameFromMono ([] : List (NodeKey × NodeKey))
          (jset (graph.foldl (fun m e => jset m e.1 (⊤ : WithTop ℚ)) [])
            veh.effectiveStartNodeStr 0) := cameFromMono_nil _
      have hos0 : OpenSetSound
          [⟨veh.effectiveStartNodeStr, 0,
            heuristic cd (stringToLatLng veh.effectiveStartNodeStr)
              (stringToLatLng veh.effectiveEndNodeStr) veh.request.speed,
            ((t : ℚ) : WithTop ℚ), none⟩]
          (jset (graph.foldl (fun m e => jset m e.1 (⊤ : WithTop ℚ)) [])
            veh.effectiveStartNodeStr 0) := by
        intro it hit
        rw [List.mem_singleton] at hit
        subst hit
        rw [show (⟨veh.effectiveStartNodeStr, 0,
            heuristic cd (stringToLatLng veh.effectiveStartNodeStr)
              (stringToLatLng veh.effectiveEndNodeStr) veh.request.speed,
            ((t : ℚ) : WithTop ℚ), none⟩ : AStarQueueItem).nodeStr =
          veh.effectiveStartNodeStr from rfl, gsAt_jset_self]
      have hcfF : CameFromMono stF.cameFrom stF.gScores :=
        aStarLoop_final cd graph veh res (stringToLatLng veh.effectiveEndNodeStr)
          hwg fuel _ _ stF hcf0 hos0 heq
      have hseq : List.Chain' (fun a b => gsAt stF.gScores a ≤ gsAt stF.gScores b) seq :=
        walkBack_chain stF.cameFrom stF.gScores veh.effectiveStartNodeStr hcfF
          (stF.cameFrom.length + 1) goalItem.nodeStr [] seq hwb
          (List.chain'_singleton goalItem.nodeStr)
      refine mapM_chain _ (fun a b => gsAt stF.gScores a ≤ gsAt stF.gScores b)
        (fun a b : TimedNode => a.time ≤ b.time) ?_ seq path h hseq
      intro a b x y hab hxa hyb
      rcases Option.map_eq_some'.mp hxa with ⟨ga, hga, hxa'⟩
      rcases Option.map_eq_some'.mp hyb with ⟨gb, hgb, hyb'⟩
      rw [← hxa', ← hyb']
      have hab' : ga ≤ gb := by
        have h1 : gsAt stF.gScores a = ga := by unfold gsAt; rw [hga]; rfl
        have h2 : gsAt stF.gScores b = gb := by unfold gsAt; rw [hgb]; rfl
        rw [h1, h2] at hab
        exact hab
      exact add_le_add_left hab' _

/-! ### Nonnegative weights through graph construction (C8, orchestrator) -/

theorem wnn_jset_outer (g : Graph) (k : NodeKey) (v : List (NodeKey × ℚ))
    (hv : ∀ n ∈ v, (0 : ℚ) ≤ n.2) (h : WeightsNonneg g) :
    WeightsNonneg (jset g k v) := by
  intro e he n hn
  rcases mem_jset he with he' | he'
  · rw [he'] at hn
    exact hv n hn
  · exact h e he' n hn

theorem wnn_ensureNode (g : Graph) (k : NodeKey) (h : WeightsNonneg g) :
    WeightsNonneg (ensureNode g k) := by
  unfold ensureNode
  split
  · exact h
  · exact wnn_jset_outer g k [] (by simp) h

theorem wnn_jupd (g : Graph) (k : NodeKey)
    (f : List (NodeKey × ℚ) → List (NodeKey × ℚ))
    (hf : ∀ m, (∀ n ∈ m, (0 : ℚ) ≤ n.2) → ∀ n ∈ f m, (0 : ℚ) ≤ n.2)
    (h : WeightsNonneg g) : WeightsNonneg (jupd g k f) := by
  intro e he n hn
  rcases mem_jupd he with he' | ⟨old, hold, he'⟩
  · exact h e he' n hn
  · rw [he'] at hn
    exact hf old (h (k, old) (mem_of_jget_eq_some hold)) n hn

theorem wnn_setEdge (g : Graph) (a b : NodeKey) (d : ℚ) (hd : 0 ≤ d)
    (h : WeightsNonneg g) : WeightsNonneg (setEdge g a b d) := by
  refine wnn_jupd g a _ ?_ h
  intro m hm n hn
  rcases mem_jset hn with hn' | hn'
  · rw [hn']
    exact hd
  · exact hm n hn'

theorem wnn_delEdge (g : Graph) (a b : NodeKey) (h : WeightsNonneg g) :
    WeightsNonneg (delEdge g a b) := by
  refine wnn_jupd g a _ ?_ h
  intro m hm n hn
  exact hm n (List.mem_of_mem_filter hn)

theorem wnn_addSegmentEdge (cd : LatLng → LatLng → ℚ)
    (hd0 : ∀ p q, 0 ≤ cd p q) (g : Graph) (p1 p2 : LatLng)
    (h : WeightsNonneg g) : WeightsNonneg (addSegmentEdge cd g p1 p2) :=
  wnn_setEdge _ _ _ _ (hd0 p1 p2)
    (wnn_setEdge _ _ _ _ (hd0 p1 p2)
      (wnn_ensureNode _ _ (wnn_ensureNode _ _ h)))

theorem wnn_splitSegmentAt (cd : LatLng → LatLng → ℚ)
    (hd0 : ∀ p q, 0 ≤ cd p q) (point : LatLng) (intStr : NodeKey) (g : Graph)
    (seg : LatLng × LatLng) (h : WeightsNonneg g) :
    WeightsNonneg (splitSegmentAt cd point intStr g seg) := by
  simp only [splitSegmentAt]
  split
  · split
    · exact wnn_setEdge _ _ _ _ (hd0 seg.2 point)
        (wnn_setEdge _ _ _ _ (hd0 seg.2 point)
          (wnn_setEdge _ _ _ _ (hd0 seg.1 point)
            (wnn_setEdge _ _ _ _ (hd0 seg.1 point)
              (wnn_delEdge _ _ _ (wnn_delEdge _ _ _ h)))))
    · exact h
  · exact h

theorem wnn_applyIntersection (cd : LatLng → LatLng → ℚ)
    (hd0 : ∀ p q, 0 ≤ cd p q) (g : Graph) (rec : IntersectionRecord)
    (h : WeightsNonneg g) : WeightsNonneg (applyIntersection cd g rec) :=
  wnn_splitSegmentAt cd hd0 _ _ _ _
    (wnn_splitSegmentAt cd hd0 _ _ _ _ (wnn_ensureNode _ _ h))

theorem wnn_seedGraph (cd : LatLng → LatLng → ℚ) (hd0 : ∀ p q, 0 ≤ cd p q)
    (prs : List ProcessedRoad) : WeightsNonneg (seedGraph cd prs) := by
  unfold seedGraph
  have inner : ∀ (pairs : List (LatLng × LatLng)) (g : Graph), WeightsNonneg g →
      WeightsNonneg (pairs.foldl (fun g pq => addSegmentEdge cd g pq.1 pq.2) g) := by
    intro pairs
    induction pairs with
    | nil => intro g h; exact h
    | cons pq rest ih => intro g h; exact ih _ (wnn_addSegmentEdge cd hd0 g pq.1 pq.2 h)
  have main : ∀ (l : List ProcessedRoad) (g : Graph), WeightsNonneg g →
      WeightsNonneg (l.foldl (fun g pr =>
        (seedPairs pr).foldl (fun g pq => addSegmentEdge cd g pq.1 pq.2) g) g) := by
    intro l
    induction l with
    | nil => intro g h; exact h
    | cons pr rest ih => intro g h; exact ih _ (inner (seedPairs pr) g h)
  refine main prs [] ?_
  intro e he
  exact absurd he (List.not_mem_nil e)

theorem wnn_buildGraph (cd : LatLng → LatLng → ℚ) (hd0 : ∀ p q, 0 ≤ cd p q)
    (roads : List MapFeature) : WeightsNonneg (buildGraph cd roads) := by
  unfold buildGraph
  have main : ∀ (l : List IntersectionRecord) (g : Graph), WeightsNonneg g →
      WeightsNonneg (l.foldl (applyIntersection cd) g) := by
    intro l
    induction l with
    | nil => intro g h; exact h
    | cons r rest ih => intro g h; exact ih _ (wnn_applyIntersection cd hd0 g r h)
  exact main _ _ (wnn_seedGraph cd hd0 (roads.filterMap processRoad))

theorem wnn_addPointToGraph (cd : LatLng → LatLng → ℚ)
    (hd0 : ∀ p q, 0 ≤ cd p q) (g : Graph) (info : NearestPointInfo)
    (h : WeightsNonneg g) : WeightsNonneg (addPointToGraph cd g info).2 := by
  simp only [addPointToGraph]
  split
  · exact h
  · split
    · exact h
    · exact wnn_setEdge _ _ _ _ (hd0 info.point (stringToLatLng info.segmentNodes.2))
        (wnn_setEdge _ _ _ _ (hd0 info.point (stringToLatLng info.segmentNodes.2))
          (wnn_setEdge _ _ _ _ (hd0 info.point (stringToLatLng info.segmentNodes.1))
            (wnn_setEdge _ _ _ _ (hd0 info.point (stringToLatLng info.segmentNodes.1))
              (wnn_delEdge _ _ _ (wnn_delEdge _ _ _
                (wnn_jset_outer g info.pointStr [] (by simp) h))))))

theorem wnn_snapRequests (cd : LatLng → LatLng → ℚ) (hd0 : ∀ p q, 0 ≤ cd p q) :
    ∀ (reqs : List VehicleRequest) (g : Graph) (plans : List VehiclePathPlan)
      (vehicles : List VehicleInfoForPlanning), WeightsNonneg g →
      WeightsNonneg (snapRequests cd g plans vehicles reqs).1 := by
  intro reqs
  induction reqs with
  | nil =>
    intro g plans vehicles h
    exact h
  | cons r rest ih =>
    intro g plans vehicles h
    rcases hs : findNearestPointOnGraph cd r.startPosition g with _ | startInfo
    · simp only [snapRequests, hs]
      exact ih g _ vehicles h
    · rcases he : findNearestPointOnGraph cd r.endPosition
          (addPointToGraph cd g startInfo).2 with _ | endInfo
      · simp only [snapRequests, hs, he]
        exact ih _ _ vehicles (wnn_addPointToGraph cd hd0 g startInfo h)
      · simp only [snapRequests, hs, he]
        exact ih _ plans _ (wnn_addPointToGraph cd hd0 _ endInfo
          (wnn_addPointToGraph cd hd0 g startInfo h))

/-- Every `SUCCESS` plan accumulated by the phase-5 fold carries a path
returned by `A_star_time_aware` on the working graph, hence a
time-monotone path when the working graph's weights are nonnegative. -/
theorem foldl_processVehicle_success_mono (cd : LatLng → LatLng → ℚ) (g : Graph)
    (fuel : ℕ) (hwg : WeightsNonneg g) (vs : List VehicleInfoForPlanning) :
    ∀ st : List VehiclePathPlan × GlobalReservations,
      (∀ p ∈ st.1, p.status = PlanStatus.SUCCESS →
        List.Chain' (fun a b : TimedNode => a.time ≤ b.time) p.path) →
      ∀ p ∈ (vs.foldl (processVehicle cd g fuel) st).1,
        p.status = PlanStatus.SUCCESS →
        List.Chain' (fun a b : TimedNode => a.time ≤ b.time) p.path := by
  induction vs with
  | nil =>
    intro st hst p hp
    exact hst p hp
  | cons v rest ih =>
    intro st hst p hp
    rw [List.foldl_cons] at hp
    refine ih _ ?_ p hp
    intro q hq hqs
    simp only [processVehicle] at hq
    rcases hA : A_star_time_aware cd g v v.request.startTime st.2 fuel with _ | path
    · rw [hA] at hq
      rcases List.mem_append.mp hq with h1 | h1
      · exact hst q h1 hqs
      · rw [List.mem_singleton.mp h1] at hqs
        exact absurd hqs (by simp [failedPlan])
    · rw [hA] at hq
      rcases path with _ | ⟨a, restPath⟩
      · rcases List.mem_append.mp hq with h1 | h1
        · exact hst q h1 hqs
        · rw [List.mem_singleton.mp h1] at hqs
          exact absurd hqs (by simp [failedPlan])
      · rcases List.mem_append.mp hq with h1 | h1
        · exact hst q h1 hqs
        · rw [List.mem_singleton.mp h1]
          exact aStar_time_monotone cd g v v.request.startTime st.2 fuel
            (a :: restPath) hwg hA

/-! ### A* with an empty reservation table (C7 machinery) -/

/-- With an empty reservation table and an existing edge, the conflict
estimator returns `0`. -/
theorem penalty_empty (u v : NodeKey) (dep arr : WithTop ℚ) (vid : String)
    (len spd : ℚ) (g : Graph) (d : ℚ) (hd : graphGet2 g u v = some d) :
    calculateConflictPenalty_WithEstimatedDelay u v dep arr vid len spd ⟨[], []⟩ g = 0 := by
  simp only [calculateConflictPenalty_WithEstimatedDelay, hd]
  have hzero : maxEstimatedDelay u v dep arr vid len spd ⟨[], []⟩ d = 0 := by
    simp [maxEstimatedDelay, jget_nil]
  rw [hzero]
  simp

/-- `findMinF` returns an item of minimal `fScore`. -/
theorem findMinF_min (os : List AStarQueueItem) (it : AStarQueueItem)
    (h : findMinF os = some it) : ∀ y ∈ os, it.fScore ≤ y.fScore := by
  unfold findMinF at h
  have main : ∀ (l : List AStarQueueItem) (acc : Option AStarQueueItem),
      l.foldl
        (fun best x =>
          match best with
          | none => if x.fScore < ⊤ then some x else none
          | some b => if x.fScore < b.fScore then some x else best) acc = some it →
      (∀ y ∈ l, it.fScore ≤ y.fScore) ∧
        (∀ b0, acc = some b0 → it.fScore ≤ b0.fScore) := by
    intro l
    induction l with
    | nil =>
      intro acc h'
      refine ⟨fun y hy => absurd hy (List.not_mem_nil y), fun b0 hb0 => ?_⟩
      rw [hb0] at h'
      rw [Option.some_inj.mp h']
    | cons x xs ih =>
      intro acc h'
      rw [List.foldl_cons] at h'
      obtain ⟨hxs, hacc⟩ := ih _ h'
      rcases acc with _ | b
      · by_cases hx : x.fScore < ⊤
        · have hstep : (match (none : Option AStarQueueItem) with
              | none => if x.fScore < ⊤ then some x else none
              | some b => if x.fScore < b.fScore then some x else some b) = some x := by
            rw [show (match (none : Option AStarQueueItem) with
              | none => if x.fScore < ⊤ then some x else none
              | some b => if x.fScore < b.fScore then some x else some b) =
                (if x.fScore < ⊤ then some x else none) from rfl, if_pos hx]
          refine ⟨fun y hy => ?_, fun b0 hb0 => absurd hb0 (by simp)⟩
          rcases List.mem_cons.mp hy with hy1 | hy1
          · rw [hy1]
            exact hacc x hstep
          · exact hxs y hy1
        · have hstep : (match (none : Option AStarQueueItem) with
              | none => if x.fScore < ⊤ then some x else none
              | some b => if x.fScore < b.fScore then some x else some b) = none := by
            rw [show (match (none : Option AStarQueueItem) with
              | none => if x.fScore < ⊤ then some x else none
              | some b => if x.fScore < b.fScore then some x else some b) =
                (if x.fScore < ⊤ then some x else none) from rfl, if_neg hx]
          refine ⟨fun y hy => ?_, fun b0 hb0 => absurd hb0 (by simp)⟩
          rcases List.mem_cons.mp hy with hy1 | hy1
          · rw [hy1]
            exact le_trans le_top (le_of_not_lt hx)
          · exact hxs y hy1
      · by_cases hx : x.fScore < b.fScore
        · have hstep : (match (some b : Option AStarQueueItem) with
              | none => if x.fScore < ⊤ then some x else none
              | some b => if x.fScore < b.fScore then some x else some b) = some x := by
            rw [show (match (some b : Option AStarQueueItem) with
              | none => if x.fScore < ⊤ then some x else none
              | some b => if x.fScore < b.fScore then some x else some b) =
                (if x.fScore < b.fScore then some x else some b) from rfl, if_pos hx]
          have hminx := hacc x hstep
          refine ⟨fun y hy => ?_, fun b0 hb0 => ?_⟩
          · rcases List.mem_cons.mp hy with hy1 | hy1
            · rw [hy1]
              exact hminx
            · exact hxs y hy1
          · rw [← Option.some_inj.mp hb0]
            exact le_trans hminx (le_of_lt hx)
        · have hstep : (match (some b : Option AStarQueueItem) with
              | none => if x.fScore < ⊤ then some x else none
              | some b => if x.fScore < b.fScore then some x else some b) = some b := by
            rw [show (match (some b : Option AStarQueueItem) with
              | none => if x.fScore < ⊤ then some x else none
              | some b => if x.fScore < b.fScore then some x else some b) =
                (if x.fScore < b.fScore then some x else some b) from rfl, if_neg hx]
          have hminb := hacc b hstep
          refine ⟨fun y hy => ?_, fun b0 hb0 => ?_⟩
          · rcases List.mem_cons.mp hy with hy1 | hy1
            · rw [hy1]
              exact le_trans hminb (le_of_not_lt hx)
            · exact hxs y hy1
          · rw [← Option.some_inj.mp hb0]
            exact hminb
  exact (main os none h).1

/-- Open-set keys stay duplicate-free. -/
def OSKeysNodup (os : List AStarQueueItem) : Prop :=
  (os.map (fun it => it.nodeStr)).Nodup

theorem osSet_keys_sub (os : List AStarQueueItem) (it : AStarQueueItem) (k : NodeKey)
    (h : k ∈ (osSet os it).map (fun x => x.nodeStr)) :
    k ∈ os.map (fun x => x.nodeStr) ∨ k = it.nodeStr := by
  induction os with
  | nil =>
    simp only [osSet, List.map_cons, List.map_nil] at h
    exact Or.inr (by simpa using h)
  | cons y ys ih =>
    unfold osSet at h
    by_cases hy : y.nodeStr = it.nodeStr
    · rw [if_pos hy] at h
      simp only [List.map_cons, List.mem_cons] at h
      rcases h with h1 | h1
      · exact Or.inr h1
      · exact Or.inl (by simp only [List.map_cons, List.mem_cons]; exact Or.inr h1)
    · rw [if_neg hy] at h
      simp only [List.map_cons, List.mem_cons] at h
      rcases h with h1 | h1
      · exact Or.inl (by simp only [List.map_cons, List.mem_cons]; exact Or.inl h1)
      · rcases ih h1 with h2 | h2
        · exact Or.inl (by simp only [List.map_cons, List.mem_cons]; exact Or.inr h2)
        · exact Or.inr h2

theorem osSet_nodupKeys (os : List AStarQueueItem) (it : AStarQueueItem)
    (h : OSKeysNodup os) : OSKeysNodup (osSet os it) := by
  induction os with
  | nil =>
    simp [OSKeysNodup, osSet]
  | cons y ys ih =>
    unfold OSKeysNodup at h ⊢
    rw [List.map_cons, List.nodup_cons] at h
    unfold osSet
    by_cases hy : y.nodeStr = it.nodeStr
    · rw [if_pos hy]
      rw [List.map_cons, List.nodup_cons]
      exact ⟨hy ▸ h.1, h.2⟩
    · rw [if_neg hy]
      rw [List.map_cons, List.nodup_cons]
      refine ⟨fun hc => ?_, ih h.2⟩
      rcases osSet_keys_sub ys it y.nodeStr hc with h1 | h1
      · exact h.1 h1
      · exact hy h1

theorem mem_osSet_nodup (os : List AStarQueueItem) (it x : AStarQueueItem)
    (hnd : OSKeysNodup os) (h : x ∈ osSet os it) :
    x = it ∨ (x ∈ os ∧ x.nodeStr ≠ it.nodeStr) := by
  induction os with
  | nil =>
    simp only [osSet] at h
    exact Or.inl (by simpa using h)
  | cons y ys ih =>
    unfold OSKeysNodup at hnd
    rw [List.map_cons, List.nodup_cons] at hnd
    unfold osSet at h
    by_cases hy : y.nodeStr = it.nodeStr
    · rw [if_pos hy] at h
      rcases List.mem_cons.mp h with h1 | h1
      · exact Or.inl h1
      · refine Or.inr ⟨List.mem_cons_of_mem y h1, fun hc => ?_⟩
        refine hnd.1 ?_
        rw [hy, ← hc]
        exact List.mem_map.mpr ⟨x, h1, rfl⟩
    · rw [if_neg hy] at h
      rcases List.mem_cons.mp h with h1 | h1
      · exact Or.inr ⟨h1 ▸ List.mem_cons_self y ys, h1 ▸ hy⟩
      · rcases ih hnd.2 h1 with h2 | h2
        · exact Or.inl h2
        · exact Or.inr ⟨List.mem_cons_of_mem y h2.1, h2.2⟩

theorem osDelete_nodupKeys (os : List AStarQueueItem) (k : NodeKey)
    (h : OSKeysNodup os) : OSKeysNodup (osDelete os k) := by
  unfold OSKeysNodup at h ⊢
  unfold osDelete
  exact ((os.filter_sublist).map (fun it => it.nodeStr)).nodup h

/-- The node-initialization fold stores only `⊤` values. -/
theorem gs0_values (graph : Graph) (k : NodeKey) :
    jget (graph.foldl (fun m e => jset m e.1 (⊤ : WithTop ℚ)) []) k = none ∨
      jget (graph.foldl (fun m e => jset m e.1 (⊤ : WithTop ℚ)) []) k = some ⊤ := by
  have main : ∀ (l : Graph) (m : List (NodeKey × WithTop ℚ)),
      (∀ j, jget m j = none ∨ jget m j = some ⊤) →
      ∀ j, jget (l.foldl (fun m e => jset m e.1 (⊤ : WithTop ℚ)) m) j = none ∨
        jget (l.foldl (fun m e => jset m e.1 (⊤ : WithTop ℚ)) m) j = some ⊤ := by
    intro l
    induction l with
    | nil => intro m hm j; exact hm j
    | cons e es ih =>
      intro m hm j
      rw [List.foldl_cons]
      refine ih _ ?_ j
      intro j'
      by_cases hj : j' = e.1
      · rw [hj]
        exact Or.inr (jget_jset_self m e.1 ⊤)
      · rw [jget_jset_ne m e.1 j' ⊤ (fun hc => hj hc.symm)]
        exact hm j'
  exact main graph [] (fun j => Or.inl (jget_nil j)) k

/-- Consecutive-pair view of `Chain'`. -/
theorem chain_zip_pairs {α : Type} (S : α → α → Prop) :
    ∀ l : List α, List.Chain' S l → ∀ pr ∈ l.zip l.tail, S pr.1 pr.2 := by
  intro l
  induction l with
  | nil => intro _ pr hpr; exact absurd hpr (List.not_mem_nil pr)
  | cons a rest ih =>
    intro hc pr hpr
    cases rest with
    | nil => exact absurd hpr (List.not_mem_nil pr)
    | cons b rest' =>
      rw [show (a :: b :: rest').tail = b :: rest' from rfl,
        List.zip_cons_cons] at hpr
      rcases List.mem_cons.mp hpr with h1 | h1
      · rw [h1]
        exact (List.chain'_cons.mp hc).1
      · exact ih (List.chain'_cons.mp hc).2 pr h1

/-- A `mapM` whose function is total on the list is a `map`. -/
theorem mapM_eq_map {α β : Type} (f : α → Option β) (gf : α → β) :
    ∀ l : List α, (∀ x ∈ l, f x = some (gf x)) → l.mapM f = some (l.map gf) := by
  intro l
  induction l with
  | nil => intro _; rfl
  | cons a rest ih =>
    intro hl
    rw [List.mapM_cons, hl a (List.mem_cons_self a rest),
      ih (fun x hx => hl x (List.mem_cons_of_mem a hx))]
    rfl

/-- The A* loop invariant for the empty-reservation run: open-set keys
are duplicate-free; open items carry the exact current `gScore` and an
`fScore` equal to `gScore + heuristic`; every `cameFrom` pair is a
graph edge whose child `gScore` is exactly the parent `gScore` plus the
edge's travel time; every parent's `gScore + heuristic` lower-bounds
all open `fScore`s; all `gScore`s are nonnegative; and the start node's
`gScore` stays `0`. -/
def AInv (cd : LatLng → LatLng → ℚ) (graph : Graph) (veh : VehicleInfoForPlanning)
    (goal : LatLng) (st : AStarState) : Prop :=
  OSKeysNodup st.openSet ∧
  (∀ it ∈ st.openSet, gsAt st.gScores it.nodeStr = it.gScore ∧
    it.fScore = it.gScore +
      heuristic cd (stringToLatLng it.nodeStr) goal veh.request.speed) ∧
  (∀ v u, jget st.cameFrom v = some u → ∃ w, graphGet2 graph u v = some w ∧
    gsAt st.gScores v = gsAt st.gScores u +
      ((w / veh.request.speed : ℚ) : WithTop ℚ)) ∧
  (∀ b u, jget st.cameFrom b = some u → ∀ it ∈ st.openSet,
    gsAt st.gScores u + heuristic cd (stringToLatLng u) goal veh.request.speed ≤
      it.fScore) ∧
  (∀ k, 0 ≤ gsAt st.gScores k) ∧
  gsAt st.gScores veh.effectiveStartNodeStr = 0

theorem relaxC7_preserves (cd : LatLng → LatLng → ℚ) (graph : Graph)
    (veh : VehicleInfoForPlanning) (goal : LatLng)
    (u_it : AStarQueueItem) (st : AStarState) (edge : NodeKey × ℚ)
    (Hs : 0 < veh.request.speed)
    (Hcons : ∀ (a b : NodeKey) (w : ℚ), graphGet2 graph a b = some w →
      heuristic cd (stringToLatLng a) goal veh.request.speed ≤
        ((w / veh.request.speed : ℚ) : WithTop ℚ) +
          heuristic cd (stringToLatLng b) goal veh.request.speed)
    (Hw0 : ∀ (a b : NodeKey) (w : ℚ), graphGet2 graph a b = some w → 0 ≤ w)
    (hedge : graphGet2 graph u_it.nodeStr edge.1 = some edge.2)
    (hinv : AInv cd graph veh goal st)
    (huex : gsAt st.gScores u_it.nodeStr = u_it.gScore)
    (hufs : u_it.fScore = u_it.gScore +
      heuristic cd (stringToLatLng u_it.nodeStr) goal veh.request.speed)
    (hmin : ∀ y ∈ st.openSet, u_it.fScore ≤ y.fScore)
    (hpar : ∀ b a, jget st.cameFrom b = some a →
      gsAt st.gScores a + heuristic cd (stringToLatLng a) goal veh.request.speed ≤
        u_it.fScore) :
    AInv cd graph veh goal (relaxNeighbor cd graph veh ⟨[], []⟩ goal u_it st edge) ∧
    gsAt (relaxNeighbor cd graph veh ⟨[], []⟩ goal u_it st edge).gScores u_it.nodeStr =
      u_it.gScore ∧
    (∀ y ∈ (relaxNeighbor cd graph veh ⟨[], []⟩ goal u_it st edge).openSet,
      u_it.fScore ≤ y.fScore) ∧
    (∀ b a, jget (relaxNeighbor cd graph veh ⟨[], []⟩ goal u_it st edge).cameFrom b =
        some a →
      gsAt (relaxNeighbor cd graph veh ⟨[], []⟩ goal u_it st edge).gScores a +
        heuristic cd (stringToLatLng a) goal veh.request.speed ≤ u_it.fScore) := by
  obtain ⟨hN, hOE, hCF, hI3, hI4, hI5⟩ := hinv
  simp only [relaxNeighbor]
  rw [penalty_empty u_it.nodeStr edge.1 u_it.currentTimeAtNode
    (u_it.currentTimeAtNode + ((edge.2 / veh.request.speed : ℚ) : WithTop ℚ))
    veh.request.id veh.request.length veh.request.speed graph edge.2 hedge]
  simp only [add_zero]
  split
  · rename_i hsp
    exact absurd Hs (not_lt.mpr hsp)
  · split
    · rename_i himp0
      have himp : u_it.gScore + ((edge.2 / veh.request.speed : ℚ) : WithTop ℚ) <
          gsAt st.gScores edge.1 := himp0
      have hwq : (0 : ℚ) ≤ edge.2 := Hw0 _ _ _ hedge
      have hcost0 : (0 : WithTop ℚ) ≤ ((edge.2 / veh.request.speed : ℚ) : WithTop ℚ) :=
        coe_nonneg_q _ (div_nonneg hwq Hs.le)
      have hvu : edge.1 ≠ u_it.nodeStr := by
        intro hc
        rw [hc, huex] at himp
        exact absurd himp (not_lt.mpr (le_add_of_nonneg_right hcost0))
      have hfinh : ∀ x : NodeKey,
          heuristic cd (stringToLatLng x) goal veh.request.speed ≠ ⊤ := by
        intro x
        rw [heuristic_of_pos cd _ _ _ Hs]
        exact WithTop.coe_ne_top
      have h2 : u_it.fScore ≤
          (u_it.gScore + ((edge.2 / veh.request.speed : ℚ) : WithTop ℚ)) +
            heuristic cd (stringToLatLng edge.1) goal veh.request.speed := by
        rw [hufs, add_assoc]
        exact add_le_add_left (Hcons u_it.nodeStr edge.1 edge.2 hedge) _
      have hnotpar : ∀ b, jget st.cameFrom b = some edge.1 → False := by
        intro b hb
        have h3 := le_trans (hpar b edge.1 hb) h2
        have h4 : gsAt st.gScores edge.1 ≤
            u_it.gScore + ((edge.2 / veh.request.speed : ℚ) : WithTop ℚ) :=
          (WithTop.add_le_add_iff_right (hfinh edge.1)).mp h3
        exact absurd himp (not_lt.mpr h4)
      have hgnn : (0 : WithTop ℚ) ≤
          u_it.gScore + ((edge.2 / veh.request.speed : ℚ) : WithTop ℚ) :=
        add_nonneg (huex ▸ hI4 u_it.nodeStr) hcost0
      refine ⟨⟨?_, ?_, ?_, ?_, ?_, ?_⟩, ?_, ?_, ?_⟩
      · exact osSet_nodupKeys st.openSet _ hN
      · intro it hit
        rcases mem_osSet_nodup st.openSet _ it hN hit with rfl | ⟨hmem, hne⟩
        · exact ⟨gsAt_jset_self st.gScores edge.1 _, rfl⟩
        · obtain ⟨he1, he2⟩ := hOE it hmem
          exact ⟨by rw [gsAt_jset_ne st.gScores edge.1 it.nodeStr _
            (fun hc => hne hc.symm)]; exact he1, he2⟩
      · intro b a hba
        by_cases hb : b = edge.1
        · subst hb
          rw [jget_jset_self] at hba
          obtain rfl := Option.some_inj.mp hba
          refine ⟨edge.2, hedge, ?_⟩
          rw [gsAt_jset_self, gsAt_jset_ne st.gScores edge.1 u_it.nodeStr _ hvu, huex]
        · rw [jget_jset_ne st.cameFrom edge.1 b _ (fun hc => hb hc.symm)] at hba
          obtain ⟨w, hw, heqw⟩ := hCF b a hba
          have hane : a ≠ edge.1 := fun hc => hnotpar b (by rw [← hc]; exact hba)
          refine ⟨w, hw, ?_⟩
          rw [gsAt_jset_ne st.gScores edge.1 b _ (fun hc => hb hc.symm),
            gsAt_jset_ne st.gScores edge.1 a _ (fun hc => hane hc.symm)]
          exact heqw
      · intro b a hba it hit
        by_cases hb : b = edge.1
        · subst hb
          rw [jget_jset_self] at hba
          obtain rfl := Option.some_inj.mp hba
          have hlhs : gsAt (jset st.gScores edge.1
              (u_it.gScore + ((edge.2 / veh.request.speed : ℚ) : WithTop ℚ)))
                u_it.nodeStr +
              heuristic cd (stringToLatLng u_it.nodeStr) goal veh.request.speed =
              u_it.fScore := by
            rw [gsAt_jset_ne st.gScores edge.1 u_it.nodeStr _ hvu, huex, hufs]
          rw [hlhs]
          rcases mem_osSet_nodup st.openSet _ it hN hit with rfl | ⟨hmem, _⟩
          · exact h2
          · exact hmin it hmem
        · rw [jget_jset_ne st.cameFrom edge.1 b _ (fun hc => hb hc.symm)] at hba
          have hane : a ≠ edge.1 := fun hc => hnotpar b (by rw [← hc]; exact hba)
          rw [gsAt_jset_ne st.gScores edge.1 a _ (fun hc => hane hc.symm)]
          rcases mem_osSet_nodup st.openSet _ it hN hit with rfl | ⟨hmem, _⟩
          · exact le_trans (hpar b a hba) h2
          · exact hI3 b a hba it hmem
      · intro k
        by_cases hk : k = edge.1
        · rw [hk, gsAt_jset_self]
          exact hgnn
        · rw [gsAt_jset_ne st.gScores edge.1 k _ (fun hc => hk hc.symm)]
          exact hI4 k
      · by_cases hsk : veh.effectiveStartNodeStr = edge.1
        · rw [← hsk, hI5] at himp
          exact absurd himp (not_lt.mpr hgnn)
        · rw [gsAt_jset_ne st.gScores edge.1 _ _ (fun hc => hsk hc.symm)]
          exact hI5
      · rw [gsAt_jset_ne st.gScores edge.1 u_it.nodeStr _ hvu]
        exact huex
      · intro y hy
        rcases mem_osSet_nodup st.openSet _ y hN hy with rfl | ⟨hmem, _⟩
        · exact h2
        · exact hmin y hmem
      · intro b a hba
        by_cases hb : b = edge.1
        · subst hb
          rw [jget_jset_self] at hba
          obtain rfl := Option.some_inj.mp hba
          rw [gsAt_jset_ne st.gScores edge.1 u_it.nodeStr _ hvu, huex, ← hufs]
        · rw [jget_jset_ne st.cameFrom edge.1 b _ (fun hc => hb hc.symm)] at hba
          have hane : a ≠ edge.1 := fun hc => hnotpar b (by rw [← hc]; exact hba)
          rw [gsAt_jset_ne st.gScores edge.1 a _ (fun hc => hane hc.symm)]
          exact hpar b a hba
    · exact ⟨⟨hN, hOE, hCF, hI3, hI4, hI5⟩, huex, hmin, hpar⟩

theorem foldlRelaxC7 (cd : LatLng → LatLng → ℚ) (graph : Graph)
    (veh : VehicleInfoForPlanning) (goal : LatLng) (u_it : AStarQueueItem)
    (Hs : 0 < veh.request.speed)
    (Hcons : ∀ (a b : NodeKey) (w : ℚ), graphGet2 graph a b = some w →
      heuristic cd (stringToLatLng a) goal veh.request.speed ≤
        ((w / veh.request.speed : ℚ) : WithTop ℚ) +
          heuristic cd (stringToLatLng b) goal veh.request.speed)
    (Hw0 : ∀ (a b : NodeKey) (w : ℚ), graphGet2 graph a b = some w → 0 ≤ w) :
    ∀ (l : List (NodeKey × ℚ)) (st : AStarState),
      (∀ e ∈ l, graphGet2 graph u_it.nodeStr e.1 = some e.2) →
      AInv cd graph veh goal st →
      gsAt st.gScores u_it.nodeStr = u_it.gScore →
      u_it.fScore = u_it.gScore +
        heuristic cd (stringToLatLng u_it.nodeStr) goal veh.request.speed →
      (∀ y ∈ st.openSet, u_it.fScore ≤ y.fScore) →
      (∀ b a, jget st.cameFrom b = some a →
        gsAt st.gScores a + heuristic cd (stringToLatLng a) goal veh.request.speed ≤
          u_it.fScore) →
      AInv cd graph veh goal
        (l.foldl (relaxNeighbor cd graph veh ⟨[], []⟩ goal u_it) st) := by
  intro l
  induction l with
  | nil =>
    intro st _ hinv _ _ _ _
    exact hinv
  | cons e es ih =>
    intro st hl hinv huex hufs hmin hpar
    rw [List.foldl_cons]
    obtain ⟨hinv', huex', hmin', hpar'⟩ := relaxC7_preserves cd graph veh goal u_it st e
      Hs Hcons Hw0 (hl e (List.mem_cons_self e es)) hinv huex hufs hmin hpar
    exact ih _ (fun x hx => hl x (List.mem_cons_of_mem e hx)) hinv' huex' hufs hmin' hpar'

theorem aStarLoopC7 (cd : LatLng → LatLng → ℚ) (graph : Graph)
    (veh : VehicleInfoForPlanning) (goal : LatLng)
    (Hs : 0 < veh.request.speed)
    (Hcons : ∀ (a b : NodeKey) (w : ℚ), graphGet2 graph a b = some w →
      heuristic cd (stringToLatLng a) goal veh.request.speed ≤
        ((w / veh.request.speed : ℚ) : WithTop ℚ) +
          heuristic cd (stringToLatLng b) goal veh.request.speed)
    (Hw0 : ∀ (a b : NodeKey) (w : ℚ), graphGet2 graph a b = some w → 0 ≤ w)
    (Hin : InnerNodupG graph) :
    ∀ (fuel : ℕ) (st : AStarState), AInv cd graph veh goal st →
      AInv cd graph veh goal
        (aStarLoop cd graph veh ⟨[], []⟩ goal fuel st).2 := by
  intro fuel
  induction fuel with
  | zero =>
    intro st hinv
    exact hinv
  | succ n ih =>
    intro st hinv
    simp only [aStarLoop]
    split
    · exact hinv
    · rename_i u_it hminEq
      have humem : u_it ∈ st.openSet := findMinF_mem st.openSet u_it hminEq
      obtain ⟨huex, hufs⟩ := hinv.2.1 u_it humem
      have hminf := findMinF_min st.openSet u_it hminEq
      have hinv1 : AInv cd graph veh goal
          ⟨osDelete st.openSet u_it.nodeStr, st.cameFrom, st.gScores⟩ := by
        obtain ⟨hN, hOE, hCF, hI3, hI4, hI5⟩ := hinv
        exact ⟨osDelete_nodupKeys st.openSet u_it.nodeStr hN,
          fun it hit => hOE it (List.mem_of_mem_filter hit), hCF,
          fun b u hb it hit => hI3 b u hb it (List.mem_of_mem_filter hit), hI4, hI5⟩
      split
      · exact hinv1
      · refine ih _ ?_
        have hnb : ∀ e ∈ (jget graph u_it.nodeStr).getD [],
            graphGet2 graph u_it.nodeStr e.1 = some e.2 := by
          rcases hjg : jget graph u_it.nodeStr with _ | m
          · simp
          · intro e he
            have hm : (u_it.nodeStr, m) ∈ graph := mem_of_jget_eq_some hjg
            have hinner := Hin (u_it.nodeStr, m) hm
            unfold graphGet2
            rw [hjg]
            simpa using jget_eq_of_mem_nodup hinner (by simpa using he)
        refine foldlRelaxC7 cd graph veh goal u_it Hs Hcons Hw0 _ _ hnb hinv1 huex hufs
          (fun y hy => hminf y (List.mem_of_mem_filter hy))
          (fun b a hb => hinv.2.2.2.1 b a hb u_it humem)

theorem aStarLoopC7_final (cd : LatLng → LatLng → ℚ) (graph : Graph)
    (veh : VehicleInfoForPlanning) (goal : LatLng)
    (Hs : 0 < veh.request.speed)
    (Hcons : ∀ (a b : NodeKey) (w : ℚ), graphGet2 graph a b = some w →
      heuristic cd (stringToLatLng a) goal veh.request.speed ≤
        ((w / veh.request.speed : ℚ) : WithTop ℚ) +
          heuristic cd (stringToLatLng b) goal veh.request.speed)
    (Hw0 : ∀ (a b : NodeKey) (w : ℚ), graphGet2 graph a b = some w → 0 ≤ w)
    (Hin : InnerNodupG graph) (fuel : ℕ) (st : AStarState)
    (op : Option AStarQueueItem) (stF : AStarState)
    (hinv : AInv cd graph veh goal st)
    (heq : aStarLoop cd graph veh ⟨[], []⟩ goal fuel st = (op, stF)) :
    AInv cd graph veh goal stF := by
  have h2 := aStarLoopC7 cd graph veh goal Hs Hcons Hw0 Hin fuel st hinv
  rw [heq] at h2
  exact h2

/-- A successful `walkBack` returns a list that starts at the start
node and whose consecutive elements are `cameFrom` child/parent
pairs. -/
theorem walkBack_head_chain (cf : List (NodeKey × NodeKey)) (s : NodeKey) :
    ∀ (n : ℕ) (cur : NodeKey) (acc l : List NodeKey),
      walkBack cf s n cur acc = some l →
      List.Chain' (fun a b => jget cf b = some a) (cur :: acc) →
      l.head? = some s ∧ List.Chain' (fun a b => jget cf b = some a) l := by
  intro n
  induction n with
  | zero =>
    intro cur acc l h _
    exact Option.noConfusion h
  | succ m ih =>
    intro cur acc l h hchain
    simp only [walkBack] at h
    by_cases hcur : cur = s
    · rw [if_pos hcur] at h
      rw [← Option.some_inj.mp h]
      exact ⟨by rw [← hcur]; rfl, hchain⟩
    · rw [if_neg hcur] at h
      rcases hp : jget cf cur with _ | p
      · rw [hp] at h
        exact Option.noConfusion h
      · rw [hp] at h
        exact ih p (cur :: acc) l h (List.chain'_cons.mpr ⟨hp, hchain⟩)

/-- Sum of looked-up edge weights along consecutive node pairs. -/
def nkWeightSum (graph : Graph) (l : List NodeKey) : ℚ :=
  ((l.zip l.tail).map (fun pr => (graphGet2 graph pr.1 pr.2).getD 0)).sum

theorem chain_telescope (gs : List (NodeKey × WithTop ℚ)) (graph : Graph) (s : ℚ) :
    ∀ (seq : List NodeKey) (a : NodeKey) (qa : ℚ),
      List.Chain' (fun x y => ∃ w, graphGet2 graph x y = some w ∧
        gsAt gs y = gsAt gs x + ((w / s : ℚ) : WithTop ℚ)) (a :: seq) →
      gsAt gs a = ((qa : ℚ) : WithTop ℚ) →
      (∀ x ∈ a :: seq, ∃ q : ℚ, gsAt gs x = ((q : ℚ) : WithTop ℚ)) ∧
      gsAt gs ((a :: seq).getLast (List.cons_ne_nil a seq)) =
        ((qa + nkWeightSum graph (a :: seq) / s : ℚ) : WithTop ℚ) := by
  intro seq
  induction seq with
  | nil =>
    intro a qa _ ha
    constructor
    · intro x hx
      refine ⟨qa, ?_⟩
      rw [List.mem_singleton.mp hx]
      exact ha
    · rw [show ([a] : List NodeKey).getLast (List.cons_ne_nil a []) = a from rfl,
        show nkWeightSum graph [a] = 0 from rfl, ha]
      norm_num
  | cons b rest ih =>
    intro a qa hchain ha
    obtain ⟨⟨w, hw, hy⟩, hchain'⟩ := List.chain'_cons.mp hchain
    have hb : gsAt gs b = ((qa + w / s : ℚ) : WithTop ℚ) := by
      rw [hy, ha]
      push_cast
      rfl
    obtain ⟨hfin, hlast⟩ := ih b (qa + w / s) hchain' hb
    constructor
    · intro x hx
      rcases List.mem_cons.mp hx with h1 | h1
      · exact ⟨qa, by rw [h1]; exact ha⟩
      · exact hfin x h1
    · rw [List.getLast_cons (List.cons_ne_nil b rest), hlast]
      have hsum : nkWeightSum graph (a :: b :: rest) =
          w + nkWeightSum graph (b :: rest) := by
        unfold nkWeightSum
        rw [show (a :: b :: rest).tail = b :: rest from rfl, List.zip_cons_cons,
          List.map_cons, List.sum_cons, hw]
        rfl
      rw [hsum]
      congr 1
      rw [add_assoc, div_add_div_same]

theorem getLast?_map {α β : Type} (f : α → β) :
    ∀ l : List α, (l.map f).getLast? = l.getLast?.map f := by
  intro l
  induction l with
  | nil => rfl
  | cons a rest ih =>
    cases rest with
    | nil => rfl
    | cons b rest' =>
      rw [show ((a :: b :: rest').map f) = f a :: (b :: rest').map f from rfl,
        List.map_cons, List.getLast?_cons_cons, ← List.map_cons, ih,
        List.getLast?_cons_cons]

/-- The timed node the reconstruction produces for a node key. -/
def timedOf (gs : List (NodeKey × WithTop ℚ)) (t : ℚ) (n : NodeKey) : TimedNode :=
  ⟨n, stringToLatLng n, ((t : ℚ) : WithTop ℚ) + gsAt gs n⟩

/-- Sum of looked-up edge weights along a timed path's consecutive
pairs. -/
def edgeWeightSum (graph : Graph) (path : List TimedNode) : ℚ :=
  ((path.zip path.tail).map
    (fun pr => (graphGet2 graph pr.1.nodeStr pr.2.nodeStr).getD 0)).sum

/-- C7 core: with an empty reservation table, on a graph whose edge
weights are the distances of their endpoints (distance function
nonnegative and triangular), any returned A* path starts at time `t`
and ends at time `t + (sum of traversed edge weights) / speed`. -/
theorem aStar_empty_res_time (cd : LatLng → LatLng → ℚ) (graph : Graph)
    (veh : VehicleInfoForPlanning) (t : ℚ) (fuel : ℕ) (path : List TimedNode)
    (Hin : InnerNodupG graph)
    (Hw : ∀ e ∈ graph, ∀ n ∈ e.2, n.2 = cd (stringToLatLng e.1) (stringToLatLng n.1))
    (Hd0 : ∀ p q, 0 ≤ cd p q)
    (Htri : ∀ p q r, cd p r ≤ cd p q + cd q r)
    (h : A_star_time_aware cd graph veh t ⟨[], []⟩ fuel = some path) :
    ∃ fst lst, path.head? = some fst ∧ path.getLast? = some lst ∧
      fst.time = ((t : ℚ) : WithTop ℚ) ∧
      lst.time = ((t : ℚ) : WithTop ℚ) +
        ((edgeWeightSum graph path / veh.request.speed : ℚ) : WithTop ℚ) ∧
      wsub lst.time fst.time =
        ((edgeWeightSum graph path / veh.request.speed : ℚ) : WithTop ℚ) ∧
      ∀ pr ∈ path.zip path.tail,
        (graphGet2 graph pr.1.nodeStr pr.2.nodeStr).isSome := by
  have Hs : 0 < veh.request.speed := by
    by_contra hns
    rw [A_star_none_of_nonpos_speed cd graph veh t ⟨[], []⟩ fuel (not_lt.mp hns)] at h
    exact Option.noConfusion h
  have Hww : ∀ (a b : NodeKey) (w : ℚ), graphGet2 graph a b = some w →
      w = cd (stringToLatLng a) (stringToLatLng b) := by
    intro a b w hab
    unfold graphGet2 at hab
    rcases hga : jget graph a with _ | m
    · rw [hga] at hab
      exact Option.noConfusion hab
    · rw [hga] at hab
      have hab' : jget m b = some w := hab
      exact Hw (a, m) (mem_of_jget_eq_some hga) (b, w) (mem_of_jget_eq_some hab')
  have Hw0 : ∀ (a b : NodeKey) (w : ℚ), graphGet2 graph a b = some w → 0 ≤ w := by
    intro a b w hab
    rw [Hww a b w hab]
    exact Hd0 _ _
  have Hcons : ∀ (a b : NodeKey) (w : ℚ), graphGet2 graph a b = some w →
      heuristic cd (stringToLatLng a) (stringToLatLng veh.effectiveEndNodeStr)
          veh.request.speed ≤
        ((w / veh.request.speed : ℚ) : WithTop ℚ) +
          heuristic cd (stringToLatLng b) (stringToLatLng veh.effectiveEndNodeStr)
            veh.request.speed := by
    intro a b w hab
    rw [heuristic_of_pos cd _ _ _ Hs, heuristic_of_pos cd _ _ _ Hs,
      ← WithTop.coe_add, WithTop.coe_le_coe, div_add_div_same, Hww a b w hab]
    exact div_le_div_of_nonneg_right
      (Htri (stringToLatLng a) (stringToLatLng b)
        (stringToLatLng veh.effectiveEndNodeStr)) Hs.le
  simp only [A_star_time_aware] at h
  split at h
  · exact absurd h (by simp)
  · rename_i goalItem stF heq
    split at h
    · exact absurd h (by simp)
    · rename_i seq hwb
      have hinv0 : AInv cd graph veh (stringToLatLng veh.effectiveEndNodeStr)
          ⟨[⟨veh.effectiveStartNodeStr, 0,
            heuristic cd (stringToLatLng veh.effectiveStartNodeStr)
              (stringToLatLng veh.effectiveEndNodeStr) veh.request.speed,
            ((t : ℚ) : WithTop ℚ), none⟩], [],
            jset (graph.foldl (fun m e => jset m e.1 (⊤ : WithTop ℚ)) [])
              veh.effectiveStartNodeStr 0⟩ := by
        have hstart0 : gsAt (jset (graph.foldl (fun m e => jset m e.1 (⊤ : WithTop ℚ))
            []) veh.effectiveStartNodeStr 0) veh.effectiveStartNodeStr = 0 :=
          gsAt_jset_self _ _ _
        refine ⟨by simp [OSKeysNodup], ?_, ?_, ?_, ?_, hstart0⟩
        · intro it hit
          rw [List.mem_singleton] at hit
          subst hit
          exact ⟨hstart0, (zero_add _).symm⟩
        · intro v u hvu
          exact absurd hvu (by simp [jget_nil])
        · intro b u hbu
          exact absurd hbu (by simp [jget_nil])
        · intro k
          by_cases hk : k = veh.effectiveStartNodeStr
          · rw [hk, hstart0]
          · rw [gsAt_jset_ne _ _ _ _ (fun hc => hk hc.symm)]
            unfold gsAt
            rcases gs0_values graph k with h0 | h0
            · rw [h0]
              exact le_top
            · rw [h0]
              exact le_top
      have hinvF : AInv cd graph veh (stringToLatLng veh.effectiveEndNodeStr) stF :=
        aStarLoopC7_final cd graph veh _ Hs Hcons Hw0 Hin fuel _ _ stF hinv0 heq
      obtain ⟨hhead, hchain⟩ := walkBack_head_chain stF.cameFrom
        veh.effectiveStartNodeStr (stF.cameFrom.length + 1) goalItem.nodeStr [] seq hwb
        (List.chain'_singleton _)
      have hchainW : List.Chain' (fun x y => ∃ w, graphGet2 graph x y = some w ∧
          gsAt stF.gScores y = gsAt stF.gScores x +
            ((w / veh.request.speed : ℚ) : WithTop ℚ)) seq :=
        hchain.imp (fun a b hab => hinvF.2.2.1 b a hab)
      rcases seq with _ | ⟨s0, seqtl⟩
      · exact absurd hhead (by simp)
      · have hs0 : s0 = veh.effectiveStartNodeStr := Option.some_inj.mp hhead
        have ha0 : gsAt stF.gScores s0 = ((0 : ℚ) : WithTop ℚ) := by
          rw [hs0, hinvF.2.2.2.2.2]
          norm_cast
        obtain ⟨hfin, hlast⟩ := chain_telescope stF.gScores graph veh.request.speed
          seqtl s0 0 hchainW ha0
        have hsome : ∀ n ∈ s0 :: seqtl,
            (jget stF.gScores n).map (fun g => TimedNode.mk n (stringToLatLng n)
              (((t : ℚ) : WithTop ℚ) + g)) = some (timedOf stF.gScores t n) := by
          intro n hn
          obtain ⟨q, hq⟩ := hfin n hn
          have hjget : jget stF.gScores n = some ((q : ℚ) : WithTop ℚ) := by
            unfold gsAt at hq
            rcases hj : jget stF.gScores n with _ | y
            · rw [hj] at hq
              exact absurd hq (by simp)
            · rw [hj] at hq
              rw [Option.getD_some] at hq
              rw [hq]
          rw [hjget]
          unfold timedOf
          rw [hq]
          rfl
        have h2 := mapM_eq_map
          (fun n => (jget stF.gScores n).map (fun g => TimedNode.mk n
            (stringToLatLng n) (((t : ℚ) : WithTop ℚ) + g)))
          (timedOf stF.gScores t) (s0 :: seqtl) hsome
        have hpath : path = (s0 :: seqtl).map (timedOf stF.gScores t) :=
          (Option.some_inj.mp (h2.symm.trans h)).symm
        have hWsum : edgeWeightSum graph ((s0 :: seqtl).map (timedOf stF.gScores t)) =
            nkWeightSum graph (s0 :: seqtl) := by
          unfold edgeWeightSum nkWeightSum
          rw [show ((s0 :: seqtl).map (timedOf stF.gScores t)).tail =
            seqtl.map (timedOf stF.gScores t) from rfl,
            show ((s0 :: seqtl).map (timedOf stF.gScores t)) =
              (s0 :: seqtl).map (timedOf stF.gScores t) from rfl]
          rw [List.zip_map, List.map_map]
          rfl
        refine ⟨timedOf stF.gScores t s0,
          timedOf stF.gScores t ((s0 :: seqtl).getLast (List.cons_ne_nil s0 seqtl)),
          ?_, ?_, ?_, ?_, ?_, ?_⟩
        · rw [hpath]
          rfl
        · rw [hpath, getLast?_map, List.getLast?_eq_getLast (s0 :: seqtl)
            (List.cons_ne_nil s0 seqtl)]
          rfl
        · show ((t : ℚ) : WithTop ℚ) + gsAt stF.gScores s0 = ((t : ℚ) : WithTop ℚ)
          rw [ha0]
          norm_num
        · show ((t : ℚ) : WithTop ℚ) +
            gsAt stF.gScores ((s0 :: seqtl).getLast (List.cons_ne_nil s0 seqtl)) = _
          rw [hlast, hpath, hWsum]
          norm_num
        · show wsub (((t : ℚ) : WithTop ℚ) +
            gsAt stF.gScores ((s0 :: seqtl).getLast (List.cons_ne_nil s0 seqtl)))
            (((t : ℚ) : WithTop ℚ) + gsAt stF.gScores s0) = _
          rw [hlast, ha0, hpath, hWsum]
          rw [show (((t : ℚ) : WithTop ℚ) + ((0 : ℚ) : WithTop ℚ)) =
            ((t : ℚ) : WithTop ℚ) by norm_num]
          rw [← WithTop.coe_add, wsub_coe_coe]
          norm_num
        · intro pr hpr
          rw [hpath] at hpr
          rw [show ((s0 :: seqtl).map (timedOf stF.gScores t)).tail =
            seqtl.map (timedOf stF.gScores t) from rfl, List.zip_map] at hpr
          rcases List.mem_map.mp hpr with ⟨pr', hpr', hpreq⟩
          obtain ⟨w, hw, _⟩ := chain_zip_pairs _ (s0 :: seqtl) hchainW pr' hpr'
          rw [← hpreq]
          rw [show (Prod.map (timedOf stF.gScores t) (timedOf stF.gScores t)
            pr').1.nodeStr = pr'.1 from rfl,
            show (Prod.map (timedOf stF.gScores t) (timedOf stF.gScores t)
              pr').2.nodeStr = pr'.2 from rfl, hw]
          rfl

/-! ## Witness fixtures -/

/-- Concrete computable distance used to instantiate the abstract
`calculateDistance` parameter in witnesses and counterexamples. -/
def taxicab (p q : LatLng) : ℚ := |p.lat - q.lat| + |p.lng - q.lng|

/-- Two connected nodes (0,0) and (0,1°·10⁻⁸-grid), edge weight 5. -/
def sampleGraph : Graph :=
  [((0, 0), [((0, 100000000), 5)]), ((0, 100000000), [((0, 0), 5)])]

/-- Two isolated nodes: A* between them must fail. -/
def discGraph : Graph := [((0, 0), []), ((100, 100), [])]

/-- Empty reservation table. -/
def emptyReservations : GlobalReservations := ⟨[], []⟩

/-- Vehicle between the two disconnected nodes of `discGraph`. -/
def discVehicle : VehicleInfoForPlanning :=
  ⟨⟨"w4", 1, 2, ⟨0, 0⟩, ⟨1, 1⟩, 3⟩, (0, 0), (100, 100)⟩

/-- Zero-speed vehicle whose start and end coincide. -/
def zeroSpeedVehicle : VehicleInfoForPlanning :=
  ⟨⟨"w0", 0, 2, ⟨0, 0⟩, ⟨0, 0⟩, 0⟩, (0, 0), (0, 0)⟩

/-- Unit-speed vehicle across `sampleGraph`. -/
def sampleVehicle : VehicleInfoForPlanning :=
  ⟨⟨"w1", 1, 2, ⟨0, 0⟩, ⟨0, 1⟩, 0⟩, (0, 0), (0, 100000000)⟩

/-! ### Estimator decomposition and fold lemmas -/

/-- The segment-reservation list consulted for the edge `{u,v}`. -/
def segListOf (res : GlobalReservations) (u v : NodeKey) : List SegmentOccupation :=
  (jget res.segmentOccupations (segmentKey u v)).getD []

/-- The node-reservation list consulted for node `v`. -/
def nodeListOf (res : GlobalReservations) (v : NodeKey) : List NodeOccupation :=
  (jget res.nodeOccupations v).getD []

/-- The current vehicle's tail-exit time for the edge `{u,v}`. -/
def segTailExit (dep : WithTop ℚ) (d len speed : ℚ) : WithTop ℚ :=
  dep + (((d + len) / speed : ℚ) : WithTop ℚ)

/-- No other-vehicle reservation on segment `{u,v}` or node `v`
time-overlaps the current vehicle's occupation windows (the exact
overlap tests of the source). -/
def conflictFree (u v : NodeKey) (dep arr : WithTop ℚ) (curId : String)
    (len speed : ℚ) (res : GlobalReservations) (d : ℚ) : Prop :=
  (∀ R ∈ segListOf res u v, R.vehicleId = curId ∨
      ¬ (max dep R.startTime < min (segTailExit dep d len speed) R.endTime)) ∧
  (∀ R ∈ nodeListOf res v, R.vehicleId = curId ∨
      ¬ (max arr R.entryTime <
          min (arr + (NODE_CLEARANCE_TIME_SECONDS : WithTop ℚ)) R.exitTime))

instance (u v : NodeKey) (dep arr : WithTop ℚ) (curId : String) (len speed : ℚ)
    (res : GlobalReservations) (d : ℚ) :
    Decidable (conflictFree u v dep arr curId len speed res d) := by
  unfold conflictFree; infer_instance

theorem foldl_ge_init {β : Type} (f : WithTop ℚ → β → WithTop ℚ)
    (hf : ∀ acc R, acc ≤ f acc R) (l : List β) :
    ∀ acc : WithTop ℚ, acc ≤ l.foldl f acc := by
  induction l with
  | nil => intro acc; simp
  | cons x xs ih => intro acc; exact le_trans (hf acc x) (ih (f acc x))

theorem foldl_eq_of_fix {β : Type} (f : WithTop ℚ → β → WithTop ℚ) (l : List β)
    (hl : ∀ acc R, R ∈ l → f acc R = acc) :
    ∀ acc : WithTop ℚ, l.foldl f acc = acc := by
  induction l with
  | nil => intro acc; simp
  | cons x xs ih =>
    intro acc
    rw [List.foldl_cons, hl acc x (List.mem_cons_self x xs)]
    exact ih (fun acc R hm => hl acc R (List.mem_cons_of_mem x hm)) acc

theorem foldl_ge_of_mem {β : Type} (f : WithTop ℚ → β → WithTop ℚ)
    (hf : ∀ acc R, acc ≤ f acc R) (l : List β) (R : β) (hR : R ∈ l)
    (b : WithTop ℚ) (hb : ∀ acc, b ≤ f acc R) :
    ∀ acc : WithTop ℚ, b ≤ l.foldl f acc := by
  induction l with
  | nil => exact absurd hR (List.not_mem_nil R)
  | cons x xs ih =>
    intro acc
    rcases List.mem_cons.mp hR with h | h
    · subst h
      rw [List.foldl_cons]
      exact le_trans (hb acc) (foldl_ge_init f hf xs (f acc R))
    · exact ih h (f acc x)

theorem segConflictStep_ge (u v : NodeKey) (curId : String) (fe te : WithTop ℚ)
    (lst : List SegmentOccupation) (acc : WithTop ℚ) (R : SegmentOccupation) :
    acc ≤ segConflictStep u v curId fe te lst acc R := by
  unfold segConflictStep
  split
  · exact le_rfl
  · split
    · refine le_trans ?_ (le_max_left _ _)
      split
      · split
        · exact le_max_left _ _
        · exact le_rfl
      · exact le_rfl
    · exact le_rfl

theorem nodeConflictStep_ge (curId : String) (arr cu : WithTop ℚ)
    (acc : WithTop ℚ) (R : NodeOccupation) :
    acc ≤ nodeConflictStep curId arr cu acc R := by
  unfold nodeConflictStep
  split
  · exact le_rfl
  · split
    · exact le_max_left _ _
    · exact le_rfl

theorem segWaitOf_pos (fe : WithTop ℚ) (R : SegmentOccupation)
    (h : fe < R.endTime) : 0 < segWaitOf fe R := by
  unfold segWaitOf
  rw [if_pos h]
  exact wsub_pos_of_lt _ _ h

theorem nodeWaitOf_pos (arr : WithTop ℚ) (R : NodeOccupation)
    (h : arr < R.exitTime) : 0 < nodeWaitOf arr R := by
  unfold nodeWaitOf
  rw [if_pos h]
  exact wsub_pos_of_lt _ _ h

theorem segConflictStep_ge_wait (u v : NodeKey) (curId : String) (fe te : WithTop ℚ)
    (lst : List SegmentOccupation) (acc : WithTop ℚ) (R : SegmentOccupation)
    (hother : ¬ R.vehicleId = curId)
    (hover : max fe R.startTime < min te R.endTime) :
    segWaitOf fe R ≤ segConflictStep u v curId fe te lst acc R := by
  unfold segConflictStep
  rw [if_neg hother, if_pos hover]
  exact le_max_right _ _

theorem nodeConflictStep_ge_wait (curId : String) (arr cu : WithTop ℚ)
    (acc : WithTop ℚ) (R : NodeOccupation)
    (hother : ¬ R.vehicleId = curId)
    (hover : max arr R.entryTime < min cu R.exitTime) :
    nodeWaitOf arr R ≤ nodeConflictStep curId arr cu acc R := by
  unfold nodeConflictStep
  rw [if_neg hother, if_pos hover]
  exact le_max_right _ _

section ClaimsAndWitnesses

attribute [local semireducible] Rat.mul Rat.inv Rat.add Rat.sub Rat.ofScientific

/-! ## Claim C4 -/

/-- C4: for a successfully projected request on which A* fails, the
orchestrator's planning step emits exactly one plan with status
`FAILED_NO_PATH` and an empty path, and returns the global reservation
table (segment and node maps alike) unchanged. -/
theorem claim_C4 (cd : LatLng → LatLng → ℚ) (g : Graph) (fuel : ℕ)
    (plans : List VehiclePathPlan) (res : GlobalReservations)
    (v : VehicleInfoForPlanning)
    (h : A_star_time_aware cd g v v.request.startTime res fuel = none) :
    processVehicle cd g fuel (plans, res) v =
      (plans ++ [⟨v.request.id, [], 0, PlanStatus.FAILED_NO_PATH⟩], res) :=
  processVehicle_of_none cd g fuel plans res v h

theorem claim_C4_witness :
    A_star_time_aware taxicab discGraph discVehicle discVehicle.request.startTime
        emptyReservations 5 = none ∧
      processVehicle taxicab discGraph 5 ([], emptyReservations) discVehicle =
        ([⟨"w4", [], 0, PlanStatus.FAILED_NO_PATH⟩], emptyReservations) := by
  refine ⟨by decide, ?_⟩
  simpa using claim_C4 taxicab discGraph 5 [] emptyReservations discVehicle (by decide)

/-! ## Claim C6 -/

/-- C6: a vehicle request with zero or negative speed cannot move: its
initial heuristic is infinite, A* never pops a node and returns no
path for any graph, reservation table and fuel; consequently the
planner emits a `FAILED_NO_PATH` plan for such a request. -/
theorem claim_C6 :
    (∀ (cd : LatLng → LatLng → ℚ) (graph : Graph) (veh : VehicleInfoForPlanning)
        (t : ℚ) (res : GlobalReservations) (fuel : ℕ), veh.request.speed ≤ 0 →
        A_star_time_aware cd graph veh t res fuel = none) ∧
    (∀ (cd : LatLng → LatLng → ℚ) (fuel : ℕ) (features : List MapFeature)
        (requests : List VehicleRequest) (r : VehicleRequest), r ∈ requests →
        r.speed ≤ 0 →
        ∃ p ∈ planAllVehicleRoutes cd fuel features requests,
          p.vehicleId = r.id ∧ p.status = PlanStatus.FAILED_NO_PATH) := by
  constructor
  · exact fun cd graph veh t res fuel hs =>
      A_star_none_of_nonpos_speed cd graph veh t res fuel hs
  · intro cd fuel features requests r hr hs
    by_cases hb : buildGraph cd (compatibleFeatures features) = []
    · rw [planAll_empty_base cd fuel features requests hb]
      exact ⟨failedPlan r.id, List.mem_map_of_mem _ hr, rfl, rfl⟩
    · obtain ⟨ext, hext, hplan⟩ := planAll_nonempty_base cd fuel features requests hb
      have : ∃ v ∈ ext, v.request = r := by
        rw [← hext] at hr
        rcases List.mem_map.mp hr with ⟨v, hv, hvr⟩
        exact ⟨v, hv, hvr⟩
      rcases this with ⟨v, hv, hvr⟩
      have hvs : v ∈ sortByStartTime ext := by
        unfold sortByStartTime
        exact (sortBy_perm (fun v => v.request.startTime) ext).mem_iff.mpr hv
      rw [hplan]
      refine ⟨failedPlan v.request.id, ?_, by rw [hvr]; rfl, by rw [hvr]; rfl⟩
      exact foldl_processVehicle_failed_mem cd _ fuel _ _ v hvs (hvr ▸ hs)

theorem claim_C6_witness :
    (0 : ℚ) ≤ 0 ∧
      A_star_time_aware taxicab sampleGraph zeroSpeedVehicle 0 emptyReservations 7 = none ∧
      ∃ p ∈ planAllVehicleRoutes taxicab 7 [] [zeroSpeedVehicle.request],
        p.vehicleId = "w0" ∧ p.status = PlanStatus.FAILED_NO_PATH := by
  refine ⟨le_refl 0, ?_, ?_⟩
  · exact claim_C6.1 taxicab sampleGraph zeroSpeedVehicle 0 emptyReservations 7 (by decide)
  · exact claim_C6.2 taxicab 7 [] [zeroSpeedVehicle.request]
      zeroSpeedVehicle.request (by decide) (by decide)

/-! ## Claim C10 -/

/-- Claim C10 as stated: a single-node path at the vehicle's start time
whenever the effective start and end nodes coincide, *regardless of
speed* (one loop iteration suffices, so any fuel ≥ 1). -/
def C10_stated : Prop :=
  ∀ (cd : LatLng → LatLng → ℚ) (graph : Graph) (veh : VehicleInfoForPlanning)
    (t : ℚ) (res : GlobalReservations) (fuel : ℕ), 1 ≤ fuel →
    veh.effectiveStartNodeStr = veh.effectiveEndNodeStr →
    A_star_time_aware cd graph veh t res fuel =
      some [⟨veh.effectiveStartNodeStr, stringToLatLng veh.effectiveStartNodeStr,
        (t : WithTop ℚ)⟩]

/-- C10 as stated is false: with zero (or negative) speed the start
item's `fScore` is `Infinity`, the open-set scan never selects it, and
A* returns `null` even when start = goal. -/
theorem claim_C10_counterexample : ¬ C10_stated := by
  intro h
  have h1 := h taxicab sampleGraph zeroSpeedVehicle 0 emptyReservations 1 (le_refl 1) rfl
  have h2 : A_star_time_aware taxicab sampleGraph zeroSpeedVehicle 0 emptyReservations 1 =
      none := by decide
  rw [h2] at h1
  exact Option.noConfusion h1

/-- `findMinF` on a one-item open set selects the item when its
`fScore` is finite. -/
theorem findMinF_singleton (it : AStarQueueItem) (h : it.fScore < ⊤) :
    findMinF [it] = some it := by
  simp [findMinF, h]

/-- C10 (amended): for a vehicle of *positive* speed whose effective
start node equals its effective end node, A* pops the start as the goal
in its first iteration and returns the single-node path stamped with
the vehicle's actual start time, for every graph, every reservation
table and every fuel ≥ 1. -/
theorem claim_C10 (cd : LatLng → LatLng → ℚ) (graph : Graph)
    (veh : VehicleInfoForPlanning) (t : ℚ) (res : GlobalReservations) (fuel : ℕ)
    (hs : 0 < veh.request.speed) (hf : 1 ≤ fuel)
    (hse : veh.effectiveStartNodeStr = veh.effectiveEndNodeStr) :
    A_star_time_aware cd graph veh t res fuel =
      some [⟨veh.effectiveStartNodeStr, stringToLatLng veh.effectiveStartNodeStr,
        (t : WithTop ℚ)⟩] := by
  cases fuel with
  | zero => exact absurd hf (by omega)
  | succ n =>
    simp only [A_star_time_aware]
    have hfin : heuristic cd (stringToLatLng veh.effectiveStartNodeStr)
        (stringToLatLng veh.effectiveEndNodeStr) veh.request.speed < ⊤ := by
      rw [heuristic_of_pos cd _ _ _ hs]
      exact WithTop.coe_lt_top _
    unfold aStarLoop
    rw [findMinF_singleton _ hfin]
    simp [hse, walkBack, jget_jset_self, List.mapM, List.mapM.loop]

theorem claim_C10_witness :
    (0 : ℚ) < 1 ∧ 1 ≤ 3 ∧
      A_star_time_aware taxicab sampleGraph
        ⟨⟨"ws", 1, 2, ⟨0, 0⟩, ⟨0, 0⟩, 7⟩, (0, 0), (0, 0)⟩ 7 emptyReservations 3 =
        some [⟨(0, 0), stringToLatLng (0, 0), ((7 : ℚ) : WithTop ℚ)⟩] := by
  refine ⟨by norm_num, by omega, ?_⟩
  exact claim_C10 taxicab sampleGraph
    ⟨⟨"ws", 1, 2, ⟨0, 0⟩, ⟨0, 0⟩, 7⟩, (0, 0), (0, 0)⟩ 7 emptyReservations 3
    (by norm_num) (by omega) rfl

/-! ## Claim C2 -/

/-- C2: for an edge traversal `(u → v)` present in the graph, the
conflict estimator returns `0` when no other-vehicle reservation on
segment `{u,v}` or on node `v` overlaps the vehicle's occupation
windows, and otherwise returns the maximum computed wait
(`maxEstimatedDelayThisStep`) plus the 30-second inconvenience
penalty. -/
theorem claim_C2 (u v : NodeKey) (dep arr : WithTop ℚ) (curId : String)
    (len speed : ℚ) (res : GlobalReservations) (graph : Graph) (d : ℚ)
    (hd : graphGet2 graph u v = some d) :
    (conflictFree u v dep arr curId len speed res d →
      calculateConflictPenalty_WithEstimatedDelay u v dep arr curId len speed res graph = 0) ∧
    (¬ conflictFree u v dep arr curId len speed res d →
      calculateConflictPenalty_WithEstimatedDelay u v dep arr curId len speed res graph =
        maxEstimatedDelay u v dep arr curId len speed res d +
          (INCONVENIENCE_PENALTY_SECONDS : WithTop ℚ)) := by
  have hrw : calculateConflictPenalty_WithEstimatedDelay u v dep arr curId len speed res graph =
      if 0 < maxEstimatedDelay u v dep arr curId len speed res d then
        maxEstimatedDelay u v dep arr curId len speed res d +
          (INCONVENIENCE_PENALTY_SECONDS : WithTop ℚ)
      else 0 := by
    unfold calculateConflictPenalty_WithEstimatedDelay
    rw [hd]
  constructor
  · intro hfree
    unfold conflictFree segListOf nodeListOf segTailExit at hfree
    have hzero : maxEstimatedDelay u v dep arr curId len speed res d = 0 := by
      unfold maxEstimatedDelay
      rw [foldl_eq_of_fix _ _ ?_, foldl_eq_of_fix _ _ ?_]
      · intro acc R hm
        unfold segConflictStep
        rcases hfree.1 R hm with hid | hov
        · rw [if_pos hid]
        · by_cases hid2 : R.vehicleId = curId
          · rw [if_pos hid2]
          · rw [if_neg hid2, if_neg hov]
      · intro acc R hm
        unfold nodeConflictStep
        rcases hfree.2 R hm with hid | hov
        · rw [if_pos hid]
        · by_cases hid2 : R.vehicleId = curId
          · rw [if_pos hid2]
          · rw [if_neg hid2, if_neg hov]
    rw [hrw, hzero]
    simp
  · intro hconf
    have hpos : 0 < maxEstimatedDelay u v dep arr curId len speed res d := by
      unfold conflictFree at hconf
      rw [not_and_or] at hconf
      unfold maxEstimatedDelay
      rcases hconf with hc | hc
      · push_neg at hc
        rcases hc with ⟨R, hm, hid, hov⟩
        have hwait : 0 < segWaitOf dep R := by
          refine segWaitOf_pos dep R ?_
          calc dep ≤ max dep R.startTime := le_max_left _ _
            _ < min (segTailExit dep d len speed) R.endTime := hov
            _ ≤ R.endTime := min_le_right _ _
        refine lt_of_lt_of_le hwait ?_
        refine foldl_ge_init _ (fun acc R' => nodeConflictStep_ge curId _ _ acc R') _ _ |>.trans'
          ?_
        exact foldl_ge_of_mem _ (fun acc R' => segConflictStep_ge u v curId _ _ _ acc R') _ R hm
          (segWaitOf dep R)
          (fun acc => segConflictStep_ge_wait u v curId _ _ _ acc R hid hov) 0
      · push_neg at hc
        rcases hc with ⟨R, hm, hid, hov⟩
        have hwait : 0 < nodeWaitOf arr R := by
          refine nodeWaitOf_pos arr R ?_
          calc arr ≤ max arr R.entryTime := le_max_left _ _
            _ < min (arr + (NODE_CLEARANCE_TIME_SECONDS : WithTop ℚ)) R.exitTime := hov
            _ ≤ R.exitTime := min_le_right _ _
        refine lt_of_lt_of_le hwait ?_
        exact foldl_ge_of_mem _ (fun acc R' => nodeConflictStep_ge curId _ _ acc R') _ R hm
          (nodeWaitOf arr R)
          (fun acc => nodeConflictStep_ge_wait curId _ _ acc R hid hov) _
    rw [hrw, if_pos hpos]

/-- A reservation of another vehicle traversing `sampleGraph`'s single
edge in the direction `(0,10⁸) → (0,0)` between times 0 and 100. -/
def busyReservations : GlobalReservations :=
  ⟨[(segmentKey (0, 0) (0, 100000000),
      [⟨"other", (0, 100000000), (0, 0), ((0 : ℚ) : WithTop ℚ), ((100 : ℚ) : WithTop ℚ)⟩])],
   []⟩

theorem claim_C2_witness :
    graphGet2 sampleGraph (0, 0) (0, 100000000) = some 5 ∧
      (¬ conflictFree (0, 0) (0, 100000000) ((0 : ℚ) : WithTop ℚ) ((5 : ℚ) : WithTop ℚ)
          "w1" 2 1 busyReservations 5) ∧
      calculateConflictPenalty_WithEstimatedDelay (0, 0) (0, 100000000)
          ((0 : ℚ) : WithTop ℚ) ((5 : ℚ) : WithTop ℚ) "w1" 2 1 busyReservations sampleGraph =
        maxEstimatedDelay (0, 0) (0, 100000000) ((0 : ℚ) : WithTop ℚ) ((5 : ℚ) : WithTop ℚ)
          "w1" 2 1 busyReservations 5 + (INCONVENIENCE_PENALTY_SECONDS : WithTop ℚ) := by
  refine ⟨by decide, by decide, ?_⟩
  exact (claim_C2 (0, 0) (0, 100000000) ((0 : ℚ) : WithTop ℚ) ((5 : ℚ) : WithTop ℚ)
    "w1" 2 1 busyReservations sampleGraph 5 (by decide)).2 (by decide)

/-! ## Claim C3 -/

/-- C3: in the segment-conflict loop, an overlapping reservation `R` of
another vehicle recorded in the opposite direction `(v → u)` with
positive induced wait has `HUGE_PENALTY/1000 = 10⁶` seconds added to
its wait before the maximum is taken, and the estimator's result is in
turn at least that sum — head-on edges are effectively forbidden. -/
theorem claim_C3 (u v : NodeKey) (dep arr : WithTop ℚ) (curId : String)
    (len speed : ℚ) (res : GlobalReservations) (graph : Graph) (d : ℚ)
    (acc : WithTop ℚ) (R : SegmentOccupation)
    (hd : graphGet2 graph u v = some d)
    (hmem : R ∈ segListOf res u v)
    (hother : ¬ R.vehicleId = curId)
    (hover : max dep R.startTime < min (segTailExit dep d len speed) R.endTime)
    (hdir1 : R.nodeA_str = v) (hdir2 : R.nodeB_str = u)
    (hw : 0 < segWaitOf dep R) :
    HUGE_PENALTY / 1000 = 1000000 ∧
    segConflictStep u v curId dep (segTailExit dep d len speed) (segListOf res u v) acc R =
      max acc (segWaitOf dep R + ((1000000 : ℚ) : WithTop ℚ)) ∧
    segWaitOf dep R + ((1000000 : ℚ) : WithTop ℚ) ≤
      calculateConflictPenalty_WithEstimatedDelay u v dep arr curId len speed res graph := by
  have hH : (HUGE_PENALTY / 1000 : ℚ) = 1000000 := by norm_num [HUGE_PENALTY]
  have hstep : ∀ acc' : WithTop ℚ,
      segConflictStep u v curId dep (segTailExit dep d len speed) (segListOf res u v) acc' R =
        max acc' (segWaitOf dep R + ((1000000 : ℚ) : WithTop ℚ)) := by
    intro acc'
    have hfind : ((segListOf res u v).find? (fun r =>
        decide (r.vehicleId = R.vehicleId ∧
          ((r.nodeA_str = v ∧ r.nodeB_str = u) ∨
           (r.nodeA_str = u ∧ r.nodeB_str = v))))).isSome := by
      rw [List.find?_isSome]
      exact ⟨R, hmem, by simp [hdir1, hdir2]⟩
    simp only [segConflictStep]
    rw [if_neg hother, if_pos hover, if_pos hfind, if_pos ⟨hdir1, hdir2, hw⟩, hH]
    rw [max_assoc]
    congr 1
    refine max_eq_left ?_
    exact le_add_of_nonneg_right (coe_nonneg_q _ (by norm_num))
  refine ⟨hH, hstep acc, ?_⟩
  have hrw : calculateConflictPenalty_WithEstimatedDelay u v dep arr curId len speed res graph =
      if 0 < maxEstimatedDelay u v dep arr curId len speed res d then
        maxEstimatedDelay u v dep arr curId len speed res d +
          (INCONVENIENCE_PENALTY_SECONDS : WithTop ℚ)
      else 0 := by
    unfold calculateConflictPenalty_WithEstimatedDelay
    rw [hd]
  have hbound : segWaitOf dep R + ((1000000 : ℚ) : WithTop ℚ) ≤
      maxEstimatedDelay u v dep arr curId len speed res d := by
    unfold maxEstimatedDelay
    refine le_trans ?_ (foldl_ge_init _ (fun acc' R' => nodeConflictStep_ge curId _ _ acc' R') _ _)
    refine foldl_ge_of_mem _ (fun acc' R' => segConflictStep_ge u v curId _ _ _ acc' R') _ R hmem
      _ ?_ 0
    intro acc'
    show segWaitOf dep R + ((1000000 : ℚ) : WithTop ℚ) ≤
      segConflictStep u v curId dep (segTailExit dep d len speed) (segListOf res u v) acc' R
    rw [hstep acc']
    exact le_max_right _ _
  have hpos : 0 < maxEstimatedDelay u v dep arr curId len speed res d :=
    lt_of_lt_of_le
      (lt_of_lt_of_le hw (le_add_of_nonneg_right (coe_nonneg_q _ (by norm_num)))) hbound
  rw [hrw, if_pos hpos]
  exact hbound.trans
    (le_add_of_nonneg_right (coe_nonneg_q _ (by norm_num [INCONVENIENCE_PENALTY_SECONDS])))

theorem claim_C3_witness :
    graphGet2 sampleGraph (0, 0) (0, 100000000) = some 5 ∧
      segConflictStep (0, 0) (0, 100000000) "w1" ((0 : ℚ) : WithTop ℚ)
          (segTailExit ((0 : ℚ) : WithTop ℚ) 5 2 1)
          (segListOf busyReservations (0, 0) (0, 100000000)) 0
          ⟨"other", (0, 100000000), (0, 0), ((0 : ℚ) : WithTop ℚ), ((100 : ℚ) : WithTop ℚ)⟩ =
        max 0 (segWaitOf ((0 : ℚ) : WithTop ℚ)
            ⟨"other", (0, 100000000), (0, 0), ((0 : ℚ) : WithTop ℚ), ((100 : ℚ) : WithTop ℚ)⟩ +
          ((1000000 : ℚ) : WithTop ℚ)) := by
  refine ⟨by decide, ?_⟩
  exact (claim_C3 (0, 0) (0, 100000000) ((0 : ℚ) : WithTop ℚ) ((5 : ℚ) : WithTop ℚ)
    "w1" 2 1 busyReservations sampleGraph 5 0
    ⟨"other", (0, 100000000), (0, 0), ((0 : ℚ) : WithTop ℚ), ((100 : ℚ) : WithTop ℚ)⟩
    (by decide) (by decide) (by decide) (by decide) (by decide) (by decide) (by decide)).2.1

/-! ## Claim C1 -/

/-- Claim C1 as stated: the returned plans (including failures) are one
per request, in ascending desired-start-time order (the internal
priority sort). -/
def C1_stated : Prop :=
  ∀ (cd : LatLng → LatLng → ℚ) (fuel : ℕ) (features : List MapFeature)
    (requests : List VehicleRequest),
    (planAllVehicleRoutes cd fuel features requests).map (fun p => p.vehicleId) =
      (sortBy (fun r : VehicleRequest => r.startTime) requests).map (fun r => r.id)

/-- A request with desired start time 5 (listed first). -/
def lateRequest : VehicleRequest := ⟨"a", 1, 1, ⟨0, 0⟩, ⟨0, 1/1000⟩, 5⟩

/-- A request with desired start time 1 (listed second). -/
def earlyRequest : VehicleRequest := ⟨"b", 1, 1, ⟨0, 0⟩, ⟨0, 1/1000⟩, 1⟩

/-- A single straight road. -/
def straightRoad : MapFeature :=
  ⟨"r", "road", some [⟨0, 0⟩, ⟨0, 1/1000⟩], false⟩

/-- C1 as stated is false: with an empty road set both projections
fail, the failed plans are emitted in *input* order during the
projection phase — before the priority sort, which only covers
successfully projected requests — so the output order ["a", "b"]
contradicts the priority order ["b", "a"]. -/
theorem claim_C1_counterexample : ¬ C1_stated := by
  intro h
  have h1 := h taxicab 10 [] [lateRequest, earlyRequest]
  have h2 : (planAllVehicleRoutes taxicab 10 [] [lateRequest, earlyRequest]).map
      (fun p => p.vehicleId) = ["a", "b"] := by decide
  have h3 : (sortBy (fun r : VehicleRequest => r.startTime)
      [lateRequest, earlyRequest]).map (fun r => r.id) = ["b", "a"] := by decide
  rw [h2, h3] at h1
  exact absurd h1 (by decide)

/-- C1 (amended): exactly one plan per input request always; the
priority order (`sortBy startTime`, stable and a permutation of the
input) governs the output exactly when the base graph is non-empty —
then every request projects and the plans are emitted in ascending
desired-start-time order.  When the base graph is empty, every request
fails projection and the failed plans are emitted in input order
instead. -/
theorem claim_C1 (cd : LatLng → LatLng → ℚ) (fuel : ℕ) (features : List MapFeature)
    (requests : List VehicleRequest) :
    (planAllVehicleRoutes cd fuel features requests).length = requests.length ∧
    (sortBy (fun r : VehicleRequest => r.startTime) requests).Perm requests ∧
    (sortBy (fun r : VehicleRequest => r.startTime) requests).Pairwise
      (fun a b => a.startTime ≤ b.startTime) ∧
    (buildGraph cd (compatibleFeatures features) = [] →
      (planAllVehicleRoutes cd fuel features requests).map (fun p => p.vehicleId) =
          requests.map (fun r => r.id) ∧
        ∀ p ∈ planAllVehicleRoutes cd fuel features requests,
          p.status = PlanStatus.FAILED_NO_PATH) ∧
    (buildGraph cd (compatibleFeatures features) ≠ [] →
      (planAllVehicleRoutes cd fuel features requests).map (fun p => p.vehicleId) =
        (sortBy (fun r : VehicleRequest => r.startTime) requests).map (fun r => r.id)) := by
  have hempty : buildGraph cd (compatibleFeatures features) = [] →
      (planAllVehicleRoutes cd fuel features requests).map (fun p => p.vehicleId) =
          requests.map (fun r => r.id) ∧
        ∀ p ∈ planAllVehicleRoutes cd fuel features requests,
          p.status = PlanStatus.FAILED_NO_PATH := by
    intro hb
    rw [planAll_empty_base cd fuel features requests hb]
    constructor
    · rw [List.map_map]
      rfl
    · intro p hp
      rcases List.mem_map.mp hp with ⟨r, _, hpr⟩
      rw [← hpr]
      rfl
  have hnonempty : buildGraph cd (compatibleFeatures features) ≠ [] →
      (planAllVehicleRoutes cd fuel features requests).map (fun p => p.vehicleId) =
        (sortBy (fun r : VehicleRequest => r.startTime) requests).map (fun r => r.id) := by
    intro hb
    obtain ⟨ext, hext, hplan⟩ := planAll_nonempty_base cd fuel features requests hb
    rw [hplan]
    rw [foldl_processVehicle_ids]
    have hcomm : sortBy (fun r : VehicleRequest => r.startTime) requests =
        (sortByStartTime ext).map (fun v => v.request) := by
      rw [← hext]
      exact sortBy_map (fun v => v.request.startTime) (fun r => r.startTime)
        (fun v => v.request) (fun a => rfl) ext
    rw [hcomm, List.map_map]
    simp [sortByStartTime]
  refine ⟨?_, sortBy_perm _ requests, sortBy_sorted _ requests, hempty, hnonempty⟩
  by_cases hb : buildGraph cd (compatibleFeatures features) = []
  · have h1 := (hempty hb).1
    have := congrArg List.length h1
    simpa using this
  · have h1 := hnonempty hb
    have h2 := congrArg List.length h1
    have h3 := (sortBy_perm (fun r : VehicleRequest => r.startTime) requests).length_eq
    simp only [List.length_map] at h2
    rw [h2, h3]

theorem claim_C1_witness :
    buildGraph taxicab (compatibleFeatures [straightRoad]) ≠ [] ∧
      (planAllVehicleRoutes taxicab 20 [straightRoad] [lateRequest, earlyRequest]).map
        (fun p => p.vehicleId) = ["b", "a"] := by
  refine ⟨by decide, ?_⟩
  rw [(claim_C1 taxicab 20 [straightRoad] [lateRequest, earlyRequest]).2.2.2.2 (by decide)]
  decide

/-! ## Claim C5 -/

/-- C5 as stated in the spec: `buildGraph` output and every
`addPointToGraph` extension of it are undirected and self-loop-free. -/
def C5_stated : Prop :=
  (∀ (cd : LatLng → LatLng → ℚ) (roads : List MapFeature),
    UndirectedNoSelfLoops (buildGraph cd roads)) ∧
  (∀ (cd : LatLng → LatLng → ℚ) (g : Graph) (t : LatLng) (info : NearestPointInfo),
    UndirectedNoSelfLoops g → findNearestPointOnGraph cd t g = some info →
    UndirectedNoSelfLoops (addPointToGraph cd g info).2)

/-- A road that `processRoad` detects as a loop (first and last points
within the 1e-7 `arePointsEqual` tolerance): after the duplicate
terminal vertex is popped, the wrap-around seeded pair joins the third
point `(0, 4e-9)` back to the first point `(0, 0)`, and both round to
the *same* 8-decimal node key, so seeding creates a self-loop edge at
`(0, 0)`. -/
def loopRoad : MapFeature :=
  ⟨"r1", "road", some [⟨0, 0⟩, ⟨1/1000, 0⟩, ⟨0, 4/1000000000⟩, ⟨0, -99/1000000000⟩],
    false⟩

/-- C5 as stated is false: `buildGraph` can emit a self-loop.  On
`loopRoad` the loop's closing pair has both endpoints rounding to node
key `(0, 0)`, and the seeding step inserts the edge unconditionally, so
the built graph stores `(0,0) → (0,0)`. -/
theorem claim_C5_counterexample : ¬ C5_stated := by
  intro h
  exact absurd (h.1 taxicab [loopRoad]).2 (by decide)

/-- C5 (amended): the graph built by `buildGraph` is always undirected
with equal mirror weights and duplicate-free (outer keys and adjacency
lists); it is additionally self-loop-free whenever no seeded road pair
has both endpoints rounding to the same 8-decimal node key (the loop
wrap-around / near-duplicate-chain collision is the only source of
self-loops); and `addPointToGraph` preserves full well-formedness for
every projection result produced by `findNearestPointOnGraph`. -/
theorem claim_C5 :
    (∀ (cd : LatLng → LatLng → ℚ) (roads : List MapFeature),
      SymB (buildGraph cd roads) ∧ NodupKeysG (buildGraph cd roads) ∧
        InnerNodupG (buildGraph cd roads)) ∧
    (∀ (cd : LatLng → LatLng → ℚ) (roads : List MapFeature),
      SeedPairsKeyDistinct roads → IrrB (buildGraph cd roads)) ∧
    (∀ (cd : LatLng → LatLng → ℚ) (g : Graph) (t : LatLng) (info : NearestPointInfo),
      GraphWellFormed g → findNearestPointOnGraph cd t g = some info →
      GraphWellFormed (addPointToGraph cd g info).2) := by
  refine ⟨?_, ?_, ?_⟩
  · intro cd roads
    obtain ⟨hs, hnk, hin⟩ := wfl_buildGraph cd roads
    exact ⟨symB_of_symL _ hnk hin hs, hnk, hin⟩
  · intro cd roads hd
    obtain ⟨hs, hnk, hin⟩ := wfl_buildGraph cd roads
    exact irrB_of_irrL _ hnk (irrL_buildGraph cd roads hd)
  · intro cd g t info hwf hfind
    exact wf_addPointToGraph cd g info hwf
      (findNearest_valid cd t g info hwf.1 hwf.2.1 (symL_of_symB g hwf.2.2.1) hfind)

theorem claim_C5_witness :
    SeedPairsKeyDistinct [straightRoad] ∧
    IrrB (buildGraph taxicab [straightRoad]) ∧
    GraphWellFormed sampleGraph ∧
    findNearestPointOnGraph taxicab ⟨1/100, 1/2⟩ sampleGraph =
      some ⟨⟨0, 1/2⟩, (0, 50000000), ((0, 0), (0, 100000000)), false⟩ ∧
    GraphWellFormed (addPointToGraph taxicab sampleGraph
      ⟨⟨0, 1/2⟩, (0, 50000000), ((0, 0), (0, 100000000)), false⟩).2 := by
  refine ⟨by decide, claim_C5.2.1 taxicab [straightRoad] (by decide), by decide,
    by decide, claim_C5.2.2 taxicab sampleGraph ⟨1/100, 1/2⟩ _ (by decide) (by decide)⟩

/-! ## Claim C8 -/

/-- C8: every path returned by `A_star_time_aware` (on a graph with
nonnegative edge weights) has non-decreasing times at successive timed
nodes, and hence so does every `SUCCESS` plan's path emitted by
`planAllVehicleRoutes` (whose graphs are built from a nonnegative
distance function): each relaxation step adds a nonnegative cost (base
travel time at positive speed plus a nonnegative conflict penalty), so
`cameFrom` parents never exceed their children's `gScore`, and the
reconstruction stamps nodes with `startTime + gScore`. -/
theorem claim_C8 :
    (∀ (cd : LatLng → LatLng → ℚ) (graph : Graph) (veh : VehicleInfoForPlanning)
      (t : ℚ) (res : GlobalReservations) (fuel : ℕ) (path : List TimedNode),
      WeightsNonneg graph →
      A_star_time_aware cd graph veh t res fuel = some path →
      List.Chain' (fun a b : TimedNode => a.time ≤ b.time) path) ∧
    (∀ (cd : LatLng → LatLng → ℚ) (fuel : ℕ) (features : List MapFeature)
      (requests : List VehicleRequest), (∀ p q, 0 ≤ cd p q) →
      ∀ plan ∈ planAllVehicleRoutes cd fuel features requests,
        plan.status = PlanStatus.SUCCESS →
        List.Chain' (fun a b : TimedNode => a.time ≤ b.time) plan.path) := by
  constructor
  · exact aStar_time_monotone
  · intro cd fuel features requests hd0 plan hplan hstat
    by_cases hb : buildGraph cd (compatibleFeatures features) = []
    · rw [planAll_empty_base cd fuel features requests hb] at hplan
      rcases List.mem_map.mp hplan with ⟨r, _, hpr⟩
      rw [← hpr] at hstat
      exact absurd hstat (by simp [failedPlan])
    · obtain ⟨ext, hext, hplanEq⟩ := planAll_nonempty_base cd fuel features requests hb
      rw [hplanEq] at hplan
      refine foldl_processVehicle_success_mono cd _ fuel
        (wnn_snapRequests cd hd0 requests _ [] []
          (wnn_buildGraph cd hd0 (compatibleFeatures features)))
        (sortByStartTime ext) ([], ⟨[], []⟩) ?_ plan hplan hstat
      intro p hp
      exact absurd hp (List.not_mem_nil p)

theorem claim_C8_witness :
    WeightsNonneg sampleGraph ∧
    (∃ path, A_star_time_aware taxicab sampleGraph sampleVehicle 0
        emptyReservations 7 = some path ∧
      List.Chain' (fun a b : TimedNode => a.time ≤ b.time) path) ∧
    (∀ p q, 0 ≤ taxicab p q) ∧
    ∃ plan ∈ planAllVehicleRoutes taxicab 20 [straightRoad] [lateRequest],
      plan.status = PlanStatus.SUCCESS ∧
      List.Chain' (fun a b : TimedNode => a.time ≤ b.time) plan.path := by
  have hd0 : ∀ p q, 0 ≤ taxicab p q := fun p q =>
    add_nonneg (abs_nonneg _) (abs_nonneg _)
  have hsome : (A_star_time_aware taxicab sampleGraph sampleVehicle 0
      emptyReservations 7).isSome = true := by decide
  rcases Option.isSome_iff_exists.mp hsome with ⟨path, hA⟩
  have hplans : ∃ plan ∈ planAllVehicleRoutes taxicab 20 [straightRoad] [lateRequest],
      plan.status = PlanStatus.SUCCESS := by decide
  rcases hplans with ⟨plan, hmem, hstat⟩
  refine ⟨by decide, ⟨path, hA, ?_⟩, hd0, plan, hmem, hstat, ?_⟩
  · exact claim_C8.1 taxicab sampleGraph sampleVehicle 0 emptyReservations 7 path
      (by decide) hA
  · exact claim_C8.2 taxicab 20 [straightRoad] [lateRequest] hd0 plan hmem hstat

/-! ## Claim C7 -/

/-- A two-node graph whose single edge weight is the `taxicab` distance
of its endpoints. -/
def c7Graph : Graph :=
  [((0, 0), [((0, 100000000), 1)]), ((0, 100000000), [((0, 0), 1)])]

/-- C7: against an empty reservation table, every conflict penalty
along existing edges is zero, so any path returned by
`A_star_time_aware` starts at the vehicle's actual start time and ends
exactly at `start time + (sum of traversed edge weights) / speed` —
its total time (last minus first) is the traversed length over speed.
Stated for graphs whose stored weights are the distances of their
endpoints under a nonnegative, triangle-inequality-satisfying distance
function (as produced by the pipeline from the Haversine metric), with
duplicate-free adjacency lists (a JS `Map` invariant). -/
theorem claim_C7 (cd : LatLng → LatLng → ℚ) (graph : Graph)
    (veh : VehicleInfoForPlanning) (t : ℚ) (fuel : ℕ) (path : List TimedNode)
    (Hin : InnerNodupG graph)
    (Hw : ∀ e ∈ graph, ∀ n ∈ e.2, n.2 = cd (stringToLatLng e.1) (stringToLatLng n.1))
    (Hd0 : ∀ p q, 0 ≤ cd p q)
    (Htri : ∀ p q r, cd p r ≤ cd p q + cd q r)
    (h : A_star_time_aware cd graph veh t ⟨[], []⟩ fuel = some path) :
    ∃ fst lst, path.head? = some fst ∧ path.getLast? = some lst ∧
      fst.time = ((t : ℚ) : WithTop ℚ) ∧
      lst.time = ((t : ℚ) : WithTop ℚ) +
        ((edgeWeightSum graph path / veh.request.speed : ℚ) : WithTop ℚ) ∧
      wsub lst.time fst.time =
        ((edgeWeightSum graph path / veh.request.speed : ℚ) : WithTop ℚ) ∧
      ∀ pr ∈ path.zip path.tail,
        (graphGet2 graph pr.1.nodeStr pr.2.nodeStr).isSome :=
  aStar_empty_res_time cd graph veh t fuel path Hin Hw Hd0 Htri h

theorem claim_C7_witness :
    InnerNodupG c7Graph ∧
    (∀ e ∈ c7Graph, ∀ n ∈ e.2,
      n.2 = taxicab (stringToLatLng e.1) (stringToLatLng n.1)) ∧
    (∀ p q, 0 ≤ taxicab p q) ∧
    (∀ p q r, taxicab p r ≤ taxicab p q + taxicab q r) ∧
    ∃ path, A_star_time_aware taxicab c7Graph sampleVehicle 0 ⟨[], []⟩ 7 =
        some path ∧
      ∃ fst lst, path.head? = some fst ∧ path.getLast? = some lst ∧
        fst.time = ((0 : ℚ) : WithTop ℚ) ∧
        lst.time = ((0 : ℚ) : WithTop ℚ) +
          ((edgeWeightSum c7Graph path / sampleVehicle.request.speed : ℚ) :
            WithTop ℚ) ∧
        wsub lst.time fst.time =
          ((edgeWeightSum c7Graph path / sampleVehicle.request.speed : ℚ) :
            WithTop ℚ) ∧
        ∀ pr ∈ path.zip path.tail,
          (graphGet2 c7Graph pr.1.nodeStr pr.2.nodeStr).isSome := by
  have htri : ∀ p q r, taxicab p r ≤ taxicab p q + taxicab q r := by
    intro p q r
    unfold taxicab
    have h1 := abs_sub_le p.lat q.lat r.lat
    have h2 := abs_sub_le p.lng q.lng r.lng
    linarith
  have hd0 : ∀ p q, 0 ≤ taxicab p q := fun p q =>
    add_nonneg (abs_nonneg _) (abs_nonneg _)
  have hsome : (A_star_time_aware taxicab c7Graph sampleVehicle 0 ⟨[], []⟩ 7).isSome =
      true := by decide
  rcases Option.isSome_iff_exists.mp hsome with ⟨path, hA⟩
  exact ⟨by decide, by decide, hd0, htri, path, hA,
    claim_C7 taxicab c7Graph sampleVehicle 0 7 path (by decide) (by decide)
      hd0 htri hA⟩

end ClaimsAndWitnesses

end MapEditorProof
